import Mathlib

/-!
Verification development for the ChoirComposer composition engine.

The Python services under `app/services` (music_theory, lyric_mapping,
score_normalization, score_validation, composer) and the request/score data
model under `app/models.py` are shallowly embedded below.  Conventions used
throughout the embedding:

* Python floats are modelled as exact rationals; decimal literals such as
  0.5 or 1e-9 denote the exact decimal value.  The numeric tolerances that
  the source uses in comparisons (1e-6, 1e-9) are kept literally.
* Python ints are modelled as `Int` (or `Nat` for list indices); `//` on
  nonnegative quantities is modelled with `Int.floor` of the rational
  quotient, and `%` on rationals as `x - y * floor (x / y)`, matching
  Python float modulo for a positive modulus.
* Fallible code is modelled with `Except String` / `Option`; `raise
  ValueError(msg)` becomes `Except.error msg`.
* The standard-library pseudo random generator (`random.seed`,
  `random.Random(seed)`) is not part of the repository; it is modelled as a
  deterministic stream of naturals derived from the seed string.  Only the
  determinism of the generator matters for the properties proved here,
  never the distribution of its values.
* `log_event` calls are side-effect free for the score values and are
  dropped, except where logged data is part of a claim (the generation
  loop keeps its `error_history`).
* String interpolation of numbers uses Lean `toString`; the exact digit
  rendering of numbers inside diagnostic messages is irrelevant to every
  property proved about them (classification looks at prefixes and at
  fixed fragments).
-/

/-! ## Small numeric utilities -/

/-- Exact rational version of the 1e-9 tolerance used by the source. -/
def eps9 : ℚ := 1 / 1000000000

/-- Exact rational version of the 1e-6 tolerance used by the source. -/
def eps6 : ℚ := 1 / 1000000

/-- Python float modulo `x % y` for rationals (sign of the divisor; the
source only ever uses a positive divisor). `x % 0` is modelled as `x`. -/
def qmod (x y : ℚ) : ℚ :=
  if y = 0 then x else x - y * (⌊x / y⌋ : ℤ)

/-- Python floor division `x // y` for rationals (as an integer). `x // 0`
is modelled as `0`. -/
def qfloordiv (x y : ℚ) : ℤ :=
  if y = 0 then 0 else ⌊x / y⌋

/-! ## String helpers (Python string operations used by the source) -/

/-- Python `str.startswith`. -/
def strStartsWith (s p : String) : Bool :=
  p.data.isPrefixOf s.data

/-- Python `str.endswith`. -/
def strEndsWith (s p : String) : Bool :=
  p.data.reverse.isPrefixOf s.data.reverse

/-- Python `fragment in s` (substring containment). -/
def strContainsSub (s p : String) : Bool :=
  (List.range (s.data.length + 1)).any (fun i => p.data.isPrefixOf (s.data.drop i))

/-- Python `str.lower` for the ASCII text handled by the engine. -/
def strLower (s : String) : String :=
  String.mk (s.data.map Char.toLower)

/-- A single-quote character, used inside a few diagnostic messages. -/
def sQuote : String := String.singleton (Char.ofNat 39)

/-- Python `str.strip` (the engine only strips ASCII whitespace). -/
def strStrip (s : String) : String := s.trim

/-- Python `str.splitlines` for the newline-separated section texts (no
empty trailing line after a final newline). -/
def strSplitLines (s : String) : List String :=
  if s.data = [] then []
  else
    let parts := s.splitOn ("\n")
    if parts.getLast? = some ("") then parts.dropLast else parts

/-! ## Deterministic model of the seeded PRNG

Modelled from the spec: the engine derives all randomness from seed strings
through Python `random.seed` / `random.Random(seed)` (the Mersenne Twister,
which lives outside this repository).  The spec only relies on the PRNG
being a deterministic function of its seed; it is modelled as a
deterministic stream of naturals mixed from a hash of the seed string. -/

structure RngState where
  seedHash : ℕ
  counter : ℕ
deriving DecidableEq, Repr

/-- Deterministic hash of a seed string. -/
def strHash (s : String) : ℕ :=
  s.data.foldl (fun h c => (h * 31 + c.toNat) % 4294967296) 7

/-- Python `random.seed(s)` / `random.Random(s)`: the resulting state is a
function of the seed string alone. -/
def rngSeed (s : String) : RngState := ⟨strHash s, 0⟩

/-- One raw draw from the stream. -/
def rngNext (g : RngState) : ℕ × RngState :=
  let z0 := (g.seedHash + (g.counter + 1) * 2654435769) % 4294967296
  let z1 := ((z0 ^^^ (z0 >>> 13)) * 1274126177) % 4294967296
  let z2 := z1 ^^^ (z1 >>> 16)
  (z2, ⟨g.seedHash, g.counter + 1⟩)

/-- Python `rng.random()` as an exact rational in `[0, 1)`. -/
def rngFloat (g : RngState) : ℚ × RngState :=
  let (v, g1) := rngNext g
  ((v % 16777216 : ℕ) / (16777216 : ℚ), g1)

/-- Python `rng.randrange(n)` / `random.randbelow(n)`. -/
def rngBelow (g : RngState) (n : ℕ) : ℕ × RngState :=
  let (v, g1) := rngNext g
  (if n = 0 then 0 else v % n, g1)

/-- Python `rng.randint(a, b)` (both ends inclusive). -/
def rngIntRange (g : RngState) (a b : ℤ) : ℤ × RngState :=
  let (v, g1) := rngNext g
  (a + (v % (b - a + 1).toNat : ℕ), g1)

/-- Python `rng.choice(l)` for a non-empty literal list. -/
def rngChoice [Inhabited α] (g : RngState) (l : List α) : α × RngState :=
  let (i, g1) := rngBelow g l.length
  (l.getD i default, g1)

/-- One backward Fisher-Yates step: swap index `i` with a drawn `j ≤ i`. -/
def rngShuffleStep (g : RngState) (arr : Array α) (i : ℕ) : Array α × RngState :=
  let (j, g1) := rngBelow g (i + 1)
  (arr.swap! i j, g1)

/-- Python `rng.shuffle(l)` (backward Fisher-Yates). -/
def rngShuffle (g : RngState) (l : List α) : List α × RngState :=
  let rec go (arr : Array α) (g : RngState) : ℕ → Array α × RngState
    | 0 => (arr, g)
    | Nat.succ i =>
      if i = 0 then (arr, g)
      else
        let (arr1, g1) := rngShuffleStep g arr i
        go arr1 g1 i
  let (arr, g1) := go l.toArray g l.length
  (arr.toList, g1)

/-! ## music_theory.py -/

/-- `NOTE_TO_SEMITONE` (dict lookup as an Option-valued function). -/
def NOTE_TO_SEMITONE (n : String) : Option ℤ :=
  if n = ("C") then some 0
  else if n = ("C#") then some 1
  else if n = ("Db") then some 1
  else if n = ("D") then some 2
  else if n = ("D#") then some 3
  else if n = ("Eb") then some 3
  else if n = ("E") then some 4
  else if n = ("F") then some 5
  else if n = ("F#") then some 6
  else if n = ("Gb") then some 6
  else if n = ("G") then some 7
  else if n = ("G#") then some 8
  else if n = ("Ab") then some 8
  else if n = ("A") then some 9
  else if n = ("A#") then some 10
  else if n = ("Bb") then some 10
  else if n = ("B") then some 11
  else none

/-- `SEMITONE_TO_NOTE` (natural and sharp spellings only). -/
def SEMITONE_TO_NOTE (pc : ℤ) : String :=
  if pc = 0 then ("C")
  else if pc = 1 then ("C#")
  else if pc = 2 then ("D")
  else if pc = 3 then ("D#")
  else if pc = 4 then ("E")
  else if pc = 5 then ("F")
  else if pc = 6 then ("F#")
  else if pc = 7 then ("G")
  else if pc = 8 then ("G#")
  else if pc = 9 then ("A")
  else if pc = 10 then ("A#")
  else if pc = 11 then ("B")
  else ("C")

def MAJOR_PATTERN : List ℤ := [0, 2, 4, 5, 7, 9, 11]
def MINOR_PATTERN : List ℤ := [0, 2, 3, 5, 7, 8, 10]
def MAJOR_TRIAD_QUALITIES : List String := [(""), ("m"), ("m"), (""), (""), ("m"), ("dim")]
def MINOR_TRIAD_QUALITIES : List String := [("m"), ("dim"), (""), ("m"), ("m"), (""), ("")]

def DEFAULT_KEYS : List String := [("C"), ("G"), ("D"), ("F"), ("Bb"), ("A")]
def DEFAULT_TIME_SIGNATURES : List String := [("4/4"), ("3/4"), ("6/8")]

inductive Voice where
  | soprano
  | alto
  | tenor
  | bass
deriving DecidableEq, Repr

def voiceName : Voice → String
  | .soprano => ("soprano")
  | .alto => ("alto")
  | .tenor => ("tenor")
  | .bass => ("bass")

/-- `VOICE_RANGES` (absolute MIDI ranges, per product request). -/
def VOICE_RANGES : Voice → ℤ × ℤ
  | .soprano => (60, 81)
  | .alto => (55, 74)
  | .tenor => (48, 67)
  | .bass => (40, 60)

/-- `VOICE_TESSITURA` (comfortable MIDI sub-ranges). -/
def VOICE_TESSITURA : Voice → ℤ × ℤ
  | .soprano => (62, 79)
  | .alto => (57, 72)
  | .tenor => (50, 65)
  | .bass => (43, 58)

structure Scale where
  tonic : String
  is_minor : Bool
deriving DecidableEq, Repr

/-- `Scale.semitones` (tonic lookup falls back to 0 for unknown tonics; the
constructor `parse_key` already guarantees a known tonic). -/
def Scale.semitones (s : Scale) : List ℤ :=
  let base := (NOTE_TO_SEMITONE s.tonic).getD 0
  let pat := if s.is_minor then MINOR_PATTERN else MAJOR_PATTERN
  pat.map (fun p => (base + p) % 12)

/-- `triad_pitch_classes`. -/
def triad_pitch_classes (s : Scale) (degree : ℤ) : List ℤ :=
  let idx := ((degree - 1) % 7).toNat
  let semis := s.semitones
  [semis.getD idx 0, semis.getD ((idx + 2) % 7) 0, semis.getD ((idx + 4) % 7) 0]

/-- `chord_symbol`. -/
def chord_symbol (s : Scale) (degree : ℤ) : String :=
  let idx := ((degree - 1) % 7).toNat
  let root_pc := s.semitones.getD idx 0
  let root := SEMITONE_TO_NOTE root_pc
  let quality := (if s.is_minor then MINOR_TRIAD_QUALITIES else MAJOR_TRIAD_QUALITIES).getD idx ("")
  root ++ quality

/-- `choose_defaults` (seeds the module PRNG from style and mood, then draws
key, time signature and tempo; a pure function of style and mood). -/
def choose_defaults (style mood : String) : String × String × ℤ :=
  let g := rngSeed (style ++ ("-") ++ mood)
  let (key, g1) := rngChoice g DEFAULT_KEYS
  let (time_sig, g2) := rngChoice g1 DEFAULT_TIME_SIGNATURES
  let (tempo, _) := rngIntRange g2 68 116
  (key, time_sig, tempo)

/-- Python `str.capitalize` restricted to the short tonic strings handled by
`parse_key` (first char upper-cased, rest lower-cased). -/
def strCapitalize (s : String) : String :=
  match s.data with
  | [] => s
  | c :: rest => String.mk (c.toUpper :: rest.map Char.toLower)

/-- `parse_key`. -/
def parse_key (key : String) (primary_mode : Option String) : Scale :=
  let cleaned := strStrip key
  let key_marks_minor := strEndsWith (strLower cleaned) ("m")
  let tonic0 := if key_marks_minor then String.mk (cleaned.data.dropLast) else cleaned
  let tonic1 := strCapitalize (strStrip tonic0)
  let mode := strLower (strStrip ((primary_mode).getD ("")))
  let mode_minor := mode = ("dorian") ∨ mode = ("phrygian") ∨ mode = ("aeolian") ∨ mode = ("locrian")
  let is_minor := key_marks_minor ∨ mode_minor
  let tonic := if (NOTE_TO_SEMITONE tonic1).isSome then tonic1 else ("C")
  ⟨tonic, is_minor⟩

/-- `midi_to_pitch` (octave is rendered with `toString`; the source uses a
single trailing digit, which agrees on the singable octaves 0-9). -/
def midi_to_pitch (midi : ℤ) : String :=
  let octave := midi / 12 - 1
  SEMITONE_TO_NOTE (midi % 12) ++ toString octave

/-- `pitch_to_midi` (the source reads the LAST character as the octave digit
and raises on anything unparseable; failures become `none`). -/
def pitch_to_midi (pitch : String) : Option ℤ :=
  match pitch.data.getLast? with
  | none => none
  | some last =>
    if last.isDigit then
      let octave : ℤ := (last.toNat - 48 : ℕ)
      let name := String.mk pitch.data.dropLast
      match NOTE_TO_SEMITONE name with
      | some pc => some (pc + (octave + 1) * 12)
      | none => none
    else none

/-- Total version of `pitch_to_midi` used where the source would crash on a
malformed pitch; every pitch the engine builds is well formed. -/
def midiOf (pitch : String) : ℤ :=
  (pitch_to_midi pitch).getD 0

/-- `nearest_in_range` (the source loops by octaves then clamps; the loops
shift by 12 until inside, which is this closed form). -/
def nearest_in_range (candidate lower upper : ℤ) : ℤ :=
  let c1 := if candidate < lower then candidate + 12 * ((lower - candidate + 11) / 12) else candidate
  let c2 := if c1 > upper then c1 - 12 * ((c1 - upper + 11) / 12) else c1
  max lower (min c2 upper)

/-! ## Data model (app/models.py)

Stage, lyric modes, voices and anacrusis modes are string literals in the
source; they stay strings here. -/

structure PhraseBlock where
  text : String
  must_end_at_barline : Bool
  breath_after_phrase : Bool
  merge_with_next_phrase : Bool
deriving DecidableEq, Repr, Inhabited

structure LyricSection where
  id : Option String
  label : String
  is_verse : Bool
  text : String
deriving DecidableEq, Repr, Inhabited

structure ArrangementItem where
  section_id : String
  is_verse : Option Bool
  progression_cluster : Option String
  anacrusis_mode : String
  anacrusis_beats : ℚ
  phrase_blocks : List PhraseBlock
deriving DecidableEq, Repr, Inhabited

structure CompositionPreferences where
  key : Option String
  primary_mode : Option String
  time_signature : Option String
  tempo_bpm : Option ℤ
  style : String
  mood : String
  lyric_rhythm_preset : String
  bars_per_verse : Option ℕ
deriving DecidableEq, Repr

structure CompositionRequest where
  sections : List LyricSection
  arrangement : List ArrangementItem
  preferences : CompositionPreferences
deriving DecidableEq, Repr

structure ScoreSyllable where
  id : String
  text : String
  section_id : String
  word_index : ℕ
  syllable_index_in_word : ℕ
  word_text : String
  hyphenated : Bool
  stressed : Bool
  phrase_end_after : Bool
  must_end_at_barline : Bool
  breath_after_phrase : Bool
deriving DecidableEq, Repr, Inhabited

structure ScoreSection where
  id : String
  label : String
  is_verse : Bool
  verse_number : Option ℕ
  anacrusis_beats : ℚ
  lyrics : String
  syllables : List ScoreSyllable
deriving DecidableEq, Repr

structure ScoreNote where
  pitch : String
  beats : ℚ
  is_rest : Bool
  lyric : Option String
  lyric_syllable_id : Option String
  lyric_mode : String
  section_id : String
  lyric_index : Option ℕ
deriving DecidableEq, Repr, Inhabited

/-- A rest note, as built all over the source
(`ScoreNote(pitch="REST", beats=…, is_rest=True, section_id=…)`). -/
def restNote (beats : ℚ) (section_id : String) : ScoreNote :=
  ⟨("REST"), beats, true, none, none, ("none"), section_id, none⟩

structure ScoreMeasure where
  number : ℤ
  soprano : List ScoreNote
  alto : List ScoreNote
  tenor : List ScoreNote
  bass : List ScoreNote
deriving DecidableEq, Repr, Inhabited

def ScoreMeasure.voice (m : ScoreMeasure) : Voice → List ScoreNote
  | .soprano => m.soprano
  | .alto => m.alto
  | .tenor => m.tenor
  | .bass => m.bass

structure ScoreChord where
  measure_number : ℤ
  section_id : String
  symbol : String
  degree : ℤ
  pitch_classes : List ℤ
deriving DecidableEq, Repr, Inhabited

structure ArrangementMusicUnit where
  arrangement_index : ℕ
  music_unit_id : String
  verse_index : Option ℕ
deriving DecidableEq, Repr

structure VerseMusicUnitForm where
  music_unit_id : String
  pickup_beats : ℚ
  bars_per_verse : ℕ
  total_measure_count : ℕ
  phrase_end_syllable_indices : List ℕ
  phrase_bar_targets : List ℕ
  rhythmic_skeleton : List (List ℚ)
deriving DecidableEq, Repr

structure ScoreMeta where
  key : String
  primary_mode : Option String
  time_signature : String
  tempo_bpm : ℤ
  style : String
  stage : String
  rationale : String
  arrangement_music_units : List ArrangementMusicUnit
  verse_music_unit_form : Option VerseMusicUnitForm
deriving DecidableEq, Repr

structure CanonicalScore where
  meta : ScoreMeta
  sections : List ScoreSection
  measures : List ScoreMeasure
  chord_progression : List ScoreChord
deriving DecidableEq, Repr

/-- The four voice names, in the order the source iterates them. -/
def VOICE_NAMES : List Voice := [.soprano, .alto, .tenor, .bass]

/-- `_flatten_voice` (identical helper in composer.py, score_validation.py
and score_normalization.py). -/
def flatten_voice (score : CanonicalScore) (voice : Voice) : List ScoreNote :=
  (score.measures.map (fun m => m.voice voice)).flatten

/-- `beats_per_measure` (score_validation.py). Unparseable signatures are
modelled as capacity 0; the pydantic layer only admits `\d+/\d+` forms. -/
def beats_per_measure (time_signature : String) : ℚ :=
  match time_signature.splitOn ("/") with
  | [top, bottom] =>
    match top.toNat?, bottom.toNat? with
    | some t, some b => if b = 0 then 0 else (t : ℚ) * (4 / (b : ℚ))
    | _, _ => 0
  | _ => 0

/-- `_is_strong_beat` (identical in composer.py and score_validation.py). -/
def is_strong_beat (position : ℚ) (time_signature : String) : Bool :=
  match time_signature.splitOn ("/") with
  | [top, bottom] =>
    match top.toNat?, bottom.toNat? with
    | some t, some b =>
      let quarter_position := position * ((b : ℚ) / 4)
      if t = 4 then |qmod quarter_position 2| < eps9
      else if t = 6 ∧ b = 8 then |position| < eps9 ∨ |position - 3/2| < eps9
      else |qmod quarter_position 1| < eps9
    | _, _ => false
  | _ => false

/-! ## lyric_mapping.py -/

/-- `section_archetype`. -/
def section_archetype (section_label : String) : String :=
  let normalized := strLower (strStrip section_label)
  if normalized = ("verse") ∨ normalized = ("chorus") ∨ normalized = ("bridge") ∨
      normalized = ("pre-chorus") ∨ normalized = ("intro") ∨ normalized = ("outro") then
    normalized
  else if strContainsSub normalized ("pre") ∧ strContainsSub normalized ("chorus") then
    ("pre-chorus")
  else if strContainsSub normalized ("chorus") then ("chorus")
  else if strContainsSub normalized ("verse") then ("verse")
  else if strContainsSub normalized ("bridge") then ("bridge")
  else if strContainsSub normalized ("intro") then ("intro")
  else if strContainsSub normalized ("outro") then ("outro")
  else ("custom")

structure RhythmPolicyConfig where
  melismaRate : ℚ
  subdivisionRate : ℚ
  phraseEndHoldBeats : ℚ
  preferStrongBeatForStress : Bool
deriving DecidableEq, Repr, Inhabited

/-- `config_for_preset` (the preset is one of the three pydantic literals;
any other string is mapped to the `mixed` base, a case the typed source
cannot reach). -/
def config_for_preset (preset : String) (section_label : String) : RhythmPolicyConfig :=
  let archetype := section_archetype section_label
  let base : RhythmPolicyConfig :=
    if preset = ("syllabic") then ⟨0.08, 0.08, 1.5, true⟩
    else if preset = ("melismatic") then ⟨0.42, 0.22, 2.0, true⟩
    else ⟨0.22, 0.18, 1.5, true⟩
  if archetype = ("chorus") then
    ⟨min 1.0 (base.melismaRate + 0.08), base.subdivisionRate,
      min 2.0 (base.phraseEndHoldBeats + 0.25), base.preferStrongBeatForStress⟩
  else if archetype = ("verse") ∨ archetype = ("bridge") then
    ⟨max 0.0 (base.melismaRate - 0.05), base.subdivisionRate,
      base.phraseEndHoldBeats, base.preferStrongBeatForStress⟩
  else base

/-- `_scale_rhythm_config`. -/
def scale_rhythm_config (config : RhythmPolicyConfig) (length_scale : ℚ) : RhythmPolicyConfig :=
  let scale := max 0.6 (min 1.8 length_scale)
  let slower_bias := max 0.0 (scale - 1.0)
  let faster_bias := max 0.0 (1.0 - scale)
  ⟨min 0.75 (max 0.02 (config.melismaRate + 0.18 * slower_bias - 0.08 * faster_bias)),
    min 0.5 (max 0.02 (config.subdivisionRate + 0.16 * faster_bias - 0.06 * slower_bias)),
    max 1.0 (min 3.0 (config.phraseEndHoldBeats * scale)),
    config.preferStrongBeatForStress⟩

/-! ### Syllable splitting (identical `split_into_syllables` in
music_theory.py and `split_word_into_syllables` in lyric_mapping.py) -/

/-- The vowel class `[aeiouy]` of the syllable regex. -/
def isVowelChar (c : Char) : Bool :=
  c = 'a' ∨ c = 'e' ∨ c = 'i' ∨ c = 'o' ∨ c = 'u' ∨ c = 'y'
/-- Length of a consonant prefix (`[^aeiouy]*` of the syllable regex). -/
def consRunLen (cs : List Char) : ℕ :=
  (cs.takeWhile (fun x => ! isVowelChar x)).length

/-- Length of the vowel run that follows (`[aeiouy]+`). -/
def vowelRunLen (cs : List Char) : ℕ :=
  ((cs.drop (consRunLen cs)).takeWhile isVowelChar).length

theorem consRunLen_le (cs : List Char) : consRunLen cs ≤ cs.length :=
  (List.takeWhile_sublist _).length_le

theorem vowelRunLen_le (cs : List Char) : vowelRunLen cs ≤ cs.length - consRunLen cs := by
  have := (List.takeWhile_sublist (l := cs.drop (consRunLen cs)) isVowelChar).length_le
  simpa [vowelRunLen] using this

/-- Lengths of the successive matches of `[^aeiouy]*[aeiouy]+(?:[^aeiouy]|$)`
on the (lower-cased) word: each match is a consonant run, a vowel run and at
most one trailing consonant; scanning stops when no vowel remains (a
position from which the regex cannot match anywhere later either). -/
def chunkLens (cs : List Char) : List ℕ :=
  let c := consRunLen cs
  let v := vowelRunLen cs
  if v = 0 then []
  else
    let t := if c + v < cs.length then 1 else 0
    (c + v + t) :: chunkLens (cs.drop (c + v + t))
termination_by cs.length
decreasing_by
  rename_i hv
  have hc := consRunLen_le cs
  have hvle := vowelRunLen_le cs
  simp only [List.length_drop]
  omega

/-- Consecutive slices of the original word by the chunk lengths
(`word[cursor : cursor + length]`). -/
def slicesOfLens (w : List Char) : List ℕ → ℕ → List (List Char)
  | [], _ => []
  | n :: rest, cursor => (w.drop cursor).take n :: slicesOfLens w rest (cursor + n)

/-- `split_into_syllables` (music_theory.py). -/
def split_into_syllables (word : String) : List String :=
  let wl := word.data
  if wl.length ≤ 3 then [word]
  else
    let lens := chunkLens (wl.map Char.toLower)
    if lens = [] then [word]
    else
      let total := lens.sum
      let rebuilt := slicesOfLens wl lens 0
      let rebuilt2 :=
        if total < wl.length then
          match rebuilt.getLast? with
          | some last => rebuilt.dropLast ++ [last ++ wl.drop total]
          | none => rebuilt
        else rebuilt
      (rebuilt2.filter (fun s => ¬ s = [])).map (fun cs => String.mk cs)

/-- `split_word_into_syllables` (lyric_mapping.py; textually identical to
`split_into_syllables`). -/
def split_word_into_syllables (word : String) : List String :=
  split_into_syllables word

/-! ### Tokenization -/

/-- Word characters of the token regex (`[A-Za-z']`). -/
def isWordChar (c : Char) : Bool :=
  (c.isUpper ∧ c.toNat < 128) ∨ (c.isLower ∧ c.toNat < 128) ∨ c = Char.ofNat 39

/-- Punctuation alternatives of the token regex (`[.,;?!]`). -/
def isPunctChar (c : Char) : Bool :=
  c = '.' ∨ c = ',' ∨ c = ';' ∨ c = '?' ∨ c = '!'

/-- One match of `[A-Za-z']+(?:-[A-Za-z']+)*`: the leading run plus any
number of hyphen-joined runs; returns the token and the rest. -/
def takeWordToken (cs : List Char) : List Char × List Char :=
  let run := cs.takeWhile isWordChar
  match h : cs.drop run.length with
  | h1 :: h2 :: t =>
    if h1 = '-' ∧ isWordChar h2 then
      let pair := takeWordToken (h2 :: t)
      (run ++ h1 :: pair.1, pair.2)
    else (run, h1 :: h2 :: t)
  | r => (run, r)
termination_by cs.length
decreasing_by
  have h1 := congrArg List.length h
  simp only [List.length_drop, List.length_cons] at h1
  simp only [List.length_cons]
  omega

theorem takeWordToken_snd_add_le (cs : List Char) :
    (takeWordToken cs).2.length + (cs.takeWhile isWordChar).length ≤ cs.length := by
  rw [takeWordToken]
  have hrun : (cs.takeWhile isWordChar).length ≤ cs.length :=
    (List.takeWhile_sublist _).length_le
  have hdroplen : (cs.drop (cs.takeWhile isWordChar).length).length + (cs.takeWhile isWordChar).length = cs.length := by
    simp only [List.length_drop]
    omega
  cases h : cs.drop (cs.takeWhile isWordChar).length with
  | nil =>
    simp only [h, List.length_nil] at hdroplen
    simp
    omega
  | cons h1 rest1 =>
    cases rest1 with
    | nil =>
      rw [h] at hdroplen
      simp only [List.length_cons] at hdroplen
      simp
      omega
    | cons h2 t =>
      rw [h] at hdroplen
      simp only [List.length_cons] at hdroplen
      have hdec : (h2 :: t).length < cs.length := by
        simp only [List.length_cons]
        omega
      by_cases hc : h1 = Char.ofNat 45 ∧ isWordChar h2
      · have ih := takeWordToken_snd_add_le (h2 :: t)
        have hwt : 1 ≤ ((h2 :: t).takeWhile isWordChar).length := by
          rw [List.takeWhile_cons_of_pos hc.2]
          simp
        simp only [List.length_cons] at ih hwt
        simp [hc]
        omega
      · simp [hc]
        omega
termination_by cs.length
decreasing_by
  exact hdec


/-- `findall` of the token regex
`[A-Za-z']+(?:-[A-Za-z']+)*|[\n]|[.,;?!]`: unmatched characters are
skipped, matches are collected in order. -/
def scanTokens (cs : List Char) : List String :=
  match cs with
  | [] => []
  | c :: rest =>
    if h : isWordChar c then
      let pair := takeWordToken (c :: rest)
      String.mk pair.1 :: scanTokens pair.2
    else if c = '\n' ∨ isPunctChar c then String.singleton c :: scanTokens rest
    else scanTokens rest
termination_by cs.length
decreasing_by
  · have hle := takeWordToken_snd_add_le (c :: rest)
    have hwt : 1 ≤ ((c :: rest).takeWhile isWordChar).length := by
      rw [List.takeWhile_cons_of_pos h]
      simp
    simp only [List.length_cons] at *
    omega
  · simp only [List.length_cons]; omega
  · simp only [List.length_cons]; omega

/-- The number of matches of the word regex `[A-Za-z']+(?:-[A-Za-z']+)*` in
a text (`len(re.findall(word_re, …))`); punctuation and newlines are not
word matches. -/
def countWordTokens (text : String) : ℕ :=
  ((scanTokens text.data).filter
    (fun t => match t.data with | c :: _ => isWordChar c | [] => false)).length

/-- `_primary_stress_index`. -/
def primary_stress_index (word : String) (syllables : List String) : ℕ :=
  if syllables = [] then 0
  else
    let count := syllables.length
    if count = 1 then 0
    else
      let normalized := String.mk ((strLower word).data.filter (fun c => c.isLower ∧ c.toNat < 128))
      if strEndsWith normalized ("tion") ∨ strEndsWith normalized ("sion") ∨
          strEndsWith normalized ("ture") ∨ strEndsWith normalized ("cian") ∨
          strEndsWith normalized ("cial") ∨ strEndsWith normalized ("ic") then
        if count = 2 then 1 else min (count - 1) (count - 2)
      else if count ≥ 3 ∧ (strEndsWith normalized ("ity") ∨ strEndsWith normalized ("graphy") ∨
          strEndsWith normalized ("logy") ∨ strEndsWith normalized ("metry") ∨
          strEndsWith normalized ("ative") ∨ strEndsWith normalized ("ify")) then
        min (count - 1) (count - 3)
      else 0

/-- `_is_stressed`. -/
def is_stressed (syllable : String) (syllable_index syllable_count stress_index : ℕ) : Bool :=
  if syllable_count = 1 then true
  else if syllable_index = stress_index then true
  else syllable.data.length ≥ 4

/-- Pair each list element with its successor, mirroring the indexed
lookahead `tokens[i + 1]` of the tokenizer. -/
def pairWithNext : List α → List (α × Option α)
  | [] => []
  | [a] => [(a, none)]
  | a :: b :: rest => (a, some b) :: pairWithNext (b :: rest)

/-- State of `_tokenize_phrase_blocks_internal`. -/
structure TokState where
  out : List ScoreSyllable
  syllable_counter : ℕ
  word_index : ℤ
deriving Repr

/-- Update a syllable in place (`out[i].field = …`). -/
def setSyllableAt (l : List ScoreSyllable) (i : ℕ) (f : ScoreSyllable → ScoreSyllable) : List ScoreSyllable :=
  match l.get? i with
  | some s => l.set i (f s)
  | none => l

/-- One word token of `_tokenize_phrase_blocks_internal`: split on hyphens,
split each part into syllables, assign stress, append the new syllables. -/
def tokenizeWordToken (section_id : String) (block : PhraseBlock) (st : TokState) (tok : String) : TokState :=
  let word_index := st.word_index + 1
  let parts := tok.splitOn ("-")
  let inner : List ScoreSyllable × ℕ :=
    parts.enum.foldl (fun (acc : List ScoreSyllable × ℕ) (pi : ℕ × String) =>
      let part_idx := pi.1
      let part := pi.2
      let sylls := split_word_into_syllables part
      let stressed_index := primary_stress_index part sylls
      sylls.enum.foldl (fun (acc2 : List ScoreSyllable × ℕ) (si_syl : ℕ × String) =>
        let si := si_syl.1
        let syl := si_syl.2
        let counter := acc2.2
        let newSyl : ScoreSyllable :=
          { id := section_id ++ ("-syl-") ++ toString counter
            text := syl
            section_id := section_id
            word_index := word_index.toNat
            syllable_index_in_word := si
            word_text := tok
            hyphenated := parts.length > 1 ∧ part_idx < parts.length - 1
            stressed := is_stressed syl si sylls.length stressed_index
            phrase_end_after := false
            must_end_at_barline := block.must_end_at_barline
            breath_after_phrase := false }
        (acc2.1 ++ [newSyl], counter + 1)) acc) (st.out, st.syllable_counter)
  { out := inner.1, syllable_counter := inner.2, word_index := word_index }

/-- Whether a token is one of the skipped separators
(`tok in {"\n", ".", ",", ";", "?", "!"}`). -/
def isSeparatorToken (tok : String) : Bool :=
  tok = ("\n") ∨ tok = (".") ∨ tok = (",") ∨ tok = (";") ∨ tok = ("?") ∨ tok = ("!")

/-- One block of `_tokenize_phrase_blocks_internal`: tokenize the text,
append syllables for the word tokens, mark a phrase end before trailing
punctuation, and apply the block-final phrase/breath flags. -/
def tokenizeBlock (section_id : String) (total_blocks : ℕ) (st : TokState)
    (block_ix : ℕ × PhraseBlock) : TokState :=
  let block_index := block_ix.1
  let block := block_ix.2
  let tokens := scanTokens block.text.data
  let stepTok := fun (acc : TokState × Option ℕ) (tn : String × Option String) =>
    let (st0, last_idx) := acc
    let (tok, next_tok) := tn
    if isSeparatorToken tok then (st0, last_idx)
    else
      let st1 := tokenizeWordToken section_id block st0 tok
      let last1 := if st1.out.length = 0 then last_idx else some (st1.out.length - 1)
      let nextIsPunct : Bool := match next_tok with
        | some nt => nt = (".") ∨ nt = (",") ∨ nt = (";") ∨ nt = ("?") ∨ nt = ("!")
        | none => false
      let markEnd : Bool := nextIsPunct && decide (st1.out.length > 0)
      let st2 := if markEnd then
          { st1 with out := setSyllableAt st1.out (st1.out.length - 1) (fun s => { s with phrase_end_after := true }) }
        else st1
      (st2, last1)
  let folded := (pairWithNext tokens).foldl stepTok (st, none)
  let st3 := folded.1
  match folded.2 with
  | none => st3
  | some last =>
    let st4 :=
      if block_index < total_blocks - 1 ∧ ¬ block.merge_with_next_phrase then
        { st3 with out := setSyllableAt st3.out last (fun s => { s with phrase_end_after := true }) }
      else st3
    if block.breath_after_phrase then
      let markBoth := fun (s : ScoreSyllable) => { s with phrase_end_after := true, breath_after_phrase := true }
      { st4 with out := setSyllableAt st4.out last markBoth }
    else st4

/-- `_tokenize_phrase_blocks_internal`. -/
def tokenize_phrase_blocks_internal (section_id : String) (phrase_blocks : List PhraseBlock) : List ScoreSyllable :=
  let final := phrase_blocks.enum.foldl (tokenizeBlock section_id phrase_blocks.length)
    ⟨[], 0, -1⟩
  final.out

/-- `tokenize_phrase_blocks`. -/
def tokenize_phrase_blocks (section_id : String) (phrase_blocks : List PhraseBlock) : List ScoreSyllable :=
  let normalized_blocks := phrase_blocks.filter (fun b => ¬ strStrip b.text = (""))
  if normalized_blocks = [] then []
  else
    let syllables := tokenize_phrase_blocks_internal section_id normalized_blocks
    if syllables = [] then syllables
    else setSyllableAt syllables (syllables.length - 1) (fun s => { s with phrase_end_after := true })

/-! ### Rhythm planning -/

/-- `_strong_beat_positions` (lyric_mapping.py). -/
def lm_strong_beat_positions (beats_per_bar : ℚ) : List ℚ :=
  if |beats_per_bar - 4.0| < eps9 then [0.0, 2.0]
  else if |beats_per_bar - 3.0| < eps9 then [0.0]
  else [0.0, beats_per_bar / 2.0]

/-- `_is_strong_beat` (lyric_mapping.py; distinct from the identically
named helper of composer.py and score_validation.py). -/
def lm_is_strong_beat (beat_pos beats_per_bar : ℚ) : Bool :=
  let pos := qmod beat_pos beats_per_bar
  (lm_strong_beat_positions beats_per_bar).any (fun strong => |pos - strong| < eps9)

/-- `_phrase_target_total_beats`. -/
def phrase_target_total_beats (phrase : List ScoreSyllable) (beats_per_bar : ℚ)
    (start_offset : ℚ) (target_scale : ℚ) : ℚ :=
  let min_beats_needed : ℚ := 0.5 * phrase.length
  let target0 := max min_beats_needed (min_beats_needed * max 0.6 (min 1.8 target_scale))
  if beats_per_bar ≤ 0 then max 1.0 (⌈target0⌉ : ℚ)
  else
    let end_pos := start_offset + target0
    let remainder := qmod end_pos beats_per_bar
    let target1 := if |remainder| > eps9 then target0 + (beats_per_bar - remainder) else target0
    max target1 (if min_beats_needed > beats_per_bar then beats_per_bar else target1)

/-- A per-syllable candidate: durations paired with articulation modes. -/
abbrev SyllableOption := List ℚ × List String

instance : Inhabited SyllableOption := ⟨([], [])⟩

/-- `_base_syllable_options`. -/
def base_syllable_options (is_phrase_end : Bool) (config : RhythmPolicyConfig)
    (g : RngState) : List SyllableOption × RngState :=
  let options : List SyllableOption := [([1.0], [("single")]), ([0.5], [("subdivision")])]
  let (addMelisma, g1) :=
    if ¬ is_phrase_end then
      if config.melismaRate > 0 then (true, g)
      else
        let (x, g2) := rngFloat g
        (x < max 0.05 config.melismaRate, g2)
    else (false, g)
  let options1 := if addMelisma then
      options ++ [([0.5, 0.5], [("melisma_start"), ("melisma_continue")])]
    else options
  let options2 :=
    if is_phrase_end then
      let hold := max 1.0 config.phraseEndHoldBeats
      if hold > 1.0 then options1 ++ [([1.0, hold - 1.0], [("tie_start"), ("tie_continue")])]
      else options1 ++ [([hold], [("single")])]
    else options1
  (options2, g1)

/-- Whether a mode is one of the continuation modes. -/
def isContinuationMode (mode : String) : Bool :=
  mode = ("melisma_continue") ∨ mode = ("tie_continue")

/-- `_score_phrase_template`. -/
def score_phrase_template (phrase : List ScoreSyllable) (template : List SyllableOption)
    (beats_per_bar : ℚ) (config : RhythmPolicyConfig) (g : RngState) : (ℚ × ℚ) × RngState :=
  let cadence_idx := ((phrase.enum.filter (fun p => p.2.stressed)).map (fun p => p.1)).foldl max 0
  let cadence_idx := if phrase.any (fun s => s.stressed) then cadence_idx else phrase.length - 1
  let durations_for_leap := template.map (fun o => o.1.sum)
  let continuation_count := (template.map (fun o => (o.2.filter isContinuationMode).length)).sum
  let body := (phrase.zip template).enum.foldl (fun (acc : ℚ × ℚ) item =>
    let (beat_pos, score) := acc
    let idx := item.1
    let syllable := item.2.1
    let durations := item.2.2.1
    let syllable_total := durations.sum
    let strong := lm_is_strong_beat beat_pos beats_per_bar
    let score := if syllable.stressed ∧ strong then score + 2.75
      else if syllable.stressed then score - 1.25 else score
    let score := if syllable.phrase_end_after ∧ strong then score + 1.75 else score
    let score := if idx = cadence_idx then
        (if strong then score + 2.5 else score - 1.25) + min 2.5 (max 0.0 (syllable_total - 1.0) * 1.8)
      else score
    let short_notes := (durations.filter (fun d => d ≤ 0.5 + eps9)).length
    let score := score - 0.5 * short_notes
    (beat_pos + syllable_total, score)) ((0.0 : ℚ), (0.0 : ℚ))
  let score0 := body.2
  let gapPenalty := ((durations_for_leap.zip (durations_for_leap.drop 1)).map (fun p =>
    let gap := |p.2 - p.1|
    if gap > 1.0 then 0.75 * gap else 0)).sum
  let score1 := score0 - gapPenalty + continuation_count * config.melismaRate * 1.25
  let (r, g1) := rngFloat g
  ((score1, r * 0.001), g1)

/-- `rec` inside `_search_phrase_template`.  The fuel argument mirrors the
recursion depth (one syllable per level); the caller passes
`phrase.length + 1`, which the recursion never exhausts. -/
def searchRec (phrase : List ScoreSyllable) (target_total beats_per_bar : ℚ)
    (config : RhythmPolicyConfig) :
    ℕ → ℕ → ℚ → List SyllableOption → List (List SyllableOption) → RngState →
    List (List SyllableOption) × RngState
  | 0, _, _, _, candidates, g => (candidates, g)
  | fuel + 1, idx, running_total, partialT, candidates, g =>
    if candidates.length ≥ 48 then (candidates, g)
    else if idx = phrase.length then
      (if |running_total - target_total| < eps9 then candidates ++ [partialT] else candidates, g)
    else
      let remaining := phrase.length - idx
      let min_remaining : ℚ := 0.5 * ((remaining - 1 : ℕ) : ℚ)
      let max_remaining : ℚ := max 3.0 (config.phraseEndHoldBeats + 2.0) + ((remaining - 1 : ℕ) : ℚ)
      let is_phrase_end := idx = phrase.length - 1
      let (options, g1) := base_syllable_options is_phrase_end config g
      let (shuffled, g2) := rngShuffle g1 options
      shuffled.foldl (fun (acc : List (List SyllableOption) × RngState) opt =>
        let total := running_total + opt.1.sum
        if total + min_remaining > target_total + eps9 then acc
        else if total + max_remaining < target_total - eps9 then acc
        else searchRec phrase target_total beats_per_bar config fuel (idx + 1) total
          (partialT ++ [opt]) acc.1 acc.2) (candidates, g2)

/-- First maximum of the scored candidates under the lexicographic
`(score, tie_break)` order (Python `max` keeps the first maximum). -/
def pickMaxByKey (l : List (List SyllableOption × (ℚ × ℚ))) : List SyllableOption :=
  match l with
  | [] => []
  | first :: rest =>
    (rest.foldl (fun best x =>
      if x.2.1 > best.2.1 ∨ (x.2.1 = best.2.1 ∧ x.2.2 > best.2.2) then x else best) first).1

/-- `_search_phrase_template`. -/
def search_phrase_template (phrase : List ScoreSyllable) (beats_per_bar : ℚ)
    (config : RhythmPolicyConfig) (g : RngState) (start_offset : ℚ) (target_scale : ℚ) :
    List SyllableOption × RngState :=
  let target_total := phrase_target_total_beats phrase beats_per_bar start_offset target_scale
  let (candidates, g1) :=
    searchRec phrase target_total beats_per_bar config (phrase.length + 1) 0 0 [] [] g
  if candidates = [] then
    let fallback : List SyllableOption := phrase.map (fun _ => ([1.0], [("single")]))
    let total : ℚ := (fallback.map (fun o => o.1.sum)).sum
    let extension := target_total - total
    let fallback2 :=
      if extension > 0 ∧ ¬ fallback = [] then
        fallback.dropLast ++ [([1.0, extension], [("tie_start"), ("tie_continue")])]
      else fallback
    (fallback2, g1)
  else
    let scored := candidates.foldl (fun (acc : List (List SyllableOption × (ℚ × ℚ)) × RngState) c =>
      let (sc, g2) := score_phrase_template phrase c beats_per_bar config acc.2
      (acc.1 ++ [(c, sc)], g2)) ([], g1)
    let best := pickMaxByKey scored.1
    let has_continuation := best.any (fun o => o.2.any isContinuationMode)
    let best2 :=
      if ¬ has_continuation ∧ config.melismaRate ≥ 0.3 then
        let idxOpt := (List.range (best.length - 1)).find? (fun i =>
          match (best.getD i default).1 with
          | [d] => |d - 1.0| < eps9
          | _ => false)
        match idxOpt with
        | some i => best.set i ([0.5, 0.5], [("melisma_start"), ("melisma_continue")])
        | none => best
      else best
    (best2, scored.2)

/-- One entry of the rhythm plan (the dicts built by
`plan_syllable_rhythm`). -/
structure RhythmItem where
  syllable_id : String
  syllable_text : Option String
  section_id : String
  lyric_index : ℕ
  durations : List ℚ
  modes : List String
  stressed : Bool
deriving DecidableEq, Repr, Inhabited

/-- Group syllables into phrases at `phrase_end_after` markers. -/
def splitPhrases (syllables : List ScoreSyllable) : List (List ScoreSyllable) :=
  let folded := syllables.foldl (fun (acc : List (List ScoreSyllable) × List ScoreSyllable) syl =>
    let current := acc.2 ++ [syl]
    if syl.phrase_end_after then (acc.1 ++ [current], []) else (acc.1, current))
    ([], [])
  if folded.2 = [] then folded.1 else folded.1 ++ [folded.2]

/-- `plan_syllable_rhythm`. -/
def plan_syllable_rhythm (syllables : List ScoreSyllable) (beats_per_bar : ℚ)
    (config : RhythmPolicyConfig) (seed : String) (initial_offset_beats : ℚ := 0)
    (length_scale : ℚ := 1) : List RhythmItem :=
  let g := rngSeed seed
  let phrases := splitPhrases syllables
  let scaled_config := scale_rhythm_config config length_scale
  let final := phrases.foldl (fun (acc : List RhythmItem × ℚ × RngState) phrase =>
    let (plans, running_offset, g0) := acc
    let (phrase_template, g1) :=
      search_phrase_template phrase beats_per_bar scaled_config g0 running_offset length_scale
    let phrase_plan := phrase.enum.foldl (fun (pp : List RhythmItem) is =>
      let idx := is.1
      let syl := is.2
      let opt := phrase_template.getD idx default
      pp ++ [{ syllable_id := syl.id
               syllable_text := some syl.text
               section_id := syl.section_id
               lyric_index := plans.length + pp.length
               durations := opt.1
               modes := opt.2
               stressed := syl.stressed }]) []
    let phrase_beats := (phrase_plan.map (fun item => item.durations.sum)).sum
    (plans ++ phrase_plan, running_offset + phrase_beats, g1)) ([], initial_offset_beats, g)
  final.1

/-! ## score_normalization.py -/

/-- `_rest` (score_normalization.py). -/
def normRest (beats : ℚ) : ScoreNote :=
  restNote beats ("padding")

/-- `_copy_note_chunk`. -/
def copy_note_chunk (note : ScoreNote) (beats : ℚ) (first_chunk : Bool) : ScoreNote :=
  if note.is_rest then { note with beats := beats }
  else if first_chunk then { note with beats := beats }
  else { note with beats := beats, lyric := none, lyric_mode := ("tie_continue") }

/-- Accumulator of `_normalize_voice_stream`: flushed measures, the open
measure, and the beats used in the open measure. -/
abbrev NormAcc := List (List ScoreNote) × List ScoreNote × ℚ

/-- The inner `while remaining > 1e-9` loop of `_normalize_voice_stream`
for one note.  The fuel argument only mirrors the loop depth (at most one
chunk per measure plus two); for a positive beat capacity the fuel the
caller passes is never exhausted (for `beat_cap ≤ 0` the source loop would
not terminate). -/
def normProcessNote (cap : ℚ) (note : ScoreNote) :
    ℕ → ℚ → Bool → NormAcc → NormAcc
  | 0, _, _, acc => acc
  | fuel + 1, remaining, first_chunk, (measures, current, used) =>
    if remaining > eps9 then
      let ms0 := if cap - used ≤ eps9 then measures ++ [current] else measures
      let cur0 := if cap - used ≤ eps9 then ([] : List ScoreNote) else current
      let u0 : ℚ := if cap - used ≤ eps9 then 0 else used
      let room := cap - u0
      let chunk := min remaining room
      let cur1 := cur0 ++ [copy_note_chunk note chunk first_chunk]
      let u1 := u0 + chunk
      let ms2 := if u1 ≥ cap - eps9 then ms0 ++ [cur1] else ms0
      let cur2 := if u1 ≥ cap - eps9 then ([] : List ScoreNote) else cur1
      let u2 : ℚ := if u1 ≥ cap - eps9 then 0 else u1
      normProcessNote cap note fuel (remaining - chunk) false (ms2, cur2, u2)
    else (measures, current, used)

/-- Fuel sufficient for one note: one chunk per full measure plus slack. -/
def normFuel (cap : ℚ) (beats : ℚ) : ℕ :=
  (qfloordiv beats cap).toNat + 3

/-- `_normalize_voice_stream`. -/
def normalize_voice_stream (notes : List ScoreNote) (beat_cap : ℚ) : List (List ScoreNote) :=
  if notes = [] then []
  else
    let acc := notes.foldl
      (fun (acc : NormAcc) note =>
        normProcessNote beat_cap note (normFuel beat_cap note.beats) note.beats true acc)
      ([], [], 0)
    let (measures, current, used) := acc
    if ¬ current = [] then
      if used < beat_cap - eps9 then measures ++ [current ++ [normRest (beat_cap - used)]]
      else measures ++ [current]
    else measures

/-- `_first_section_id`. -/
def first_section_id (measure : ScoreMeasure) : String :=
  match measure.soprano.find? (fun note => ¬ note.section_id = ("padding")) with
  | some note => note.section_id
  | none => ("padding")

/-- Sorted-by-measure-number chord list (`sorted(…, key=lambda ch:
ch.measure_number)`, a stable sort). -/
def sortChordsByMeasure (chords : List ScoreChord) : List ScoreChord :=
  chords.mergeSort (fun a b => decide (a.measure_number ≤ b.measure_number))

/-- First-occurrence map of in-range chords (`existing`), as an ordered
association list over measure numbers. -/
def chordFirstStep (measure_count : ℕ) (acc : List (ℤ × ScoreChord))
    (chord : ScoreChord) : List (ℤ × ScoreChord) :=
  if 1 ≤ chord.measure_number ∧ chord.measure_number ≤ (measure_count : ℤ) ∧
      (acc.find? (fun p => p.1 = chord.measure_number)).isNone then
    acc ++ [(chord.measure_number, chord)]
  else acc

def chordFirstOccurrences (chords : List ScoreChord) (measure_count : ℕ) : List (ℤ × ScoreChord) :=
  (sortChordsByMeasure chords).foldl (chordFirstStep measure_count) []

/-- One step of the fill loop of `ensure_chord_symbols_complete`: reuse
the first in-range chord for this measure or synthesize one carrying the
previous chord's degree. -/
def ensureChordStep (existing : List (ℤ × ScoreChord)) (scale : Scale)
    (measures : List ScoreMeasure) (acc : List ScoreChord × Option ScoreChord)
    (i : ℕ) : List ScoreChord × Option ScoreChord :=
  let measure_number : ℤ := (i : ℤ) + 1
  match existing.find? (fun p => p.1 = measure_number) with
  | some p => (acc.1 ++ [p.2], some p.2)
  | none =>
    let section_id := match measures.get? i with
      | some m => first_section_id m
      | none => ("padding")
    let degree := match acc.2 with
      | some prev => if 1 ≤ prev.degree ∧ prev.degree ≤ 7 then prev.degree else 1
      | none => 1
    let chord : ScoreChord :=
      { measure_number := measure_number
        section_id := section_id
        symbol := chord_symbol scale degree
        degree := degree
        pitch_classes := triad_pitch_classes scale degree }
    (acc.1 ++ [chord], some chord)

/-- `ensure_chord_symbols_complete`. -/
def ensure_chord_symbols_complete (score : CanonicalScore) : CanonicalScore :=
  let measure_count := score.measures.length
  let scale := parse_key score.meta.key score.meta.primary_mode
  let existing := chordFirstOccurrences score.chord_progression measure_count
  let repaired := (List.range measure_count).foldl
    (ensureChordStep existing scale score.measures) ([], none)
  { score with chord_progression := repaired.1 }

/-- `normalize_score_for_rendering`. -/
def normalize_score_for_rendering (score : CanonicalScore) : CanonicalScore :=
  let beat_cap := beats_per_measure score.meta.time_signature
  let sop := normalize_voice_stream (flatten_voice score .soprano) beat_cap
  let alt := normalize_voice_stream (flatten_voice score .alto) beat_cap
  let ten := normalize_voice_stream (flatten_voice score .tenor) beat_cap
  let bas := normalize_voice_stream (flatten_voice score .bass) beat_cap
  let measure_count := max (max sop.length alt.length) (max ten.length bas.length)
  let pad := fun (l : List (List ScoreNote)) =>
    l ++ List.replicate (measure_count - l.length) [normRest beat_cap]
  let sopP := pad sop
  let altP := pad alt
  let tenP := pad ten
  let basP := pad bas
  let normalized_measures := (List.range measure_count).map (fun (i : ℕ) =>
    ({ number := (i : ℤ) + 1
       soprano := sopP.getD i []
       alto := altP.getD i []
       tenor := tenP.getD i []
       bass := basP.getD i [] } : ScoreMeasure))
  ensure_chord_symbols_complete { score with measures := normalized_measures }

/-! ## score_validation.py -/

/-- Modelled from the spec: `normalize_note_name` is imported by
score_validation.py from music_theory.py, but its definition is not part of
the sources; every root it receives is already one of the canonical
`NOTE_TO_SEMITONE` spellings produced by `chord_symbol`, so it is modelled
as the identity on note names. -/
def normalize_note_name (n : String) : String := n

def MAX_MELODIC_LEAP : ℤ := 7

structure ValidationDiagnostics where
  fatal : List String
  warnings : List String
deriving DecidableEq, Repr

/-- `_is_warning_diagnostic`. -/
def is_warning_diagnostic (message : String) : Bool :=
  (strStartsWith message ("Soprano strong-beat note") ∨
    strStartsWith message ("Chord ") ∨
    strStartsWith message ("Potential parallel") ∨
    strStartsWith message ("Wide spacing")) ∨
  (strContainsSub message ("Lyric phrase ending") ∨
    strContainsSub message ("is outside chord tones") ∨
    strContainsSub message ("leap too large") ∨
    strContainsSub message ("in extreme tessitura") ∨
    strContainsSub message ("out of range"))

/-- Number rendering inside diagnostics (`{…:g}` in the source; the digits
are irrelevant to every property proved here). -/
def fmtQ (q : ℚ) : String := toString q

def fmtI (i : ℤ) : String := toString i

def fmtN (n : ℕ) : String := toString n

/-- Insertion sort key order for integers (`sorted`). -/
def sortInts (l : List ℤ) : List ℤ :=
  l.mergeSort (fun a b => decide (a ≤ b))

/-- Keep the first occurrence of each element. -/
def dedupKeepFirst [DecidableEq α] (l : List α) : List α :=
  l.foldl (fun acc x => if x ∈ acc then acc else acc ++ [x]) []

/-- Last-wins dictionary lookup over the chord list
(`{c.measure_number: c for c in …}` keeps the last entry per key). -/
def chordByMeasure (chords : List ScoreChord) (m : ℤ) : Option ScoreChord :=
  chords.reverse.find? (fun c => c.measure_number = m)

/-- Per-measure beat sums (the first loop of `validate_score_diagnostics`). -/
def measureSumErrors (score : CanonicalScore) : List String :=
  let target := beats_per_measure score.meta.time_signature
  (score.measures.map (fun measure =>
    (VOICE_NAMES.filterMap (fun voice =>
      let notes := measure.voice voice
      let total := (notes.map (fun n => n.beats)).sum
      if |total - target| > eps6 then
        some (("Measure ") ++ fmtI measure.number ++ (" voice ") ++ voiceName voice ++
          (" has ") ++ fmtQ total ++ (" beats; expected ") ++ fmtQ target ++ ("."))
      else none)))).flatten

/-- `_chord_symbol_pitch_classes`.  `NOTE_TO_SEMITONE[normalize_note_name(root)]`
raises an uncaught KeyError when the root is not a known spelling; that
exception is modelled as `Except.error` carrying a `KeyError: `-prefixed
message with the missing key, which every caller propagates (the source
catches no exception on this path).  `Except.ok none` is the source's
`None` for an empty symbol. -/
def chord_symbol_pitch_classes (symbol : String) : Except String (Option (List ℤ)) :=
  let cleaned := strStrip symbol
  match cleaned.data with
  | [] => Except.ok none
  | c :: rest =>
    let (root, rest1) :=
      match rest with
      | r :: rs => if r = '#' ∨ r = 'b' then (String.mk [c, r], String.mk rs)
        else (String.mk [c], String.mk rest)
      | [] => (String.mk [c], String.mk rest)
    match NOTE_TO_SEMITONE (normalize_note_name root) with
    | none => Except.error (("KeyError: ") ++ normalize_note_name root)
    | some root_pc =>
      let quality0 := strLower rest1
      let quality := if strStartsWith quality0 ("maj") then ("") else quality0
      let intervals :=
        if strContainsSub quality ("dim") then [0, 3, 6]
        else if strStartsWith quality ("m") ∧ ¬ strStartsWith quality ("maj") then [0, 3, 7]
        else [0, 4, 7]
      Except.ok (some (intervals.map (fun iv => (root_pc + iv) % 12)))

/-- `_normalized_pitch_classes` (a frozenset, canonicalised as a sorted
duplicate-free list). -/
def normalized_pitch_classes (pitch_classes : List ℤ) : List ℤ :=
  sortInts (dedupKeepFirst (pitch_classes.map (fun pc => pc % 12)))

/-- One chord of the `_validate_chord_progression` loop: the symbol is
parsed eagerly for every chord (before the diatonic tests), so an
unparseable root aborts the whole validation with the KeyError. -/
def chordCheckStep (valid_triads : List (List ℤ)) (key : String) (primary_mode : Option String)
    (acc : Except String (List String)) (chord : ScoreChord) : Except String (List String) :=
  match acc with
  | Except.error e => Except.error e
  | Except.ok errs =>
    let chord_pcs := normalized_pitch_classes chord.pitch_classes
    match chord_symbol_pitch_classes chord.symbol with
    | Except.error e => Except.error e
    | Except.ok symbol_pcs =>
      if chord_pcs ∈ valid_triads then Except.ok errs
      else if (symbol_pcs.map normalized_pitch_classes).any (fun s => s ∈ valid_triads) then
        Except.ok errs
      else Except.ok (errs ++
        [("Chord ") ++ chord.symbol ++ (" at measure ") ++ fmtI chord.measure_number ++
          (" is not diatonic in ") ++ key ++ (" (") ++
          ((primary_mode).getD ("default mode")) ++ (").")])

/-- `_validate_chord_progression` (fallible: an unknown chord-symbol root
raises through it). -/
def validate_chord_progression (score : CanonicalScore) (primary_mode : Option String) :
    Except String (List String) :=
  if score.chord_progression = [] then
    Except.ok [("Score must include an explicit chord progression.")]
  else
    let expected_measures := score.measures.map (fun m => m.number)
    let mapped_measures := score.chord_progression.map (fun c => c.measure_number)
    let missing := sortInts (dedupKeepFirst (expected_measures.filter (fun m => ¬ m ∈ mapped_measures)))
    let missingErrs :=
      if ¬ missing = [] then
        [("Missing chord symbols for measures: ") ++ toString missing ++ (".")]
      else []
    let scale := parse_key score.meta.key primary_mode
    let valid_triads := (List.range 7).map (fun d =>
      normalized_pitch_classes (triad_pitch_classes scale ((d : ℤ) + 1)))
    match score.chord_progression.foldl
        (chordCheckStep valid_triads score.meta.key primary_mode) (Except.ok []) with
    | Except.error e => Except.error e
    | Except.ok chordErrs => Except.ok (missingErrs ++ chordErrs)

/-- Python truthiness of an optional string. -/
def optStrTruthy (s : Option String) : Bool :=
  match s with
  | some v => ¬ v = ("")
  | none => false

/-- State of the `_validate_lyric_mapping` note loop. -/
structure LyricMapAcc where
  errors : List String
  mapped : List (String × String)
  lyricless : List ℕ
deriving Repr

/-- One soprano note of the `_validate_lyric_mapping` loop. -/
def lyricMapStep (lookupExpected : String → Option (List String))
    (acc : LyricMapAcc) (note_ix : ℕ × ScoreNote) : LyricMapAcc :=
    let note_idx := note_ix.1
    let note := note_ix.2
    if note.is_rest then acc
    else if (lookupExpected note.section_id).isNone ∧
        ¬ note.section_id = ("padding") ∧ ¬ note.section_id = ("interlude") then
      { acc with errors := acc.errors ++
          [("Lyric note references unknown section_id ") ++ note.section_id ++ (".")] }
    else
      let is_interlude := note.section_id = ("interlude")
      if ¬ is_interlude ∧ note.lyric_syllable_id = none then
        { acc with lyricless := acc.lyricless ++ [note_idx] }
      else
        let acc1 :=
          if optStrTruthy note.lyric_syllable_id then
            let sylId := (note.lyric_syllable_id).getD ("")
            let unknownErr :=
              match lookupExpected note.section_id with
              | some ids => if ¬ sylId ∈ ids then
                  [("Unknown syllable id ") ++ sylId ++ (" for section ") ++ note.section_id ++ (".")]
                else []
              | none => []
            { acc with errors := acc.errors ++ unknownErr
                       mapped := acc.mapped ++ [(note.section_id, sylId)] }
          else acc
        let acc2 :=
          if isContinuationMode note.lyric_mode ∧ note.lyric_syllable_id = none then
            { acc1 with errors := acc1.errors ++
                [("Note ") ++ fmtN note_idx ++ (" has continuation mode without syllable id.")] }
          else acc1
        if isContinuationMode note.lyric_mode ∧ optStrTruthy note.lyric then
          { acc2 with errors := acc2.errors ++
              [("Note ") ++ fmtN note_idx ++ (" repeats lyric text on a continuation mode.")] }
        else acc2

/-- `_validate_lyric_mapping`. -/
def validate_lyric_mapping (score : CanonicalScore) : List String :=
  let expected := score.sections.map (fun s => (s.id, s.syllables.map (fun sy => sy.id)))
  let lookupExpected := fun (sid : String) => (expected.find? (fun p => p.1 = sid)).map (fun p => p.2)
  let acc := (flatten_voice score .soprano).enum.foldl (lyricMapStep lookupExpected) ⟨[], [], []⟩
  let lyriclessErrs :=
    if ¬ acc.lyricless = [] then
      [("Verse contains lyricless notes at indices ") ++ toString acc.lyricless ++ (" (outside interlude).")]
    else []
  let sectionErrs := score.sections.filterMap (fun sec =>
    let expectedIds := (lookupExpected sec.id).getD []
    let mappedIds := (acc.mapped.filter (fun p => p.1 = sec.id)).map (fun p => p.2)
    let missing := (expectedIds.filter (fun i => ¬ i ∈ mappedIds))
    let missingSorted := (dedupKeepFirst missing).mergeSort (fun a b => decide (a ≤ b))
    if ¬ missingSorted = [] then
      some (("Section ") ++ sec.id ++ (" has unmapped syllables: ") ++ toString missingSorted)
    else none)
  acc.errors ++ lyriclessErrs ++ sectionErrs

/-- Ordered dictionary update (`d[k] = v` keeps the original key slot). -/
def updateAssoc [DecidableEq κ] (l : List (κ × ν)) (k : κ) (v : ν) : List (κ × ν) :=
  if (l.find? (fun p => p.1 = k)).isSome then
    l.map (fun p => if p.1 = k then (k, v) else p)
  else l ++ [(k, v)]

/-- `_validate_phrase_barline_alignment`. -/
def validate_phrase_barline_alignment (score : CanonicalScore) : List String :=
  let bpb := beats_per_measure score.meta.time_signature
  let phrase_end_ids := (score.sections.map (fun s =>
    (s.syllables.filter (fun sy => sy.phrase_end_after ∧ sy.must_end_at_barline)).map (fun sy => sy.id))).flatten
  if phrase_end_ids = [] then []
  else
    let folded := (flatten_voice score .soprano).foldl
      (fun (acc : List (String × ℚ) × ℚ) note =>
        let end_cursor := acc.2 + note.beats
        let isEndNote : Bool := (! note.is_rest) && (match note.lyric_syllable_id with
          | some i => decide (i ∈ phrase_end_ids)
          | none => false)
        let recorded :=
          if isEndNote then updateAssoc acc.1 ((note.lyric_syllable_id).getD ("")) end_cursor
          else acc.1
        (recorded, end_cursor)) ([], 0)
    let sortedEnds := folded.1.mergeSort (fun a b => decide (a.2 ≤ b.2))
    sortedEnds.filterMap (fun p =>
      if |qmod p.2 bpb| > eps6 then
        some (("Lyric phrase ending at syllable ") ++ p.1 ++ (" ends at beat ") ++ fmtQ p.2 ++
          (", not on a barline."))
      else none)

/-- Per-voice non-pickup sums of `_validate_pickup_measure_capacities`. -/
def pickupVoiceErrors (score : CanonicalScore) (beat_cap : ℚ) (section_id : String)
    (pickup_beats : ℚ) (voice : Voice) : List String :=
  let expected_first := max 0 (beat_cap - pickup_beats)
  let folded := score.measures.foldl
    (fun (acc : Option (ℤ × ℚ) × List (ℤ × ℚ)) measure =>
      let nonpickup := (((measure.voice voice).filter
        (fun n => n.section_id = section_id ∧ ¬ n.is_rest)).map (fun n => n.beats)).sum
      if nonpickup ≤ eps9 then acc
      else match acc.1 with
        | none => (some (measure.number, nonpickup), acc.2)
        | some _ => (acc.1, updateAssoc acc.2 measure.number nonpickup))
    (none, [])
  match folded.1 with
  | none => []
  | some (_, first_nonpickup) =>
    let firstErrs :=
      if |first_nonpickup - expected_first| > eps6 then
        [("Section ") ++ section_id ++ (" voice ") ++ voiceName voice ++
          (" first measure non-pickup beats ") ++ fmtQ first_nonpickup ++
          (" != expected ") ++ fmtQ expected_first ++ (".")]
      else []
    let subsequent := folded.2.mergeSort (fun a b => decide (a.1 ≤ b.1))
    firstErrs ++ subsequent.filterMap (fun p =>
      if |p.2 - beat_cap| > eps6 then
        some (("Section ") ++ section_id ++ (" voice ") ++ voiceName voice ++ (" measure ") ++
          fmtI p.1 ++ (" non-pickup beats ") ++ fmtQ p.2 ++ (" != expected full ") ++
          fmtQ beat_cap ++ ("."))
      else none)

/-- `_validate_pickup_measure_capacities`. -/
def validate_pickup_measure_capacities (score : CanonicalScore) : List String :=
  let beat_cap := beats_per_measure score.meta.time_signature
  let section_pickups := (score.sections.filter (fun s => s.anacrusis_beats > 0)).map
    (fun s => (s.id, s.anacrusis_beats))
  ((dedupKeepFirst section_pickups).map (fun p =>
    (VOICE_NAMES.map (pickupVoiceErrors score beat_cap p.1 p.2)).flatten)).flatten

/-- One note of the `_validate_ranges_and_motion` loop for one voice. -/
def rangesStep (voice : Voice) (lo hi t_lo t_hi : ℤ)
    (acc : List String × Option ℤ) (note_ix : ℕ × ScoreNote) : List String × Option ℤ :=
  let idx := note_ix.1
  let note := note_ix.2
  if note.is_rest then acc
  else
    let midi := midiOf note.pitch
    let e1 := if midi < lo ∨ midi > hi then
        [voiceName voice ++ (" note ") ++ fmtN idx ++ (" out of range (") ++ note.pitch ++ (").")]
      else []
    let e2 := match acc.2 with
      | some prev => if |midi - prev| > MAX_MELODIC_LEAP then
          [voiceName voice ++ (" note ") ++ fmtN idx ++ (" leap too large (") ++
            fmtI |midi - prev| ++ (" semitones).")]
        else []
      | none => []
    let e3 := if midi < t_lo - 1 ∨ midi > t_hi + 1 then
        [voiceName voice ++ (" note ") ++ fmtN idx ++ (" in extreme tessitura (") ++ note.pitch ++ (").")]
      else []
    (acc.1 ++ e1 ++ e2 ++ e3, some midi)

/-- `_validate_ranges_and_motion`. -/
def validate_ranges_and_motion (score : CanonicalScore) : List String :=
  (VOICE_NAMES.map (fun voice =>
    let (lo, hi) := VOICE_RANGES voice
    let (t_lo, t_hi) := VOICE_TESSITURA voice
    let folded := (flatten_voice score voice).enum.foldl
      (rangesStep voice lo hi t_lo t_hi) ([], none)
    folded.1)).flatten

/-- One note of the `_validate_harmonic_integrity` loop for one voice. -/
def harmonicStep (score : CanonicalScore) (bpb : ℚ) (voice : Voice)
    (acc : List String × ℚ) (note_ix : ℕ × ScoreNote) : List String × ℚ :=
  let idx := note_ix.1
  let note := note_ix.2
  if note.is_rest then (acc.1, acc.2 + note.beats)
  else
    let measure_number := qfloordiv acc.2 bpb + 1
    match chordByMeasure score.chord_progression measure_number with
    | none => (acc.1, acc.2 + note.beats)
    | some chord =>
      if chord.pitch_classes = [] then (acc.1, acc.2 + note.beats)
      else
        let chord_tones := chord.pitch_classes.map (fun pc => pc % 12)
        let pc := midiOf note.pitch % 12
        let errs :=
          if voice = Voice.soprano then
            if isContinuationMode note.lyric_mode then []
            else if is_strong_beat (qmod acc.2 bpb) score.meta.time_signature ∧ ¬ pc ∈ chord_tones then
              [("Soprano strong-beat note ") ++ fmtN idx ++ (" (") ++ note.pitch ++
                (") conflicts with chord in measure ") ++ fmtI measure_number ++ (".")]
            else []
          else if score.meta.stage = ("satb") ∧ ¬ pc ∈ chord_tones then
            [voiceName voice ++ (" note ") ++ fmtN idx ++ (" (") ++ note.pitch ++
              (") is outside chord tones in measure ") ++ fmtI measure_number ++ (".")]
          else []
        (acc.1 ++ errs, acc.2 + note.beats)

/-- `_validate_harmonic_integrity`. -/
def validate_harmonic_integrity (score : CanonicalScore) : List String :=
  let bpb := beats_per_measure score.meta.time_signature
  (VOICE_NAMES.map (fun voice =>
    let folded := (flatten_voice score voice).enum.foldl
      (harmonicStep score bpb voice) ([], 0)
    folded.1)).flatten

/-- Sung (non-rest) notes of a voice, in order. -/
def sungNotes (score : CanonicalScore) (voice : Voice) : List ScoreNote :=
  (flatten_voice score voice).filter (fun n => ¬ n.is_rest)

/-- `_validate_voice_separation`. -/
def validate_voice_separation (score : CanonicalScore) : List String :=
  let sop := sungNotes score .soprano
  let alto := sungNotes score .alto
  let tenor := sungNotes score .tenor
  let bass := sungNotes score .bass
  if ¬ (sop.length = alto.length ∧ alto.length = tenor.length ∧ tenor.length = bass.length) then
    [("SATB voices are not rhythmically aligned by note count.")]
  else
    ((List.range sop.length).map (fun idx =>
      let s_m := midiOf (sop.getD idx default).pitch
      let a_m := midiOf (alto.getD idx default).pitch
      let t_m := midiOf (tenor.getD idx default).pitch
      let b_m := midiOf (bass.getD idx default).pitch
      let e1 := if ¬ (s_m ≥ a_m ∧ a_m ≥ t_m ∧ t_m ≥ b_m) then
          [("Voice crossing at note ") ++ fmtN idx ++ (": S/A/T/B not ordered.")]
        else []
      let e2 := if s_m - a_m > 12 then
          [("Wide spacing at note ") ++ fmtN idx ++ (": soprano-alto exceeds octave.")]
        else []
      let e3 := if a_m - t_m > 12 then
          [("Wide spacing at note ") ++ fmtN idx ++ (": alto-tenor exceeds octave.")]
        else []
      let e4 := if t_m - b_m > 16 then
          [("Wide spacing at note ") ++ fmtN idx ++ (": tenor-bass exceeds 10th.")]
        else []
      e1 ++ e2 ++ e3 ++ e4)).flatten

/-- One voice-pair comparison of `_validate_parallel_intervals` at note
index `i`. -/
def parallelPairError (voices : List (List ScoreNote)) (names : List String)
    (i a b : ℕ) : Option String :=
  let va := voices.getD a []
  let vb := voices.getD b []
  let x0 := midiOf (va.getD (i - 1) default).pitch
  let y0 := midiOf (vb.getD (i - 1) default).pitch
  let x1 := midiOf (va.getD i default).pitch
  let y1 := midiOf (vb.getD i default).pitch
  let int0 := |x0 - y0| % 12
  let int1 := |x1 - y1| % 12
  let same_dir := (x1 - x0 > 0 ∧ y1 - y0 > 0) ∨ (x1 - x0 < 0 ∧ y1 - y0 < 0)
  if same_dir ∧ (int0 = 0 ∨ int0 = 7) ∧ int1 = int0 then
    some (("Potential parallel ") ++ (if int0 = 0 then ("8ve") else ("5th")) ++
      (" between ") ++ names.getD a ("") ++ (" and ") ++ names.getD b ("") ++
      (" at note ") ++ fmtN i ++ ("."))
  else none

/-- `_validate_parallel_intervals` (defined in the source, but never called
by `validate_score_diagnostics`). -/
def validate_parallel_intervals (score : CanonicalScore) : List String :=
  let voices := [sungNotes score .soprano, sungNotes score .alto,
    sungNotes score .tenor, sungNotes score .bass]
  let names := [("soprano"), ("alto"), ("tenor"), ("bass")]
  let len := (voices.map (fun v => v.length)).foldl min (sungNotes score .soprano).length
  (((List.range len).drop 1).map (fun i =>
    ((List.range 4).map (fun a =>
      ((List.range 4).filter (fun b => a < b)).filterMap (parallelPairError voices names i a))).flatten)).flatten

/-- All diagnostics, in the order `validate_score_diagnostics` collects
them (the parallel-interval check is not among them).  The chord check's
KeyError on an unparseable symbol root propagates through, aborting the
collection as in the source. -/
def collectDiagnostics (score : CanonicalScore) (primary_mode : Option String) :
    Except String (List String) :=
  let effective_mode := match primary_mode with
    | some m => some m
    | none => score.meta.primary_mode
  match validate_chord_progression score effective_mode with
  | Except.error e => Except.error e
  | Except.ok chordErrs =>
    Except.ok (measureSumErrors score ++
      chordErrs ++
      validate_lyric_mapping score ++
      validate_phrase_barline_alignment score ++
      validate_pickup_measure_capacities score ++
      validate_ranges_and_motion score ++
      validate_harmonic_integrity score ++
      (if score.meta.stage = ("satb") then validate_voice_separation score else []))

/-- `validate_score_diagnostics` (fallible: see `collectDiagnostics`). -/
def validate_score_diagnostics (score : CanonicalScore) (primary_mode : Option String := none) :
    Except String ValidationDiagnostics :=
  match collectDiagnostics score primary_mode with
  | Except.error e => Except.error e
  | Except.ok errors =>
    Except.ok { fatal := errors.filter (fun e => ¬ is_warning_diagnostic e)
                warnings := errors.filter (fun e => is_warning_diagnostic e) }

/-- `validate_score` (fallible: see `collectDiagnostics`). -/
def validate_score (score : CanonicalScore) (primary_mode : Option String := none) :
    Except String (List String) :=
  match validate_score_diagnostics score primary_mode with
  | Except.error e => Except.error e
  | Except.ok report => Except.ok (report.fatal ++ report.warnings)

/-! ## composer.py -/

def MAX_GENERATION_ATTEMPTS : ℕ := 5
def MAX_IDENTICAL_CONSECUTIVE_PITCHES : ℕ := 3

/-- Inner `while` of `_pack_measures`: move whole notes into the open
measure while they fit (`used + beats ≤ beat_cap + 1e-9`). -/
def packTakeFitting (beat_cap : ℚ) : List ScoreNote → ℚ → List ScoreNote × ℚ × List ScoreNote
  | [], used => ([], used, [])
  | note :: rest, used =>
    if used + note.beats ≤ beat_cap + eps9 then
      let (taken, used1, rest1) := packTakeFitting beat_cap rest (used + note.beats)
      (note :: taken, used1, rest1)
    else ([], used, note :: rest)

/-- One measure of `_pack_measures` for one voice: fill, split an
overflowing note, pad with a rest. -/
def packOneMeasure (beat_cap : ℚ) (notes : List ScoreNote) : List ScoreNote × List ScoreNote :=
  let (taken, used, rest) := packTakeFitting beat_cap notes 0
  let (taken1, used1, rest1) :=
    match rest with
    | overflowing :: tail =>
      if used < beat_cap ∧ overflowing.beats > beat_cap + eps9 then
        let chunk := { overflowing with beats := beat_cap - used }
        let remainder := { overflowing with
          beats := overflowing.beats - (beat_cap - used)
          lyric := none
          lyric_syllable_id := none
          lyric_mode := ("tie_continue") }
        (taken ++ [chunk], used + chunk.beats, remainder :: tail)
      else (taken, used, rest)
    | [] => (taken, used, rest)
  if used1 < beat_cap then (taken1 ++ [restNote (beat_cap - used1) ("padding")], rest1)
  else (taken1, rest1)

/-- All measures of `_pack_measures` for one voice (fuel mirrors the outer
`while`; the caller passes enough for every chunk of every note). -/
def packVoiceMeasures (beat_cap : ℚ) : ℕ → List ScoreNote → List (List ScoreNote)
  | 0, _ => []
  | _ + 1, [] => []
  | fuel + 1, notes =>
    let (measure, rest) := packOneMeasure beat_cap notes
    measure :: packVoiceMeasures beat_cap fuel rest

/-- Fuel bound for `packVoiceMeasures`. -/
def packFuel (beat_cap : ℚ) (notes : List ScoreNote) : ℕ :=
  notes.length + (notes.map (fun n => (qfloordiv n.beats beat_cap).toNat + 1)).sum + 1

/-- `_pack_measures` (the source interleaves the four voices in one loop;
the voices do not interact, so each voice is packed separately and the
shorter voices are padded with full-measure rests, which is what the
source loop produces for an exhausted voice). -/
def pack_measures (soprano alto tenor bass : List ScoreNote) (time_signature : String) :
    List ScoreMeasure :=
  let beat_cap := beats_per_measure time_signature
  let sop := packVoiceMeasures beat_cap (packFuel beat_cap soprano) soprano
  let alt := packVoiceMeasures beat_cap (packFuel beat_cap alto) alto
  let ten := packVoiceMeasures beat_cap (packFuel beat_cap tenor) tenor
  let bas := packVoiceMeasures beat_cap (packFuel beat_cap bass) bass
  let count := max (max sop.length alt.length) (max ten.length bas.length)
  (List.range count).map (fun (i : ℕ) =>
    ({ number := (i : ℤ) + 1
       soprano := sop.getD i [restNote beat_cap ("padding")]
       alto := alt.getD i [restNote beat_cap ("padding")]
       tenor := ten.getD i [restNote beat_cap ("padding")]
       bass := bas.getD i [restNote beat_cap ("padding")] } : ScoreMeasure))

/-- The `while abs(candidate - previous) > MAX_MELODIC_LEAP` loop (single
steps toward `previous`; fuel mirrors the distance). -/
def pullWithinLeap : ℕ → ℤ → ℤ → ℤ
  | 0, candidate, _ => candidate
  | fuel + 1, candidate, previous =>
    if |candidate - previous| > MAX_MELODIC_LEAP then
      pullWithinLeap fuel (candidate + (if candidate > previous then -1 else 1)) previous
    else candidate

/-- The upward scale search (`while up % 12 not in scale and up ≤ hi`). -/
def scaleSearchUp (scale_set : List ℤ) (hi : ℤ) : ℕ → ℤ → ℤ
  | 0, up => up
  | fuel + 1, up =>
    if ¬ up % 12 ∈ scale_set ∧ up ≤ hi then scaleSearchUp scale_set hi fuel (up + 1)
    else up

/-- The downward scale search (`while down % 12 not in scale and down ≥ lo`). -/
def scaleSearchDown (scale_set : List ℤ) (lo : ℤ) : ℕ → ℤ → ℤ
  | 0, down => down
  | fuel + 1, down =>
    if ¬ down % 12 ∈ scale_set ∧ down ≥ lo then scaleSearchDown scale_set lo fuel (down - 1)
    else down

/-- `_constrain_melodic_candidate`. -/
def constrain_melodic_candidate (candidate previous : ℤ) (voice : Voice) (scale_set : List ℤ) : ℤ :=
  let (lo, hi) := VOICE_RANGES voice
  let (t_lo, t_hi) := VOICE_TESSITURA voice
  let c1 := nearest_in_range candidate lo hi
  let c2 := pullWithinLeap (c1 - previous).natAbs c1 previous
  let c3 := if c2 < t_lo then c2 + 1 else if c2 > t_hi then c2 - 1 else c2
  let c4 :=
    if ¬ c3 % 12 ∈ scale_set then
      let up := scaleSearchUp scale_set hi (hi - c3 + 1).toNat c3
      let down := scaleSearchDown scale_set lo (c3 - lo + 1).toNat c3
      if lo ≤ down ∧ down ≤ hi ∧ |down - previous| ≤ |up - previous| then down
      else if lo ≤ up ∧ up ≤ hi then up
      else c3
    else c3
  nearest_in_range c4 lo hi

/-- `_creates_parallel`. -/
def creates_parallel (prev_s curr_s prev_v curr_v : ℤ) : Bool :=
  let int0 := |prev_s - prev_v| % 12
  let int1 := |curr_s - curr_v| % 12
  let same_dir := (curr_s - prev_s > 0 ∧ curr_v - prev_v > 0) ∨
    (curr_s - prev_s < 0 ∧ curr_v - prev_v < 0)
  same_dir ∧ (int0 = 0 ∨ int0 = 7) ∧ int1 = int0

/-- `_break_parallel_with_soprano`. -/
def break_parallel_with_soprano (curr_s prev_s prev_v candidate : ℤ) (voice : Voice)
    (scale_set : List ℤ) : ℤ :=
  if ¬ creates_parallel prev_s curr_s prev_v candidate then candidate
  else
    let found := [(-2 : ℤ), -1, 1, 2, -3, 3].foldl (fun (acc : Option ℤ) delta =>
      match acc with
      | some _ => acc
      | none =>
        let cand := constrain_melodic_candidate (candidate + delta) prev_v voice scale_set
        if ¬ creates_parallel prev_s curr_s prev_v cand then some cand else none) none
    found.getD candidate

/-- Integers of `range(lo, hi + 1)`. -/
def intRange (lo hi : ℤ) : List ℤ :=
  (List.range (hi + 1 - lo).toNat).map (fun (i : ℕ) => lo + i)

/-- Python `min(pool, key=…)` for a two-part numeric key (first minimum
wins). -/
def pickMinBy2 (l : List ℤ) (k1 k2 : ℤ → ℚ) : ℤ :=
  match l with
  | [] => 0
  | first :: rest => rest.foldl (fun best m =>
      if k1 m < k1 best ∨ (k1 m = k1 best ∧ k2 m < k2 best) then m else best) first

/-- Python `min(pool, key=…)` for a three-part numeric key. -/
def pickMinBy3 (l : List ℤ) (k1 k2 k3 : ℤ → ℚ) : ℤ :=
  match l with
  | [] => 0
  | first :: rest => rest.foldl (fun best m =>
      if k1 m < k1 best ∨ (k1 m = k1 best ∧ (k2 m < k2 best ∨ (k2 m = k2 best ∧ k3 m < k3 best)))
      then m else best) first

/-- `_choose_chord_tone`. -/
def choose_chord_tone (voice : Voice) (previous target : ℤ) (chord_tones : List ℤ)
    (lower_bound : Option ℤ := none) (upper_bound : Option ℤ := none) : ℤ :=
  let (base_lo, base_hi) := VOICE_RANGES voice
  let lo0 := match lower_bound with
    | some lb => max base_lo lb
    | none => base_lo
  let hi0 := match upper_bound with
    | some ub => min base_hi ub
    | none => base_hi
  let (t_lo, t_hi) := VOICE_TESSITURA voice
  let (lo, hi) :=
    if lo0 > hi0 then
      let lo1 := max base_lo (t_lo - 1)
      let hi1 := min base_hi (t_hi + 1)
      if lo1 > hi1 then (base_lo, base_hi) else (lo1, hi1)
    else (lo0, hi0)
  let candidates := (intRange lo hi).filter (fun m => m % 12 ∈ chord_tones)
  if candidates = [] then nearest_in_range target lo hi
  else
    let pick := fun (pool : List ℤ) =>
      pickMinBy2 pool (fun m => (|m - target| : ℤ)) (fun m => (|m - previous| : ℤ))
    let pool1 := candidates.filter (fun m => |m - previous| ≤ MAX_MELODIC_LEAP ∧ t_lo - 1 ≤ m ∧ m ≤ t_hi + 1)
    let pool2 := candidates.filter (fun m => |m - previous| ≤ MAX_MELODIC_LEAP)
    let pool3 := candidates.filter (fun m => t_lo - 1 ≤ m ∧ m ≤ t_hi + 1)
    if ¬ pool1 = [] then pick pool1
    else if ¬ pool2 = [] then pick pool2
    else if ¬ pool3 = [] then pick pool3
    else pick candidates

/-- `_nearest_pitch_class`. -/
def nearest_pitch_class (target : ℤ) (pitch_classes : List ℤ) (lo hi : ℤ) : ℤ :=
  let candidates := (intRange lo hi).filter (fun m => m % 12 ∈ pitch_classes)
  if candidates = [] then nearest_in_range target lo hi
  else pickMinBy2 candidates (fun m => (|m - target| : ℤ)) (fun m => (m : ℚ))

/-- `_melodic_leap_penalty`. -/
def melodic_leap_penalty (leap_size : ℤ) : ℚ :=
  if leap_size ≤ 2 then (leap_size : ℚ)
  else if leap_size ≤ 4 then (leap_size : ℚ) - 1.0
  else (leap_size : ℚ) + 1.5

/-- `_nearest_pitch_class_with_leap`. -/
def nearest_pitch_class_with_leap (target previous : ℤ) (pitch_classes : List ℤ) (voice : Voice) : ℤ :=
  let (lo, hi) := VOICE_RANGES voice
  let candidates := (intRange lo hi).filter
    (fun m => m % 12 ∈ pitch_classes ∧ |m - previous| ≤ MAX_MELODIC_LEAP)
  if candidates = [] then nearest_pitch_class target pitch_classes lo hi
  else pickMinBy3 candidates (fun m => (|m - target| : ℤ))
    (fun m => melodic_leap_penalty |m - previous|) (fun m => (m : ℚ))

/-- `_phrase_note_totals`. -/
def phrase_note_totals (rhythm_plan : List RhythmItem) (phrase_end_ids : List String) : List ℕ :=
  let folded := rhythm_plan.foldl (fun (acc : List ℕ × ℕ) item =>
    let running := acc.2 + item.durations.length
    if item.syllable_id ∈ phrase_end_ids then (acc.1 ++ [running], 0)
    else (acc.1, running)) ([], 0)
  let totals := if folded.2 > 0 then folded.1 ++ [folded.2] else folded.1
  if totals = [] then [1] else totals

/-- `_phrase_end_indices_from_phrase_blocks`. -/
def phrase_end_indices_from_phrase_blocks (syllables : List ScoreSyllable)
    (phrase_blocks : List PhraseBlock) : List ℕ :=
  let folded := phrase_blocks.foldl (fun (acc : List ℕ × ℕ) block =>
    let words := countWordTokens block.text
    let running_words := acc.2 + words
    if words = 0 ∨ block.merge_with_next_phrase then (acc.1, running_words)
    else (acc.1 ++ [running_words - 1], running_words)) ([], 0)
  let word_boundaries := folded.1
  let index_by_word := syllables.enum.foldl
    (fun (acc : List (ℕ × ℕ)) p => updateAssoc acc p.2.word_index p.1) []
  word_boundaries.filterMap (fun w => (index_by_word.find? (fun p => p.1 = w)).map (fun p => p.2))

/-- `_apply_phrase_end_indices` (in-place mutation of the syllable list,
returned as a new list). -/
def apply_phrase_end_indices (syllables : List ScoreSyllable) (phrase_end_indices : List ℕ)
    (phrase_blocks : List PhraseBlock) : List ScoreSyllable :=
  let cleared := syllables.map (fun s => { s with phrase_end_after := false, breath_after_phrase := false })
  let marked := cleared.enum.map (fun p =>
    if p.1 ∈ phrase_end_indices then { p.2 with phrase_end_after := true } else p.2)
  let block_boundaries := phrase_end_indices_from_phrase_blocks marked phrase_blocks
  let breath_boundaries : List ℕ := (phrase_blocks.zip block_boundaries).filterMap
    (fun bb => if bb.1.breath_after_phrase then some bb.2 else none)
  marked.enum.map (fun p =>
    if p.1 ∈ breath_boundaries then
      { p.2 with phrase_end_after := true, breath_after_phrase := true }
    else p.2)

/-- `_initial_identical_pitch_run`. -/
def initial_identical_pitch_run (notes : List ScoreNote) : ℕ × Option ℤ :=
  let sung := notes.filter (fun n => ¬ n.is_rest)
  match sung.getLast? with
  | none => (0, none)
  | some last =>
    let last_pitch := midiOf last.pitch
    let run := (sung.reverse.takeWhile (fun n => midiOf n.pitch = last_pitch)).length
    (run, some last_pitch)

/-- `_apply_repetition_guardrail`. -/
def apply_repetition_guardrail (candidate previous_pitch : ℤ) (identical_count : ℕ)
    (scale_set : List ℤ) (contour_direction : ℤ) : ℤ :=
  if identical_count < MAX_IDENTICAL_CONSECUTIVE_PITCHES then candidate
  else
    let direction : ℤ := if contour_direction ≥ 0 then 1 else -1
    let found := [direction, -direction, direction * 2, -direction * 2].foldl
      (fun (acc : Option ℤ) delta =>
        match acc with
        | some _ => acc
        | none =>
          let moved := constrain_melodic_candidate (previous_pitch + delta) previous_pitch .soprano scale_set
          if ¬ moved = previous_pitch then some moved else none) none
    found.getD candidate

/-- `_cluster_progression_cycle`. -/
def cluster_progression_cycle (cluster_label : String) : List ℤ :=
  let archetype := section_archetype cluster_label
  if archetype = ("verse") then [1, 4, 5, 6]
  else if archetype = ("chorus") then [1, 5, 6, 4]
  else if archetype = ("bridge") then [6, 4, 1, 5]
  else if archetype = ("pre-chorus") then [2, 4, 5, 1]
  else if archetype = ("intro") then [1, 5, 6, 4]
  else if archetype = ("outro") then [1, 4, 1, 5]
  else [1, 6, 4, 5]

/-- `_build_section_progression`. -/
def build_section_progression (scale : Scale) (section_id : String) (start_measure : ℤ)
    (measure_count : ℕ) (cluster_cycle : List ℤ) : List ScoreChord :=
  (List.range measure_count).map (fun (i : ℕ) =>
    let degree := cluster_cycle.getD (i % cluster_cycle.length) 0
    ({ measure_number := start_measure + i
       section_id := section_id
       degree := degree
       symbol := chord_symbol scale degree
       pitch_classes := triad_pitch_classes scale degree } : ScoreChord))

/-- The tuples `(section_id, label, is_verse, music_unit_id, pickup_beats,
rhythm_plan)` accumulated by `_compose_melody_once`. -/
structure SectionPlan where
  section_id : String
  label : String
  is_verse : Bool
  music_unit_id : String
  anacrusis_beats : ℚ
  rhythm_plan : List RhythmItem
deriving Repr, Inhabited

/-- Measure containing a running beat position
(`int(max(cursor - 1e-9, 0.0) // beat_cap) + 1`). -/
def endingMeasureOf (cursor beat_cap : ℚ) : ℤ :=
  qfloordiv (max (cursor - eps9) 0) beat_cap + 1

/-- Keep the last chord per measure number, ordered by first insertion
(`{ch.measure_number: ch for ch in chords}`). -/
def dedupChordsKeepLast (chords : List ScoreChord) : List ScoreChord :=
  let keys := dedupKeepFirst (chords.map (fun c => c.measure_number))
  keys.filterMap (fun k => chordByMeasure chords k)

/-- Set the degree (with symbol and pitch classes) of the chord at a
measure number, if present. -/
def setChordDegree (scale : Scale) (chords : List ScoreChord) (measure_number degree : ℤ) :
    List ScoreChord :=
  chords.map (fun c =>
    if c.measure_number = measure_number then
      { c with degree := degree
               symbol := chord_symbol scale degree
               pitch_classes := triad_pitch_classes scale degree }
    else c)

/-- The phrase-end measures of every section plan, in plan order
(the first loop of `_apply_phrase_cadential_bias`). -/
def phraseEndMeasures (sections : List ScoreSection) (section_plans : List SectionPlan)
    (beat_cap : ℚ) : List (String × List ℤ) :=
  let folded := section_plans.foldl (fun (acc : List (String × List ℤ) × ℚ) plan =>
    match sections.find? (fun s => s.id = plan.section_id) with
    | none => acc
    | some sec =>
      let phrase_end_ids := (sec.syllables.filter (fun sy => sy.phrase_end_after)).map (fun sy => sy.id)
      let cursor0 := acc.2 + plan.anacrusis_beats
      let inner : List ℤ × ℚ := plan.rhythm_plan.foldl (fun (acc2 : List ℤ × ℚ) item =>
        let cursor := acc2.2 + item.durations.sum
        if item.syllable_id ∈ phrase_end_ids then
          (acc2.1 ++ [endingMeasureOf cursor beat_cap], cursor)
        else (acc2.1, cursor)) ([], cursor0)
      let entries :=
        if inner.1 = [] then acc.1
        else match acc.1.find? (fun p => p.1 = plan.section_id) with
          | some _ => acc.1.map (fun p =>
              if p.1 = plan.section_id then (p.1, p.2 ++ inner.1) else p)
          | none => acc.1 ++ [(plan.section_id, inner.1)]
      (entries, inner.2)) ([], 0)
  folded.1

/-- The cadence updates of one section (the second loop of
`_apply_phrase_cadential_bias`): measures with their forced degrees, in
application order. -/
def cadenceTargetStep (available_measures : List ℤ) (acc : List (ℤ × ℤ) × ℤ)
    (phrase_end : ℤ) : List (ℤ × ℤ) × ℤ :=
  if ¬ phrase_end ∈ available_measures then (acc.1, phrase_end)
  else
    let span_measures := phrase_end - acc.2
    let targets0 : List (ℤ × ℤ) := [(phrase_end, 1)]
    let targets1 := if (phrase_end - 1) ∈ available_measures then targets0 ++ [(phrase_end - 1, 5)] else targets0
    let targets2 := if span_measures ≥ 3 ∧ (phrase_end - 2) ∈ available_measures then
        targets1 ++ [(phrase_end - 2, 2)]
      else targets1
    (acc.1 ++ targets2, phrase_end)

def sectionCadenceTargets (available_measures : List ℤ) (phrase_ends : List ℤ) : List (ℤ × ℤ) :=
  let section_start := available_measures.foldl min (available_measures.getD 0 0)
  (phrase_ends.foldl (cadenceTargetStep available_measures) ([], section_start - 1)).1

/-- One section entry of the cadence loop of
`_apply_phrase_cadential_bias`: apply that section's cadence targets to
the working chord list. -/
def cadenceSectionStep (chords : List ScoreChord) (scale : Scale)
    (acc : List ScoreChord) (entry : String × List ℤ) : List ScoreChord :=
  let section_id := entry.1
  let available_measures := (chords.filter (fun c => c.section_id = section_id)).map
    (fun c => c.measure_number)
  if available_measures = [] then acc
  else
    let phrase_ends := sortInts (dedupKeepFirst entry.2)
    (sectionCadenceTargets available_measures phrase_ends).foldl
      (fun acc2 target => setChordDegree scale acc2 target.1 target.2) acc

/-- `_apply_phrase_cadential_bias`. -/
def apply_phrase_cadential_bias (chords : List ScoreChord) (sections : List ScoreSection)
    (section_plans : List SectionPlan) (beat_cap : ℚ) (key : String)
    (primary_mode : Option String) : List ScoreChord :=
  if chords = [] then chords
  else
    let scale := parse_key key primary_mode
    let deduped := dedupChordsKeepLast chords
    let phrase_end_measures := phraseEndMeasures sections section_plans beat_cap
    let updated := phrase_end_measures.foldl (cadenceSectionStep chords scale) deduped
    updated.mergeSort (fun a b => decide (a.measure_number ≤ b.measure_number))

/-- `_repair_harmony_progression`. -/
def repair_harmony_progression (chords : List ScoreChord) (measure_count : ℕ) (key : String)
    (primary_mode : Option String) : List ScoreChord :=
  let scale := parse_key key primary_mode
  let repaired := (sortChordsByMeasure chords).map (fun chord =>
    let degree := if 1 ≤ chord.degree ∧ chord.degree ≤ 7 then chord.degree else 1
    ({ measure_number := chord.measure_number
       section_id := chord.section_id
       degree := degree
       symbol := chord_symbol scale degree
       pitch_classes := triad_pitch_classes scale degree } : ScoreChord))
  let mapped_measures := repaired.map (fun c => c.measure_number)
  let fallback_section_id := match repaired.head? with
    | some c => c.section_id
    | none => ("padding")
  let filled := repaired ++ (List.range measure_count).filterMap (fun (i : ℕ) =>
    let measure_number : ℤ := (i : ℤ) + 1
    if measure_number ∈ mapped_measures then none
    else some ({ measure_number := measure_number
                 section_id := fallback_section_id
                 degree := 1
                 symbol := chord_symbol scale 1
                 pitch_classes := triad_pitch_classes scale 1 } : ScoreChord))
  sortChordsByMeasure filled

/-- The tuples `(section_id, label, is_verse, cluster, anacrusis_mode,
anacrusis_beats, phrase_blocks)` returned by `_expand_arrangement`. -/
structure ArrangedInstance where
  section_id : String
  label : String
  is_verse : Bool
  music_unit_id : String
  anacrusis_mode : String
  anacrusis_beats : ℚ
  phrase_blocks : List PhraseBlock
deriving Repr, Inhabited

/-- Default phrase blocks from a section text (one per non-blank line). -/
def defaultPhraseBlocks (text : String) : List PhraseBlock :=
  let fromLines := (strSplitLines text).filterMap (fun line =>
    if strStrip line = ("") then none
    else some ({ text := strStrip line
                 must_end_at_barline := true
                 breath_after_phrase := false
                 merge_with_next_phrase := false } : PhraseBlock))
  if fromLines = [] then
    [{ text := text, must_end_at_barline := true, breath_after_phrase := false,
       merge_with_next_phrase := false }]
  else fromLines

/-- The key under which a section is registered
(`section.id or f"section-{idx}"`; a pydantic id is `None` or non-empty). -/
def sectionKey (sec : LyricSection) (idx : ℕ) : String :=
  match sec.id with
  | some i => if i = ("") then ("section-") ++ fmtN idx else i
  | none => ("section-") ++ fmtN idx

/-- One arrangement item of the `_expand_arrangement` loop: an unknown
section id raises; otherwise the item's phrase blocks (or the section's
lines, or its whole text) are appended as an arranged instance. -/
def expandArrangementStep (section_defs : List (String × LyricSection))
    (acc : Except String (List ArrangedInstance)) (item : ArrangementItem) :
    Except String (List ArrangedInstance) :=
  match acc with
  | Except.error e => Except.error e
  | Except.ok instances =>
    match (section_defs.reverse.find? (fun p => p.1 = item.section_id)).map (fun p => p.2) with
    | none => Except.error (("Arrangement references unknown section_id: ") ++ item.section_id)
    | some sec =>
      let phrase_blocks0 := if item.phrase_blocks = [] then
          (strSplitLines sec.text).filterMap (fun line =>
            if strStrip line = ("") then none
            else some ({ text := strStrip line
                         must_end_at_barline := true
                         breath_after_phrase := false
                         merge_with_next_phrase := false } : PhraseBlock))
        else item.phrase_blocks
      let phrase_blocks := if phrase_blocks0 = [] then
          [({ text := sec.text, must_end_at_barline := true, breath_after_phrase := false,
              merge_with_next_phrase := false } : PhraseBlock)]
        else phrase_blocks0
      Except.ok (instances ++
        [{ section_id := item.section_id
           label := sec.label
           is_verse := sec.is_verse
           music_unit_id := if sec.is_verse then ("verse")
             else ((item.progression_cluster).getD sec.label)
           anacrusis_mode := item.anacrusis_mode
           anacrusis_beats := item.anacrusis_beats
           phrase_blocks := phrase_blocks }])

/-- `_expand_arrangement`. -/
def expand_arrangement (req : CompositionRequest) : Except String (List ArrangedInstance) :=
  let section_defs := req.sections.enum.map (fun p => (sectionKey p.2 (p.1 + 1), p.2))
  if req.arrangement = [] then
    Except.ok (req.sections.enum.map (fun p =>
      ({ section_id := sectionKey p.2 (p.1 + 1)
         label := p.2.label
         is_verse := p.2.is_verse
         music_unit_id := if p.2.is_verse then ("verse") else p.2.label
         anacrusis_mode := ("off")
         anacrusis_beats := 0
         phrase_blocks := defaultPhraseBlocks p.2.text } : ArrangedInstance)))
  else
    req.arrangement.foldl (expandArrangementStep section_defs) (Except.ok [])

/-- `_build_arrangement_music_units`. -/
def build_arrangement_music_units (arranged_instances : List ArrangedInstance) :
    List ArrangementMusicUnit :=
  let folded := arranged_instances.enum.foldl
    (fun (acc : List ArrangementMusicUnit × ℕ) p =>
      let inst := p.2
      let verse_index := if inst.is_verse then acc.2 + 1 else acc.2
      let current := if inst.is_verse then verse_index else 1
      (acc.1 ++ [{ arrangement_index := p.1
                   music_unit_id := inst.music_unit_id
                   verse_index := some current }], verse_index)) ([], 0)
  folded.1

/-- `_recommend_anacrusis_beats` (for a capacity below 1 the modulo
`syllable_count % int(beat_cap)` of the source would raise
ZeroDivisionError; that case is modelled as remainder 0). -/
def recommend_anacrusis_beats (syllable_count : ℕ) (beat_cap : ℚ) : ℚ :=
  if syllable_count < 7 ∨ beat_cap ≤ 0 then 0
  else
    let capInt := (⌊beat_cap⌋ : ℤ).toNat
    let remainder := if capInt = 0 then 0 else syllable_count % capInt
    if remainder = 1 then 1
    else if beat_cap ≥ 4 ∧ remainder = 3 ∧ syllable_count ≥ 11 then 1
    else 0

/-- `_stable_pickup_seed` (the source hashes this string with SHA-256 and
keeps 16 hex digits; the digest is only logged and explicitly ignored by
`_resolve_anacrusis_beats`, so the pre-image string stands in for it). -/
def stable_pickup_seed (section_id section_label rhythm_seed music_unit_id mode : String) : String :=
  section_id ++ ("|") ++ section_label ++ ("|") ++ music_unit_id ++ ("|") ++ mode ++ ("|") ++ rhythm_seed

/-- `_resolve_anacrusis_beats` (the seed parameter is ignored by the
source: `_ = seed`). -/
def resolve_anacrusis_beats (mode : String) (configured_beats : ℚ) (syllable_count : ℕ)
    (beat_cap : ℚ) : ℚ :=
  if mode = ("manual") then max 0 (min configured_beats (max 0 (beat_cap - 0.5)))
  else if mode = ("auto") then recommend_anacrusis_beats syllable_count beat_cap
  else 0

/-- Replace the notes of one voice across the measures, preserving the
per-measure note counts (the source mutates the shared note objects that
`_flatten_voice` returns). -/
def replaceVoiceNotes (measures : List ScoreMeasure) (voice : Voice) (newNotes : List ScoreNote) :
    List ScoreMeasure :=
  (measures.foldl (fun (acc : List ScoreMeasure × List ScoreNote) m =>
    let n := (m.voice voice).length
    let chunk := acc.2.take n
    let m1 := match voice with
      | .soprano => { m with soprano := chunk }
      | .alto => { m with alto := chunk }
      | .tenor => { m with tenor := chunk }
      | .bass => { m with bass := chunk }
    (acc.1 ++ [m1], acc.2.drop n)) ([], newNotes)).1

/-- `_repair_missing_chords`. -/
def repair_missing_chords (score : CanonicalScore) (primary_mode : Option String) : CanonicalScore :=
  if score.measures = [] then score
  else
    let scale := parse_key score.meta.key primary_mode
    let additions := score.measures.filterMap (fun m =>
      if (chordByMeasure score.chord_progression m.number).isSome then none
      else
        let section_id := match m.soprano.find? (fun n => ¬ n.is_rest) with
          | some n => n.section_id
          | none => ("padding")
        some ({ measure_number := m.number
                section_id := section_id
                degree := 1
                symbol := chord_symbol scale 1
                pitch_classes := triad_pitch_classes scale 1 } : ScoreChord))
    { score with chord_progression := score.chord_progression ++ additions }

/-- `_repair_key_mode_mismatch`. -/
def repair_key_mode_mismatch (score : CanonicalScore) (primary_mode : Option String) : CanonicalScore :=
  let scale := parse_key score.meta.key primary_mode
  { score with chord_progression := score.chord_progression.map (fun chord =>
      let degree := if 1 ≤ chord.degree ∧ chord.degree ≤ 7 then chord.degree else 1
      { chord with degree := degree
                   pitch_classes := triad_pitch_classes scale degree
                   symbol := chord_symbol scale degree }) }

/-- `_repair_soprano_strong_beats`. -/
def repair_soprano_strong_beats (score : CanonicalScore) (primary_mode : Option String) : CanonicalScore :=
  let scale_set := (parse_key score.meta.key primary_mode).semitones
  let bpb := beats_per_measure score.meta.time_signature
  let folded := (flatten_voice score .soprano).foldl
    (fun (acc : List ScoreNote × Option ℤ × ℚ) note =>
      let (out, prev, cursor) := acc
      if note.is_rest then (out ++ [note], prev, cursor + note.beats)
      else
        let midi0 := midiOf note.pitch
        let basis := prev.getD midi0
        let midi :=
          if note.lyric_mode = ("tie_continue") then basis
          else if ¬ note.lyric_mode = ("melisma_continue") ∧
              is_strong_beat (qmod cursor bpb) score.meta.time_signature then
            match chordByMeasure score.chord_progression (qfloordiv cursor bpb + 1) with
            | some chord =>
              if ¬ midi0 % 12 ∈ chord.pitch_classes.map (fun pc => pc % 12) then
                let m1 := nearest_pitch_class_with_leap midi0 basis (chord.pitch_classes.map (fun pc => pc % 12)) .soprano
                let m2 := constrain_melodic_candidate m1 basis .soprano scale_set
                nearest_pitch_class_with_leap m2 basis (chord.pitch_classes.map (fun pc => pc % 12)) .soprano
              else midi0
            | none => midi0
          else midi0
        (out ++ [{ note with pitch := midi_to_pitch midi }], some midi, cursor + note.beats))
    ([], none, 0)
  { score with measures := replaceVoiceNotes score.measures .soprano folded.1 }

/-- Last note index per syllable id over the soprano stream. -/
def lastIndexBySyllable (notes : List ScoreNote) : List (String × ℕ) :=
  notes.enum.foldl (fun (acc : List (String × ℕ)) p =>
    if p.2.is_rest then acc
    else match p.2.lyric_syllable_id with
      | some i => updateAssoc acc i p.1
      | none => acc) []

/-- `_repair_phrase_end_stability`. -/
def repair_phrase_end_stability (score : CanonicalScore) (primary_mode : Option String) : CanonicalScore :=
  if ¬ score.meta.stage = ("melody") then score
  else
    let bpb := beats_per_measure score.meta.time_signature
    let scale_set := (parse_key score.meta.key primary_mode).semitones
    let tonic_tones := triad_pitch_classes (parse_key score.meta.key primary_mode) 1
    let phrase_end_ids := (score.sections.map (fun s =>
      (s.syllables.filter (fun sy => sy.phrase_end_after)).map (fun sy => sy.id))).flatten
    if phrase_end_ids = [] then score
    else
      let soprano := flatten_voice score .soprano
      let lastIdx := lastIndexBySyllable soprano
      let folded := soprano.enum.foldl
        (fun (acc : List ScoreNote × Option ℤ × ℚ) p =>
          let idx := p.1
          let note := p.2
          let (out, prev, cursor) := acc
          if note.is_rest then (out ++ [note], prev, cursor + note.beats)
          else
            let midi0 := midiOf note.pitch
            let basis := prev.getD midi0
            let end_pos := cursor + note.beats
            let isStable : Bool := match note.lyric_syllable_id with
              | some sid => decide (sid ∈ phrase_end_ids) &&
                  decide ((lastIdx.find? (fun q => q.1 = sid)).map (fun q => q.2) = some idx)
              | none => false
            let note1 :=
              if isStable then
                let end_measure := endingMeasureOf end_pos bpb
                let chord := chordByMeasure score.chord_progression end_measure
                let tones := match chord with
                  | some c => c.pitch_classes.map (fun pc => pc % 12)
                  | none => scale_set
                let stable_tones := match chord with
                  | some c => if c.degree = 1 then tonic_tones else tones
                  | none => tones
                let m1 := nearest_pitch_class_with_leap midi0 basis stable_tones .soprano
                let m2 := constrain_melodic_candidate m1 basis .soprano scale_set
                let m3 := nearest_pitch_class_with_leap m2 basis stable_tones .soprano
                { note with pitch := midi_to_pitch m3 }
              else note
            (out ++ [note1], some (midiOf note1.pitch), end_pos))
        ([], none, 0)
      { score with measures := replaceVoiceNotes score.measures .soprano folded.1 }

/-- `_repair_phrase_end_barlines` (returns the repaired score and the
`repairs applied` flag). -/
def repair_phrase_end_barlines (score : CanonicalScore) : CanonicalScore × Bool :=
  if ¬ score.meta.stage = ("melody") then (score, false)
  else
    let beat_cap := beats_per_measure score.meta.time_signature
    let phrase_end_ids := (score.sections.map (fun s =>
      (s.syllables.filter (fun sy => sy.phrase_end_after ∧ sy.must_end_at_barline)).map (fun sy => sy.id))).flatten
    if phrase_end_ids = [] then (score, false)
    else
      let soprano_notes := flatten_voice score .soprano
      let lastIdx := lastIndexBySyllable soprano_notes
      let folded := soprano_notes.enum.foldl
        (fun (acc : List ScoreNote × ℚ × ℕ) p =>
          let idx := p.1
          let note := p.2
          let (out, cursor, repairs) := acc
          let end_pos := cursor + note.beats
          let is_phrase_end : Bool := (! note.is_rest) && (match note.lyric_syllable_id with
            | some sid => decide (sid ∈ phrase_end_ids) &&
                decide ((lastIdx.find? (fun q => q.1 = sid)).map (fun q => q.2) = some idx)
            | none => false)
          if is_phrase_end then
            let end_mod := qmod end_pos beat_cap
            if |end_mod| > eps6 then
              let extension := beat_cap - end_mod
              (out ++ [{ note with beats := note.beats + extension }], end_pos + extension, repairs + 1)
            else (out ++ [note], end_pos, repairs)
          else (out ++ [note], end_pos, repairs))
        ([], 0, 0)
      if folded.2.2 = 0 then (score, false)
      else
        let new_measures := pack_measures folded.1 [] [] [] score.meta.time_signature
        let new_chords := repair_harmony_progression score.chord_progression new_measures.length
          score.meta.key score.meta.primary_mode
        ({ score with measures := new_measures, chord_progression := new_chords }, true)

/-- `_auto_repair_melody_score`. -/
def auto_repair_melody_score (score : CanonicalScore) (primary_mode : Option String) : CanonicalScore :=
  let s1 := repair_missing_chords score primary_mode
  let s2 := repair_key_mode_mismatch s1 primary_mode
  let s3 := repair_soprano_strong_beats s2 primary_mode
  let s4 := repair_phrase_end_stability s3 primary_mode
  let s5 := (repair_phrase_end_barlines s4).1
  let s6 := { s5 with chord_progression := sortChordsByMeasure s5.chord_progression }
  normalize_score_for_rendering s6

/-! ### VerseFormPlanner and the verse music-unit form -/

/-- Lexicographic descending comparator used by
`allocate_phrase_bar_targets` (`sorted(…, reverse=True)`). -/
def remainderKeyLe (a b : ℚ × ℤ × ℤ) : Bool :=
  decide (b.1 < a.1 ∨ (b.1 = a.1 ∧ (b.2.1 < a.2.1 ∨ (b.2.1 = a.2.1 ∧ b.2.2 ≤ a.2.2))))

/-- `VerseFormPlanner.allocate_phrase_bar_targets`. -/
def allocate_phrase_bar_targets (bars_per_verse_target : Option ℕ)
    (phrase_end_syllable_indices : List ℕ) : Except String (List ℕ) :=
  if phrase_end_syllable_indices = [] then Except.ok []
  else
    let phrase_count := phrase_end_syllable_indices.length
    let bars_target := match bars_per_verse_target with
      | some b => b
      | none => max 1 phrase_count
    if bars_target < phrase_count then
      Except.error (("Bars per Verse (") ++ fmtN bars_target ++
        (") is too short for this verse. It needs at least ") ++ fmtN phrase_count ++
        (" bars so each phrase can end at a barline."))
    else
      let phrase_lengths := (phrase_end_syllable_indices.foldl
        (fun (acc : List ℤ × ℤ) e =>
          (acc.1 ++ [max 1 ((e : ℤ) - acc.2 + 1)], (e : ℤ) + 1)) ([], 0)).1
      let remaining : ℚ := ((bars_target - phrase_count : ℕ) : ℚ)
      let total_len : ℚ := max 1 ((phrase_lengths.sum : ℤ) : ℚ)
      let weighted := phrase_lengths.map (fun len => remaining * ((len : ℚ)) / total_len)
      let per_phrase0 := weighted.map (fun w => 1 + ⌊w⌋)
      let assigned := per_phrase0.sum
      let per_phrase :=
        if assigned < (bars_target : ℤ) then
          let keyed := (List.range phrase_count).map (fun (idx : ℕ) =>
            let w := weighted.getD idx 0
            (idx, (w - (⌊w⌋ : ℤ), (-(phrase_lengths.getD idx 0), -(idx : ℤ)))))
          let ordered := keyed.mergeSort (fun a b => remainderKeyLe a.2 b.2)
          let bump := (ordered.take (bars_target - assigned.toNat)).map (fun p => p.1)
          (List.range phrase_count).map (fun idx =>
            per_phrase0.getD idx 0 + (if idx ∈ bump then 1 else 0))
        else per_phrase0
      Except.ok ((per_phrase.foldl (fun (acc : List ℕ × ℤ) bars =>
        (acc.1 ++ [(acc.2 + bars).toNat], acc.2 + bars)) ([], 0)).1)

/-- Reduce durations from the tail (`for duration_idx in range(len-1, -1, -1)`),
never below the half-beat floor. -/
def reduceDurList (durs : List ℚ) (remaining : ℚ) : List ℚ × ℚ :=
  let folded := durs.reverse.foldl (fun (acc : List ℚ × ℚ) d =>
    let (out, rem) := acc
    if rem ≤ eps9 then (out ++ [d], rem)
    else
      let reducible := max 0 (d - 0.5)
      if reducible ≤ eps9 then (out ++ [d], rem)
      else
        let reduction := min reducible rem
        (out ++ [d - reduction], rem - reduction)) ([], remaining)
  (folded.1.reverse, folded.2)

/-- Reduce a phrase of slots from the tail. -/
def reduceSlots (slots : List RhythmItem) (remaining : ℚ) : List RhythmItem × ℚ :=
  let folded := slots.reverse.foldl (fun (acc : List RhythmItem × ℚ) slot =>
    let (out, rem) := acc
    if rem ≤ eps9 then (out ++ [slot], rem)
    else
      let (durs, rem1) := reduceDurList slot.durations rem
      (out ++ [{ slot with durations := durs }], rem1)) ([], remaining)
  (folded.1.reverse, folded.2)

/-- Add `delta` to the last duration of the last slot. -/
def extendLastSlot (slots : List RhythmItem) (delta : ℚ) : List RhythmItem :=
  match slots.getLast? with
  | none => slots
  | some last =>
    match last.durations.getLast? with
    | none => slots
    | some d =>
      slots.dropLast ++ [{ last with durations := last.durations.dropLast ++ [d + delta] }]

/-- Split a duration into full measures (`while remaining > beat_cap + 1e-9`). -/
def splitCapChunks (beat_cap : ℚ) : ℕ → ℚ → List ℚ
  | 0, r => [r]
  | fuel + 1, r =>
    if r > beat_cap + eps9 then beat_cap :: splitCapChunks beat_cap fuel (r - beat_cap)
    else [r]

/-- The final loop of `enforce_phrase_bar_targets`: cut every duration into
measure-sized chunks, continuation chunks becoming ties. -/
def normalizeSlotDurations (beat_cap : ℚ) (slot : RhythmItem) : RhythmItem :=
  let pieces := slot.durations.enum.map (fun p =>
    let mode := slot.modes.getD p.1 ("single")
    let chunks := splitCapChunks beat_cap ((qfloordiv p.2 beat_cap).toNat + 1) p.2
    chunks.enum.map (fun cp => (cp.2, if cp.1 = 0 then mode else ("tie_continue"))))
  let flat := pieces.flatten
  { slot with durations := flat.map (fun x => x.1), modes := flat.map (fun x => x.2) }

/-- `VerseFormPlanner.enforce_phrase_bar_targets`. -/
def enforce_phrase_bar_targets (bars_per_verse_target : Option ℕ) (beat_cap : ℚ)
    (rhythm_plan : List RhythmItem)
    (phrase_end_syllable_indices : List ℕ) (phrase_bar_targets : List ℕ)
    (pickup_beats : ℚ) (syllable_count : ℕ) : Except String (List RhythmItem) :=
  if phrase_end_syllable_indices = [] then Except.ok rhythm_plan
  else
    let bars_target : ℕ := match phrase_bar_targets.getLast? with
      | some t => t
      | none => match bars_per_verse_target with
        | some b => if b = 0 then 1 else b
        | none => 1
    let available_beats : ℚ := (bars_target : ℚ) * beat_cap
    let min_beats_needed : ℚ := 0.5 * syllable_count
    if min_beats_needed - available_beats > eps9 then
      Except.error (("Bars per Verse (") ++ fmtN bars_target ++
        (") is too short for this verse. Try a longer verse length."))
    else
      let stepPhrase := fun (acc : Except String (List RhythmItem × ℕ × ℚ)) (pe : ℕ × ℕ) =>
        match acc with
        | Except.error e => Except.error e
        | Except.ok (adjusted, phrase_start, previous_target_beat) =>
          let phrase_idx := pe.1
          let phrase_end := pe.2
          if ¬ phrase_end < adjusted.length then Except.ok (adjusted, phrase_start, previous_target_beat)
          else
            let phrase := (adjusted.drop phrase_start).take (phrase_end + 1 - phrase_start)
            let target_end_beat : ℚ := ((phrase_bar_targets.getD phrase_idx 0 : ℕ) : ℚ) * beat_cap
            let desired_phrase_beats := target_end_beat - previous_target_beat
            let minimum_phrase_beats : ℚ := 0.5 * phrase.length
            if desired_phrase_beats + eps9 < minimum_phrase_beats then
              Except.error (("Bars per Verse (") ++ fmtN bars_target ++
                (") is too short to fit phrase ") ++ fmtN (phrase_idx + 1) ++
                (" with current constraints."))
            else
              let current_phrase_beats := (phrase.map (fun s => s.durations.sum)).sum
              let delta := desired_phrase_beats - current_phrase_beats
              let phraseResult : Except String (List RhythmItem) :=
                if delta > eps9 then Except.ok (extendLastSlot phrase delta)
                else if delta < -eps9 then
                  let (reduced, rem) := reduceSlots phrase (-delta)
                  if rem > eps9 then
                    Except.error (("Bars per Verse (") ++ fmtN bars_target ++
                      (") is too short to fit phrase ") ++ fmtN (phrase_idx + 1) ++
                      (" with current constraints."))
                  else Except.ok reduced
                else Except.ok phrase
              match phraseResult with
              | Except.error e => Except.error e
              | Except.ok phrase1 =>
                Except.ok (adjusted.take phrase_start ++ phrase1 ++ adjusted.drop (phrase_end + 1),
                  phrase_end + 1, target_end_beat)
      match phrase_end_syllable_indices.enum.foldl stepPhrase (Except.ok (rhythm_plan, 0, pickup_beats)) with
      | Except.error e => Except.error e
      | Except.ok (adjusted, _, _) => Except.ok (adjusted.map (normalizeSlotDurations beat_cap))

/-- `VerseFormPlanner.phrase_bar_targets_from_rhythm_plan`. -/
def phrase_bar_targets_from_rhythm_plan (beat_cap : ℚ) (pickup_beats : ℚ)
    (phrase_end_syllable_indices : List ℕ) (rhythm_plan : List RhythmItem) : List ℕ :=
  phrase_end_syllable_indices.filterMap (fun phrase_end_index =>
    if phrase_end_index < rhythm_plan.length then
      let running_beats := pickup_beats +
        ((rhythm_plan.take (phrase_end_index + 1)).map (fun item => item.durations.sum)).sum
      some (endingMeasureOf running_beats beat_cap).toNat
    else none)

/-! ### Verse template projection and expansion -/

/-- The dict slots of the canonical verse rhythm template
(`durations`, `modes`, `stressed`). -/
structure TemplateSlot where
  durations : List ℚ
  modes : List String
  stressed : Bool
deriving DecidableEq, Repr, Inhabited

/-- `PlannedVerseForm.to_music_unit_form` composed with `VerseFormPlanner.plan`. -/
def planVerseForm (music_unit_id : String) (pickup_beats : ℚ) (bars_per_verse : ℕ)
    (phrase_end_syllable_indices : List ℕ) (phrase_bar_targets : List ℕ)
    (rhythm_template : List TemplateSlot) : VerseMusicUnitForm :=
  { music_unit_id := music_unit_id
    pickup_beats := pickup_beats
    bars_per_verse := bars_per_verse
    total_measure_count := bars_per_verse
    phrase_end_syllable_indices := phrase_end_syllable_indices
    phrase_bar_targets := phrase_bar_targets
    rhythmic_skeleton := rhythm_template.map (fun item => item.durations) }

/-- `_project_verse_rhythm_to_template`. -/
def project_verse_rhythm_to_template (section_id : String) (syllables : List ScoreSyllable)
    (template_plan : List TemplateSlot) : List RhythmItem :=
  let shortage_extension := (¬ syllables = []) ∧ syllables.length < template_plan.length
  let extension_anchor : Option ℕ := if shortage_extension then some (syllables.length - 1) else none
  template_plan.enum.map (fun p =>
    let idx := p.1
    let template_item := p.2
    let (syl, lyric_text, lyric_mode_override) :=
      if h : idx < syllables.length then
        (some (syllables.getD idx default), some (syllables.getD idx default).text,
          (none : Option (List String)))
      else match extension_anchor with
        | some _ => (none, none, some (template_item.modes.map (fun _ => ("melisma_continue"))))
        | none => (none, none, none)
    let modes0 := (lyric_mode_override).getD template_item.modes
    let modes :=
      if shortage_extension ∧ extension_anchor = some idx ∧ ¬ modes0 = [] then
        match modes0.getLast? with
        | some last =>
          if ¬ (last = ("melisma_continue") ∨ last = ("tie_continue") ∨
              last = ("melisma_start") ∨ last = ("tie_start")) then
            modes0.dropLast ++ [("melisma_start")]
          else modes0
        | none => modes0
      else modes0
    ({ syllable_id := match syl with
        | some s => s.id
        | none => section_id ++ ("-template-slot-") ++ fmtN idx
       syllable_text := lyric_text
       section_id := section_id
       lyric_index := idx
       durations := template_item.durations
       modes := modes
       stressed := match syl with
        | some s => s.stressed
        | none => template_item.stressed } : RhythmItem))

/-- `_split_duration_for_slot_expansion`. -/
def split_duration_for_slot_expansion (duration : ℚ) : Option (List ℚ) :=
  if |duration - 2.0| < eps9 then some [1.0, 1.0]
  else if |duration - 1.5| < eps9 then some [1.0, 0.5]
  else if |duration - 1.0| < eps9 then some [0.5, 0.5]
  else none

/-- The best splittable duration inside a slot (`duration >
best_duration_value` keeps the first maximum). -/
def bestSplitInSlot (slot : TemplateSlot) : Option (ℕ × List ℚ × ℚ) :=
  slot.durations.enum.foldl (fun (acc : Option (ℕ × List ℚ × ℚ)) p =>
    match split_duration_for_slot_expansion p.2 with
    | none => acc
    | some split =>
      if (split.foldl min (0.5 : ℚ)) < 0.5 - eps9 then acc
      else
        let better := match acc with
          | none => true
          | some prev => p.2 > prev.2.2
        if better then some (p.1, split, p.2) else acc) none

/-- One candidate of the `_expand_verse_template_slots` loop:
`(priority, slot_idx, duration_idx, split)`. -/
structure ExpandCandidate where
  prio1 : ℚ
  prio2 : ℕ
  prio3 : ℕ
  slot_idx : ℕ
  duration_idx : ℕ
  split : List ℚ
deriving Repr, Inhabited

/-- Candidate ordering (`candidates.sort()` then `candidates[0]`; the
slot index is unique, so the comparison never reaches the later tuple
components). -/
def expandCandLe (a b : ExpandCandidate) : Bool :=
  decide (a.prio1 < b.prio1 ∨ (a.prio1 = b.prio1 ∧ (a.prio2 < b.prio2 ∨ (a.prio2 = b.prio2 ∧
    (a.prio3 < b.prio3 ∨ (a.prio3 = b.prio3 ∧ a.slot_idx ≤ b.slot_idx))))))

/-- One pass of the `while len(expanded) < target_slot_count` loop. -/
def expandSlotsOnce (beat_cap : ℚ) (time_signature : String)
    (expanded : List TemplateSlot) (phrase_end_indices : List ℕ) :
    Option (List TemplateSlot × List ℕ) :=
  let folded := expanded.enum.foldl (fun (acc : List ExpandCandidate × ℚ) p =>
    let slot_idx := p.1
    let item := p.2
    let slot_start := acc.2
    let weak_beat_priority : ℕ :=
      if ¬ is_strong_beat (qmod slot_start beat_cap) time_signature then 0 else 1
    let cadence_priority : ℕ := if slot_idx ∈ phrase_end_indices then 1 else 0
    let cands := match bestSplitInSlot item with
      | some (duration_idx, split, value) =>
        acc.1 ++ [{ prio1 := -value, prio2 := weak_beat_priority, prio3 := cadence_priority,
                    slot_idx := slot_idx, duration_idx := duration_idx, split := split }]
      | none => acc.1
    (cands, acc.2 + item.durations.sum)) ([], 0)
  match (folded.1.mergeSort expandCandLe).head? with
  | none => none
  | some best =>
    let slot := expanded.getD best.slot_idx default
    let original_mode := slot.modes.getD best.duration_idx ("single")
    let first_slot : TemplateSlot :=
      { durations := [best.split.getD 0 0]
        modes := [if original_mode = ("melisma_continue") then ("single") else original_mode]
        stressed := slot.stressed }
    let second_slot : TemplateSlot :=
      { durations := [best.split.getD 1 0], modes := [("single")], stressed := false }
    let expanded1 := expanded.take best.slot_idx ++ [first_slot, second_slot] ++
      expanded.drop (best.slot_idx + 1)
    let adjusted := phrase_end_indices.map (fun index =>
      if index ≥ best.slot_idx then index + 1 else index)
    some (expanded1, adjusted)

/-- `_expand_verse_template_slots` (fuel mirrors the growth of the slot
list toward the target count). -/
def expandVerseTemplateSlotsFuel (beat_cap : ℚ) (time_signature : String) :
    ℕ → List TemplateSlot → List ℕ → ℕ → (List TemplateSlot × List ℕ × ℕ)
  | 0, expanded, idxs, splits => (expanded, idxs, splits)
  | fuel + 1, expanded, idxs, splits =>
    match expandSlotsOnce beat_cap time_signature expanded idxs with
    | none => (expanded, idxs, splits)
    | some (expanded1, idxs1) =>
      expandVerseTemplateSlotsFuel beat_cap time_signature fuel expanded1 idxs1 (splits + 1)

/-- `_expand_verse_template_slots`. -/
def expand_verse_template_slots (template_plan : List TemplateSlot) (target_slot_count : ℕ)
    (beat_cap : ℚ) (time_signature : String) (phrase_end_indices : List ℕ) :
    List TemplateSlot × List ℕ × ℕ :=
  expandVerseTemplateSlotsFuel beat_cap time_signature
    (target_slot_count - template_plan.length) template_plan phrase_end_indices 0

/-- Python `" ".join(s.text for s in overflow if s.text).strip()`. -/
def joinTexts (texts : List String) : String :=
  strStrip (String.intercalate (" ") (texts.filter (fun t => ¬ t = (""))))

/-- `_align_verse_syllables_to_template`. -/
def align_verse_syllables_to_template (section_id : String) (syllables : List ScoreSyllable)
    (template_count : ℕ) : Except String (List ScoreSyllable) :=
  if template_count = 0 then Except.ok []
  else if syllables.length = template_count then Except.ok syllables
  else if syllables.length > template_count then
    if syllables.length ≤ template_count + 2 then
      let aligned := syllables.take template_count
      let overflow := syllables.drop (template_count - 1)
      match aligned.getLast?, overflow.getLast? with
      | some last, some overLast =>
        let joined := joinTexts (overflow.map (fun s => s.text))
        let newText := if joined = ("") then last.text else joined
        Except.ok (aligned.dropLast ++
          [{ last with text := newText
                       phrase_end_after := overLast.phrase_end_after
                       breath_after_phrase := overLast.breath_after_phrase
                       must_end_at_barline := overLast.must_end_at_barline }])
      | _, _ => Except.ok aligned
    else
      Except.error (("Verse form overflow for ") ++ section_id ++ (": ") ++
        fmtN syllables.length ++ (" syllables cannot fit canonical ") ++
        fmtN template_count ++ ("-slot skeleton"))
  else
    let aligned0 := match syllables.getLast? with
      | some last => syllables.dropLast ++
          [{ last with phrase_end_after := false, breath_after_phrase := false }]
      | none => syllables
    Except.ok (aligned0 ++ (List.range template_count).filterMap (fun idx =>
      if idx < aligned0.length then none
      else some ({ id := section_id ++ ("-fill-") ++ fmtN idx
                   text := ("")
                   section_id := section_id
                   word_index := idx
                   syllable_index_in_word := 0
                   word_text := ("")
                   hyphenated := false
                   stressed := false
                   phrase_end_after := idx = template_count - 1
                   must_end_at_barline := false
                   breath_after_phrase := false } : ScoreSyllable)))

/-- `_count_full_measures_for_section`. -/
def count_full_measures_for_section (score : CanonicalScore) (section_id : String)
    (beat_cap : ℚ) : ℤ :=
  let total_beats := ((score.measures.map (fun m =>
    ((m.soprano.filter (fun n => n.section_id = section_id ∧ ¬ n.is_rest)).map
      (fun n => n.beats)).sum)).sum)
  qfloordiv total_beats beat_cap

/-! ### _compose_melody_once -/

/-- The seed string `random.seed` receives for an attempt
(`base_seed if attempt_number == 0 else f"{base_seed}-attempt-{attempt_number}"`). -/
def attemptSeed (base_seed : String) (attempt_number : ℕ) : String :=
  if attempt_number = 0 then base_seed
  else base_seed ++ ("-attempt-") ++ fmtN attempt_number

/-- The per-section rhythm seed string. -/
def rhythmSeed (key ts : String) (tempo : ℤ) (style label section_id preset : String)
    (attempt_number : ℕ) : String :=
  let base := key ++ ("|") ++ ts ++ ("|") ++ fmtI tempo ++ ("|") ++ style ++ ("|") ++ label ++
    ("|") ++ section_archetype label ++ ("|") ++ section_id ++ ("|") ++ preset
  if attempt_number > 0 then base ++ ("|attempt-") ++ fmtN attempt_number else base

/-- State of the per-section planning loop of `_compose_melody_once`. -/
structure ComposeSecState where
  sections : List ScoreSection
  section_plans : List SectionPlan
  verse_rhythm_template : Option (List TemplateSlot)
  verse_template_anacrusis_beats : Option ℚ
  verse_template_phrase_end_indices : List ℕ
  verse_phrase_bar_targets : List ℕ
  verse_music_unit_form : Option VerseMusicUnitForm
deriving Repr

/-- The verse-form overflow message shared by both expansion sites. -/
def verseOverflowMsg (section_id : String) (syllable_count template_count : ℕ) : String :=
  ("Verse form overflow for ") ++ section_id ++ (": ") ++ fmtN syllable_count ++
  (" syllables cannot fit canonical ") ++ fmtN template_count ++ ("-slot skeleton")

/-- One section of the planning loop of `_compose_melody_once`. -/
def composeSection (req : CompositionRequest) (key ts : String) (tempo : ℤ) (beat_cap : ℚ)
    (attempt_number : ℕ) (max_verse_syllable_count : ℕ)
    (arrangement_music_units : List ArrangementMusicUnit)
    (section_defs : List (String × LyricSection))
    (st : ComposeSecState) (p : ℕ × ArrangedInstance) : Except String ComposeSecState :=
  let idx := p.1 + 1
  let inst := p.2
  let sec := ((section_defs.reverse.find? (fun q => q.1 = inst.section_id)).map (fun q => q.2)).getD default
  let section_id := ("sec-") ++ fmtN idx
  let syllables0 := tokenize_phrase_blocks section_id inst.phrase_blocks
  let peib := phrase_end_indices_from_phrase_blocks syllables0 inst.phrase_blocks
  let syllables1 := if inst.is_verse ∧ ¬ peib = [] then
      apply_phrase_end_indices syllables0 peib inst.phrase_blocks
    else syllables0
  let rhythm_config := config_for_preset req.preferences.lyric_rhythm_preset inst.label
  let rhythm_seed := rhythmSeed key ts tempo req.preferences.style inst.label section_id
    req.preferences.lyric_rhythm_preset attempt_number
  let anacrusis0 := resolve_anacrusis_beats inst.anacrusis_mode inst.anacrusis_beats
    syllables1.length beat_cap
  let anacrusis1 := if inst.is_verse ∧ (req.preferences.bars_per_verse).isSome ∧
      inst.anacrusis_mode = ("auto") then 0 else anacrusis0
  let rhythm_plan0 := plan_syllable_rhythm syllables1 beat_cap rhythm_config rhythm_seed anacrusis1
  let afterVerse : Except String (List ScoreSyllable × List RhythmItem × ℚ × ComposeSecState) :=
    if hv : inst.is_verse then
      match st.verse_rhythm_template with
      | none =>
        let vta := anacrusis1
        let vtpei0 := peib
        let planned : Except String (List RhythmItem × List ℕ) :=
          match req.preferences.bars_per_verse with
          | some _ =>
            match allocate_phrase_bar_targets req.preferences.bars_per_verse vtpei0 with
            | Except.error e => Except.error e
            | Except.ok targets =>
              match enforce_phrase_bar_targets req.preferences.bars_per_verse beat_cap rhythm_plan0
                  vtpei0 targets anacrusis1 syllables1.length with
              | Except.error e => Except.error e
              | Except.ok plan1 => Except.ok (plan1, targets)
          | none =>
            Except.ok (rhythm_plan0,
              phrase_bar_targets_from_rhythm_plan beat_cap anacrusis1 vtpei0 rhythm_plan0)
        match planned with
        | Except.error e => Except.error e
        | Except.ok (plan1, targets) =>
          let template0 := plan1.map (fun item =>
            ({ durations := item.durations, modes := item.modes, stressed := item.stressed } : TemplateSlot))
          let expansion : Except String (List TemplateSlot × List ℕ) :=
            if max_verse_syllable_count > template0.length then
              let (expanded, expIdxs, _) := expand_verse_template_slots template0
                max_verse_syllable_count beat_cap ts vtpei0
              if expanded.length < max_verse_syllable_count then
                Except.error (verseOverflowMsg section_id max_verse_syllable_count template0.length)
              else Except.ok (expanded, expIdxs)
            else Except.ok (template0, vtpei0)
          match expansion with
          | Except.error e => Except.error e
          | Except.ok (template1, vtpei1) =>
            match align_verse_syllables_to_template section_id syllables1 template1.length with
            | Except.error e => Except.error e
            | Except.ok aligned =>
              let syllables2 := apply_phrase_end_indices aligned vtpei1 inst.phrase_blocks
              let plan2 := project_verse_rhythm_to_template section_id syllables2 template1
              Except.ok (syllables2, plan2, anacrusis1,
                { st with verse_rhythm_template := some template1
                          verse_template_anacrusis_beats := some vta
                          verse_template_phrase_end_indices := vtpei1
                          verse_phrase_bar_targets := targets })
      | some template0 =>
        let expansion : Except String (List TemplateSlot × List ℕ) :=
          if syllables1.length > template0.length then
            let (expanded, expIdxs, _) := expand_verse_template_slots template0
              syllables1.length beat_cap ts st.verse_template_phrase_end_indices
            if expanded.length < syllables1.length then
              Except.error (verseOverflowMsg section_id syllables1.length template0.length)
            else Except.ok (expanded, expIdxs)
          else Except.ok (template0, st.verse_template_phrase_end_indices)
        match expansion with
        | Except.error e => Except.error e
        | Except.ok (template1, vtpei1) =>
          match align_verse_syllables_to_template section_id syllables1 template1.length with
          | Except.error e => Except.error e
          | Except.ok aligned =>
            let syllables2 := apply_phrase_end_indices aligned vtpei1 inst.phrase_blocks
            let anacrusis2 := (st.verse_template_anacrusis_beats).getD 0
            let plan2 := project_verse_rhythm_to_template section_id syllables2 template1
            Except.ok (syllables2, plan2, anacrusis2,
              { st with verse_rhythm_template := some template1
                        verse_template_phrase_end_indices := vtpei1 })
    else Except.ok (syllables1, rhythm_plan0, anacrusis1, st)
  match afterVerse with
  | Except.error e => Except.error e
  | Except.ok (syllables3, plan3, anacrusis3, st1) =>
    let st2 := match st1.verse_rhythm_template with
      | some template =>
        if inst.is_verse then
          { st1 with verse_music_unit_form := some (planVerseForm inst.music_unit_id
              ((st1.verse_template_anacrusis_beats).getD 0)
              (max 1 (match req.preferences.bars_per_verse with
                | some b => if b = 0 then (st1.verse_phrase_bar_targets.getLastD 1) else b
                | none => st1.verse_phrase_bar_targets.getLastD 1))
              st1.verse_template_phrase_end_indices
              st1.verse_phrase_bar_targets
              template) }
        else st1
      | none => st1
    let new_section : ScoreSection :=
      { id := section_id
        label := inst.label
        is_verse := inst.is_verse
        verse_number := match arrangement_music_units.get? (idx - 1) with
          | some amu => amu.verse_index
          | none => none
        anacrusis_beats := anacrusis3
        lyrics := sec.text
        syllables := syllables3 }
    Except.ok { st2 with
      sections := st2.sections ++ [new_section]
      section_plans := st2.section_plans ++
        [({ section_id := section_id
            label := inst.label
            is_verse := inst.is_verse
            music_unit_id := inst.music_unit_id
            anacrusis_beats := anacrusis3
            rhythm_plan := plan3 } : SectionPlan)] }

/-! ### The melodic walk -/

/-- State threaded through the melodic walk of `_compose_melody_once`. -/
structure WalkState where
  soprano_notes : List ScoreNote
  section_notes : List ScoreNote
  chords : List ScoreChord
  cursor : ℚ
  g : RngState
  prev : ℤ
  repeated : ℕ
  phrase_idx : ℕ
  phrase_progress : ℕ
  verse_note_cursor : ℕ
deriving Repr

/-- One note of the melodic walk (the body of the inner
`for ni, duration in enumerate(item["durations"])` loop). -/
def walkNote (ts : String) (beat_cap : ℚ) (scale_set : List ℤ) (tonic_stable_tones : List ℤ)
    (phrase_end_ids : List String) (phrase_totals : List ℕ) (is_verse : Bool)
    (verse_template_notes : Option (List ScoreNote)) (item : RhythmItem) (step_base : ℤ)
    (st : WalkState) (nd : ℕ × ℚ) : WalkState :=
  let ni := nd.1
  let duration := nd.2
  let phrase_total := phrase_totals.getD (min st.phrase_idx (phrase_totals.length - 1)) 1
  let phrase_halfway := max 1 ((phrase_total + 1) / 2)
  let contour_bias : ℤ := if st.phrase_progress < phrase_halfway then 1 else -1
  let measure_number := qfloordiv st.cursor beat_cap + 1
  let measure_beat := qmod st.cursor beat_cap
  let chord := chordByMeasure st.chords measure_number
  let chord_tones := match chord with
    | some c => c.pitch_classes
    | none => scale_set
  let stressed_bonus : ℤ := if item.stressed then 1 else 0
  let step := step_base + (if item.stressed ∧ ni = 0 ∧ step_base < 2 then 1 else 0) -
    stressed_bonus + contour_bias
  let mode := item.modes.getD ni ("single")
  let cand0 := constrain_melodic_candidate (st.prev + step) st.prev .soprano scale_set
  let (cand1, g1) :=
    if mode = ("tie_continue") then (st.prev, st.g)
    else if mode = ("melisma_continue") then
      let (drift, g2) := rngChoice st.g [(-1 : ℤ), 0, 1]
      (constrain_melodic_candidate (st.prev + drift) st.prev .soprano scale_set, g2)
    else if is_strong_beat measure_beat ts then
      let m1 := nearest_pitch_class_with_leap cand0 st.prev chord_tones .soprano
      let m2 := constrain_melodic_candidate m1 st.prev .soprano scale_set
      (nearest_pitch_class_with_leap m2 st.prev chord_tones .soprano, st.g)
    else (cand0, st.g)
  let is_phrase_end_note := item.syllable_id ∈ phrase_end_ids ∧ ni = item.durations.length - 1
  let cand2 :=
    if ¬ mode = ("tie_continue") then
      apply_repetition_guardrail cand1 st.prev st.repeated scale_set contour_bias
    else cand1
  let cand3 :=
    if is_phrase_end_note then
      let cadence_measure := endingMeasureOf (st.cursor + duration) beat_cap
      let cadence_chord := match chordByMeasure st.chords cadence_measure with
        | some c => some c
        | none => chord
      let cadence_tones := match cadence_chord with
        | some c => c.pitch_classes
        | none => chord_tones
      let stable_tones := match cadence_chord with
        | some c => if c.degree = 1 then tonic_stable_tones else cadence_tones
        | none => cadence_tones
      let m1 := nearest_pitch_class_with_leap cand2 st.prev stable_tones .soprano
      let m2 := constrain_melodic_candidate m1 st.prev .soprano scale_set
      nearest_pitch_class_with_leap m2 st.prev stable_tones .soprano
    else cand2
  let lyric_text := if ¬ isContinuationMode mode then item.syllable_text else none
  let note0 : ScoreNote :=
    { pitch := midi_to_pitch cand3
      beats := duration
      is_rest := false
      lyric := lyric_text
      lyric_syllable_id := some item.syllable_id
      lyric_mode := mode
      section_id := item.section_id
      lyric_index := some item.lyric_index }
  let note := match verse_template_notes with
    | some tn =>
      if is_verse ∧ st.verse_note_cursor < tn.length then
        let template_note := tn.getD st.verse_note_cursor default
        { note0 with pitch := template_note.pitch, is_rest := template_note.is_rest }
      else note0
    | none => note0
  let note_midi := if note.is_rest then st.prev else midiOf note.pitch
  { st with
    soprano_notes := st.soprano_notes ++ [note]
    section_notes := st.section_notes ++ [note]
    g := g1
    prev := note_midi
    repeated := if note_midi = st.prev then st.repeated + 1 else 1
    phrase_idx := if is_phrase_end_note then st.phrase_idx + 1 else st.phrase_idx
    phrase_progress := if is_phrase_end_note then 0 else st.phrase_progress + 1
    cursor := st.cursor + duration
    verse_note_cursor := st.verse_note_cursor + 1 }

/-- State of the outer per-section melodic loop. -/
structure MelodyState where
  soprano_notes : List ScoreNote
  chords : List ScoreChord
  cursor : ℚ
  g : RngState
  verse_template_notes : Option (List ScoreNote)
deriving Repr

/-- One section of the melodic walk. -/
def walkSection (ts : String) (beat_cap : ℚ) (scale : Scale) (scale_set : List ℤ)
    (tonic_stable_tones : List ℤ) (phrase_end_ids_by_section : List (String × List String))
    (st : MelodyState) (plan : SectionPlan) : MelodyState :=
  let center : ℤ := if plan.label = ("verse") ∨ plan.label = ("bridge") then 64 else 67
  let (repeated0, previous_pitch) := initial_identical_pitch_run st.soprano_notes
  let prev := previous_pitch.getD center
  let repeated := if previous_pitch = none then 0 else repeated0
  let phrase_end_ids := ((phrase_end_ids_by_section.find? (fun p => p.1 = plan.section_id)).map
    (fun p => p.2)).getD []
  let phrase_totals := phrase_note_totals plan.rhythm_plan phrase_end_ids
  let pickupApplied : MelodyState × List ScoreNote × ℕ :=
    if plan.anacrusis_beats > 0 then
      let pickup_measure := qfloordiv st.cursor beat_cap + 1
      let cycle := cluster_progression_cycle plan.music_unit_id
      let chords1 :=
        if ¬ cycle = [] then
          let pickup_degree := if cycle.getD 0 0 = 1 then 5 else cycle.getD 0 0
          match chordByMeasure st.chords pickup_measure with
          | some c => if c.section_id = plan.section_id then
              setChordDegree scale st.chords pickup_measure pickup_degree
            else st.chords
          | none => st.chords
        else st.chords
      let pickup0 := restNote plan.anacrusis_beats plan.section_id
      let pickup := match st.verse_template_notes with
        | some tn =>
          if plan.is_verse ∧ 0 < tn.length then
            let template_note := tn.getD 0 default
            { pickup0 with pitch := template_note.pitch, is_rest := template_note.is_rest }
          else pickup0
        | none => pickup0
      ({ st with chords := chords1
                 soprano_notes := st.soprano_notes ++ [pickup]
                 cursor := st.cursor + plan.anacrusis_beats }, [pickup], 1)
    else (st, [], 0)
  let (st1, section_notes0, vnc0) := pickupApplied
  let walkSt0 : WalkState :=
    { soprano_notes := st1.soprano_notes
      section_notes := section_notes0
      chords := st1.chords
      cursor := st1.cursor
      g := st1.g
      prev := prev
      repeated := repeated
      phrase_idx := 0
      phrase_progress := 0
      verse_note_cursor := vnc0 }
  let walkSt := plan.rhythm_plan.foldl (fun (w : WalkState) item =>
    let (step_base, g1) := rngChoice w.g [(-2 : ℤ), -1, 0, 1, 2, 3]
    item.durations.enum.foldl
      (walkNote ts beat_cap scale_set tonic_stable_tones phrase_end_ids phrase_totals
        plan.is_verse st1.verse_template_notes item step_base)
      { w with g := g1 }) walkSt0
  let verse_template :=
    if plan.is_verse ∧ st1.verse_template_notes = none ∧ ¬ walkSt.section_notes = [] then
      some walkSt.section_notes
    else st1.verse_template_notes
  { soprano_notes := walkSt.soprano_notes
    chords := walkSt.chords
    cursor := walkSt.cursor
    g := walkSt.g
    verse_template_notes := verse_template }

/-- The two error kinds `_compose_melody_once` can raise:
`VerseFormConstraintError` (a `ValueError` subclass caught by the retry
loop) and the plain `ValueError` of `_expand_arrangement`. -/
inductive ComposeError where
  | verse_form (msg : String)
  | value_error (msg : String)
deriving DecidableEq, Repr

/-- `_compose_melody_once`.  The first argument models the module-level
PRNG state at entry; the function reseeds it from the request-derived seed
string before any draw, so the argument is never read. -/
def compose_melody_once (g0 : RngState) (req : CompositionRequest) (attempt_number : ℕ) :
    Except ComposeError CanonicalScore :=
  let defaults := choose_defaults req.preferences.style req.preferences.mood
  let key := match req.preferences.key with
    | some k => if k = ("") then defaults.1 else k
    | none => defaults.1
  let ts := match req.preferences.time_signature with
    | some t => if t = ("") then defaults.2.1 else t
    | none => defaults.2.1
  let tempo := match req.preferences.tempo_bpm with
    | some t => if t = 0 then defaults.2.2 else t
    | none => defaults.2.2
  let scale := parse_key key req.preferences.primary_mode
  let scale_set := scale.semitones
  let base_seed := key ++ ("-") ++ ts ++ ("-") ++ fmtI tempo ++ ("-") ++ req.preferences.style
  let g := rngSeed (attemptSeed base_seed attempt_number)
  let beat_cap := beats_per_measure ts
  let section_defs := req.sections.enum.map (fun p => (sectionKey p.2 (p.1 + 1), p.2))
  match expand_arrangement req with
  | Except.error e => Except.error (ComposeError.value_error e)
  | Except.ok arranged_instances =>
    let arrangement_music_units := build_arrangement_music_units arranged_instances
    let verse_syllable_counts := arranged_instances.enum.filterMap (fun p =>
      if p.2.is_verse then
        some (tokenize_phrase_blocks (("verse-precompute-") ++ fmtN (p.1 + 1)) p.2.phrase_blocks).length
      else none)
    let max_verse_syllable_count := verse_syllable_counts.foldl max 0
    let planned := arranged_instances.enum.foldl
      (fun (acc : Except String ComposeSecState) p =>
        match acc with
        | Except.error e => Except.error e
        | Except.ok st => composeSection req key ts tempo beat_cap attempt_number
            max_verse_syllable_count arrangement_music_units section_defs st p)
      (Except.ok ⟨[], [], none, none, [], [], none⟩)
    match planned with
    | Except.error e => Except.error (ComposeError.verse_form e)
    | Except.ok secState =>
      let sections := secState.sections
      let section_plans := secState.section_plans
      let progFold := section_plans.foldl (fun (acc : List ScoreChord × ℚ) plan =>
        let total_beats := plan.anacrusis_beats +
          ((plan.rhythm_plan.map (fun item => item.durations.sum)).sum)
        let beat_cursor := acc.2
        let start_measure := qfloordiv beat_cursor beat_cap + 1
        let end_measure := qfloordiv (max (beat_cursor + total_beats - eps9) beat_cursor) beat_cap + 1
        let section_measures := (max 1 (end_measure - start_measure + 1)).toNat
        let cluster_cycle := cluster_progression_cycle plan.music_unit_id
        (acc.1 ++ build_section_progression scale plan.section_id start_measure section_measures
          cluster_cycle, beat_cursor + total_beats)) ([], 0)
      let beat_cursor := progFold.2
      let total_measures := (max 1 (qfloordiv (max (beat_cursor - eps9) 0) beat_cap + 1)).toNat
      let chord_progression0 := repair_harmony_progression progFold.1 total_measures key
        req.preferences.primary_mode
      let chord_progression1 := apply_phrase_cadential_bias chord_progression0 sections
        section_plans beat_cap key req.preferences.primary_mode
      let phrase_end_ids_by_section := sections.map (fun s =>
        (s.id, (s.syllables.filter (fun sy => sy.phrase_end_after)).map (fun sy => sy.id)))
      let tonic_stable_tones := triad_pitch_classes scale 1
      let melody := section_plans.foldl
        (walkSection ts beat_cap scale scale_set tonic_stable_tones phrase_end_ids_by_section)
        ({ soprano_notes := [], chords := chord_progression1, cursor := 0, g := g,
           verse_template_notes := none } : MelodyState)
      let measures := pack_measures melody.soprano_notes [] [] [] ts
      let score0 : CanonicalScore :=
        { meta := { key := key
                    primary_mode := req.preferences.primary_mode
                    time_signature := ts
                    tempo_bpm := tempo
                    style := req.preferences.style
                    stage := ("melody")
                    rationale := ("Deterministic lyric-to-rhythm mapping with section-wise diatonic chord progression as harmonic authority.")
                    arrangement_music_units := arrangement_music_units
                    verse_music_unit_form := secState.verse_music_unit_form }
          sections := sections
          measures := measures
          chord_progression := melody.chords }
      let score1 := (repair_phrase_end_barlines score0).1
      match score1.meta.verse_music_unit_form with
      | none => Except.ok score1
      | some form =>
        let verse_sections := (score1.sections.filter (fun s => s.is_verse)).map (fun s => s.id)
        let expected_count : ℤ := (form.total_measure_count : ℤ)
        let bad := (verse_sections.drop 1).find? (fun sid =>
          ¬ count_full_measures_for_section score1 sid beat_cap = expected_count)
        match bad with
        | some sid =>
          let actual := count_full_measures_for_section score1 sid beat_cap
          Except.error (ComposeError.verse_form (("Verse ") ++ sid ++
            (" could not fit canonical verse form (") ++ fmtI actual ++
            (" measures vs ") ++ fmtI expected_count ++ (")")))
        | none => Except.ok score1

/-! ### generate_melody_score -/

/-- The generic user-facing message of the exhausted retry loop (byte-exact
from the source). -/
def genericFailureMsg : String :=
  ("Couldnt generate a valid melody with the current constraintstry relaxing key/mode/time/tempo or click Regenerate")

/-- The user-facing message raised when a verse cannot be projected onto
the canonical verse form (byte-exact from the source). -/
def verseFormFailureMsg : String :=
  ("We couldnt fit a later verse into Verse 1s form. Please simplify the text for that verse (or adjust Bars per Verse when that option is available).")

/-- Outcome of `generate_melody_score`: a validated score (with the
1-based attempt that produced it), the immediate verse-form abort, an
uncaught exception (the `ValueError` for an unknown section id, or the
KeyError an unparseable chord-symbol root raises inside validation —
neither is caught by the loop), or exhaustion carrying the
`error_history` the source logs at the moment it raises the generic
message. -/
inductive GenResult where
  | ok (score : CanonicalScore) (attempt : ℕ)
  | verse_form_failed (user_message : String)
  | value_error (message : String)
  | exhausted (error_history : List String) (user_message : String)
deriving DecidableEq, Repr

/-- Prefixes of the harmony issues the loop repairs before normalizing. -/
def isHarmonyIssue (err : String) : Bool :=
  strStartsWith err ("Score must include an explicit chord progression") ∨
  strStartsWith err ("Missing chord symbols") ∨
  strStartsWith err ("Chord ")

/-- Prefixes accepted by the `bars_per_verse` soft pass. -/
def isNonBlockingErr (err : String) : Bool :=
  strStartsWith err ("Lyric phrase ending") ∨
  strStartsWith err ("Orphan melodic note") ∨
  strStartsWith err ("Soprano strong-beat note")

/-- Outcome of one post-compose attempt of the retry loop: an accepted
score, a failed attempt with its post-repair diagnostics (the loop
retries), or an exception escaping validation (the loop does not catch
it). -/
inductive AttemptResult where
  | ok (score : CanonicalScore)
  | invalid (repaired_errs : List String)
  | crashed (message : String)
deriving DecidableEq, Repr

/-- One attempt of the retry loop (everything after `_compose_melody_once`
succeeded). -/
def generateAttempt (req : CompositionRequest) (primary_mode : Option String)
    (score0 : CanonicalScore) : AttemptResult :=
  match validate_score score0 primary_mode with
  | Except.error e => AttemptResult.crashed e
  | Except.ok v0 =>
    let harmony_issues := v0.filter isHarmonyIssue
    let score1 :=
      if ¬ harmony_issues = [] then
        let repaired_progression := repair_harmony_progression score0.chord_progression
          score0.measures.length score0.meta.key primary_mode
        { score0 with chord_progression := repaired_progression }
      else score0
    let score2 := normalize_score_for_rendering score1
    match validate_score score2 primary_mode with
    | Except.error e => AttemptResult.crashed e
    | Except.ok errs =>
      let softPass : Bool := (req.preferences.bars_per_verse).isSome &&
        (! errs.isEmpty) && errs.all isNonBlockingErr
      if softPass then AttemptResult.ok score2
      else if errs = [] then AttemptResult.ok score2
      else
        let repaired := normalize_score_for_rendering (auto_repair_melody_score score2 primary_mode)
        match validate_score repaired primary_mode with
        | Except.error e => AttemptResult.crashed e
        | Except.ok repaired_errs =>
          if repaired_errs = [] then AttemptResult.ok repaired
          else AttemptResult.invalid repaired_errs

/-- The `for attempt_idx in range(MAX_GENERATION_ATTEMPTS)` loop. -/
def generateLoop (g : RngState) (req : CompositionRequest) (primary_mode : Option String) :
    List ℕ → List String → GenResult
  | [], history => GenResult.exhausted history genericFailureMsg
  | attempt_idx :: rest, history =>
    let attempt := attempt_idx + 1
    match compose_melody_once g req attempt_idx with
    | Except.error (ComposeError.verse_form _) => GenResult.verse_form_failed verseFormFailureMsg
    | Except.error (ComposeError.value_error m) => GenResult.value_error m
    | Except.ok score =>
      match generateAttempt req primary_mode score with
      | AttemptResult.ok final => GenResult.ok final attempt
      | AttemptResult.crashed e => GenResult.value_error e
      | AttemptResult.invalid repaired_errs =>
        generateLoop g req primary_mode rest
          (history ++ [("attempt ") ++ fmtN attempt ++ (": ") ++
            String.intercalate ("; ") repaired_errs])

/-- `generate_melody_score` (the PRNG-state argument models the module
PRNG at entry; every attempt reseeds it, so the result never depends on
it). -/
def generate_melody_score (g : RngState) (req : CompositionRequest) : GenResult :=
  generateLoop g req req.preferences.primary_mode (List.range MAX_GENERATION_ATTEMPTS) []

/-! ### harmonize_score -/

/-- State of the harmonization loop. -/
structure HarmonyState where
  alto : List ScoreNote
  tenor : List ScoreNote
  bass : List ScoreNote
  prev_a : ℤ
  prev_t : ℤ
  prev_b : ℤ
  prev_s : ℤ
  cursor : ℚ
deriving Repr

/-- One soprano note of the harmonization loop. -/
def harmonizeNote (score : CanonicalScore) (scale_set : List ℤ) (bpb : ℚ)
    (st : HarmonyState) (s : ScoreNote) : HarmonyState :=
  let measure_number := qfloordiv st.cursor bpb + 1
  let chord_tones := match chordByMeasure score.chord_progression measure_number with
    | some c => c.pitch_classes
    | none => scale_set
  if s.is_rest then
    { st with alto := st.alto ++ [restNote s.beats s.section_id]
              tenor := st.tenor ++ [restNote s.beats s.section_id]
              bass := st.bass ++ [restNote s.beats s.section_id]
              cursor := st.cursor + s.beats }
  else
    let sm := midiOf s.pitch
    let bass_tones := chord_tones
    let bassFloor := (VOICE_TESSITURA .bass).1 - 1
    let am0 := choose_chord_tone .alto st.prev_a (min (sm - 3) st.prev_a) chord_tones none (some (sm - 1))
    let tm0 := choose_chord_tone .tenor st.prev_t (min (sm - 7) st.prev_t) chord_tones none (some (am0 - 1))
    let bm0 := choose_chord_tone .bass st.prev_b st.prev_b bass_tones (some bassFloor) (some (tm0 - 1))
    let am1 := if sm - am0 > 12 then
        choose_chord_tone .alto st.prev_a (sm - 12) chord_tones (some (sm - 12)) (some (sm - 1))
      else am0
    let tm1 := if am1 - tm0 > 12 then
        choose_chord_tone .tenor st.prev_t (am1 - 12) chord_tones (some (am1 - 12)) (some (am1 - 1))
      else tm0
    let bm1 := if tm1 - bm0 > 16 then
        choose_chord_tone .bass st.prev_b (tm1 - 12) bass_tones (some (max (tm1 - 16) bassFloor)) (some (tm1 - 1))
      else bm0
    let am2 := break_parallel_with_soprano sm st.prev_s st.prev_a am1 .alto scale_set
    let am3 := choose_chord_tone .alto st.prev_a am2 chord_tones none (some (sm - 1))
    let tm2 := break_parallel_with_soprano sm st.prev_s st.prev_t tm1 .tenor scale_set
    let tm3 := choose_chord_tone .tenor st.prev_t tm2 chord_tones none (some (am3 - 1))
    let bm2 := break_parallel_with_soprano sm st.prev_s st.prev_b bm1 .bass scale_set
    let bm3 := choose_chord_tone .bass st.prev_b bm2 bass_tones (some bassFloor) (some (tm3 - 1))
    let am4 := if sm - am3 > 12 then
        choose_chord_tone .alto st.prev_a (sm - 12) chord_tones (some (sm - 12)) (some (sm - 1))
      else am3
    let tm4 := if am4 - tm3 > 12 then
        choose_chord_tone .tenor st.prev_t (am4 - 12) chord_tones (some (am4 - 12)) (some (am4 - 1))
      else tm3
    let bm4 := if tm4 - bm3 > 16 then
        choose_chord_tone .bass st.prev_b (tm4 - 12) bass_tones (some (max (tm4 - 16) bassFloor)) (some (tm4 - 1))
      else bm3
    let tenor_floor := (VOICE_TESSITURA .tenor).1 - 1
    let tm5 := if tm4 < tenor_floor then
        nearest_pitch_class (tm4 + 12) chord_tones (VOICE_RANGES .tenor).1 (VOICE_RANGES .tenor).2
      else tm4
    let mkNote := fun (midi : ℤ) =>
      ({ pitch := midi_to_pitch midi
         beats := s.beats
         is_rest := false
         lyric := s.lyric
         lyric_syllable_id := s.lyric_syllable_id
         lyric_mode := s.lyric_mode
         section_id := s.section_id
         lyric_index := s.lyric_index } : ScoreNote)
    { alto := st.alto ++ [mkNote am4]
      tenor := st.tenor ++ [mkNote tm5]
      bass := st.bass ++ [mkNote bm4]
      prev_a := am4
      prev_t := tm5
      prev_b := bm4
      prev_s := sm
      cursor := st.cursor + s.beats }

/-- `harmonize_score`. -/
def harmonize_score (score0 : CanonicalScore) : Except String CanonicalScore :=
  let score := normalize_score_for_rendering score0
  if score.chord_progression = [] then
    Except.error ("Cannot harmonize without chord progression.")
  else
    let scale_set := (parse_key score.meta.key score.meta.primary_mode).semitones
    let bpb := beats_per_measure score.meta.time_signature
    let soprano := flatten_voice score .soprano
    let final := soprano.foldl (harmonizeNote score scale_set bpb)
      ({ alto := [], tenor := [], bass := [], prev_a := 62, prev_t := 55, prev_b := 48,
         prev_s := 64, cursor := 0 } : HarmonyState)
    let satb0 : CanonicalScore :=
      { meta := { score.meta with
          stage := ("satb")
          rationale := ("SATB voiced directly from explicit section chord progression.") }
        sections := score.sections
        measures := pack_measures soprano final.alto final.tenor final.bass score.meta.time_signature
        chord_progression := score.chord_progression }
    let satb := normalize_score_for_rendering satb0
    match validate_score satb with
    | Except.error e => Except.error e
    | Except.ok errs =>
      if ¬ errs = [] then Except.error ("SATB score failed validation.")
      else Except.ok satb

/-! ## main.py (the stage guard of the API layer) -/

/-- `_require_score_stage`. -/
def require_score_stage (score : CanonicalScore) (expected_stage action : String) :
    Except String Unit :=
  if ¬ score.meta.stage = expected_stage then
    Except.error (action ++ (" requires a ") ++ expected_stage ++
      (" score, but received stage ") ++ sQuote ++ score.meta.stage ++ sQuote ++ ("."))
  else Except.ok ()

/-! ## Verified properties

Shared infrastructure for the theorems: duration granularity and exact
facts about the rational modulo. -/

/-- A duration aligned to the engine's working granularity: an integer
multiple of `eps6`.  Every duration the planner emits is a multiple of
1/10 of a beat, and every beat capacity is a rational with a small
denominator, so all quantities that reach the `1e-9` tolerance tests are
multiples of `eps6`; since `eps9 < eps6`, those tests are then exact. -/
def microGrain (x : ℚ) : Prop := ∃ k : ℤ, x = k * eps6

theorem eps6_pos : (0 : ℚ) < eps6 := by norm_num [eps6]

theorem eps9_lt_eps6 : eps9 < eps6 := by norm_num [eps9, eps6]

theorem microGrain_zero : microGrain 0 := ⟨0, by norm_num⟩

theorem microGrain_add {a b : ℚ} (ha : microGrain a) (hb : microGrain b) :
    microGrain (a + b) := by
  obtain ⟨k, hk⟩ := ha
  obtain ⟨l, hl⟩ := hb
  exact ⟨k + l, by push_cast [hk, hl]; ring⟩

theorem microGrain_sub {a b : ℚ} (ha : microGrain a) (hb : microGrain b) :
    microGrain (a - b) := by
  obtain ⟨k, hk⟩ := ha
  obtain ⟨l, hl⟩ := hb
  exact ⟨k - l, by push_cast [hk, hl]; ring⟩

theorem microGrain_int_mul {a : ℚ} (k : ℤ) (ha : microGrain a) :
    microGrain ((k : ℚ) * a) := by
  obtain ⟨l, hl⟩ := ha
  exact ⟨k * l, by push_cast [hl]; ring⟩

theorem microGrain_min {a b : ℚ} (ha : microGrain a) (hb : microGrain b) :
    microGrain (min a b) := by
  rcases min_choice a b with h | h <;> rw [h] <;> assumption

/-- Two distinct grain-aligned values are at least `eps6` apart. -/
theorem microGrain_sep {a b : ℚ} (ha : microGrain a) (hb : microGrain b)
    (hlt : a < b) : a + eps6 ≤ b := by
  obtain ⟨k, hk⟩ := ha
  obtain ⟨l, hl⟩ := hb
  have hkl : k < l := by
    by_contra hc
    push_neg at hc
    have : b ≤ a := by
      rw [hk, hl]
      have := eps6_pos
      exact mul_le_mul_of_nonneg_right (by exact_mod_cast hc) (le_of_lt this)
    exact absurd hlt (not_lt.mpr this)
  have hkl1 : (k : ℚ) + 1 ≤ l := by exact_mod_cast hkl
  calc a + eps6 = ((k : ℚ) + 1) * eps6 := by rw [hk]; ring
    _ ≤ (l : ℚ) * eps6 := mul_le_mul_of_nonneg_right hkl1 (le_of_lt eps6_pos)
    _ = b := hl.symm

/-- A nonnegative grain-aligned value below `eps9` is zero. -/
theorem microGrain_small_eq_zero {a : ℚ} (ha : microGrain a)
    (h0 : 0 ≤ a) (h9 : a ≤ eps9) : a = 0 := by
  by_contra hne
  have hpos : 0 < a := lt_of_le_of_ne h0 (Ne.symm hne)
  have := microGrain_sep microGrain_zero ha hpos
  have := eps9_lt_eps6
  linarith

theorem qmod_nonneg (x : ℚ) {y : ℚ} (hy : 0 < y) : 0 ≤ qmod x y := by
  rw [qmod, if_neg (ne_of_gt hy)]
  have h := Int.sub_one_lt_floor (x / y)
  have hfl : (⌊x / y⌋ : ℚ) ≤ x / y := Int.floor_le _
  have : y * (⌊x / y⌋ : ℚ) ≤ y * (x / y) := mul_le_mul_of_nonneg_left hfl (le_of_lt hy)
  have hxy : y * (x / y) = x := by field_simp
  linarith

theorem qmod_lt (x : ℚ) {y : ℚ} (hy : 0 < y) : qmod x y < y := by
  rw [qmod, if_neg (ne_of_gt hy)]
  have hfl : x / y - 1 < (⌊x / y⌋ : ℚ) := Int.sub_one_lt_floor (x / y)
  have : y * (x / y - 1) < y * (⌊x / y⌋ : ℚ) := by
    exact mul_lt_mul_of_pos_left hfl hy
  have hxy : y * (x / y) = x := by field_simp
  nlinarith

theorem microGrain_qmod {x y : ℚ} (hx : microGrain x) (hy : microGrain y) :
    microGrain (qmod x y) := by
  rw [qmod]
  split
  · exact hx
  · exact microGrain_sub hx (by
      obtain ⟨l, hl⟩ := hy
      exact ⟨l * ⌊x / y⌋, by push_cast [hl]; ring⟩)

/-- The modulo vanishes exactly on integer multiples of the divisor. -/
theorem qmod_eq_zero_iff {x y : ℚ} (hy : y ≠ 0) :
    qmod x y = 0 ↔ ∃ k : ℤ, x = (k : ℚ) * y := by
  rw [qmod, if_neg hy]
  constructor
  · intro h
    exact ⟨⌊x / y⌋, by linarith [sub_eq_zero.mp h]⟩
  · rintro ⟨k, rfl⟩
    have : ((k : ℚ) * y) / y = (k : ℚ) := by field_simp
    rw [this, Int.floor_intCast]
    ring

/-- Subtracting the modulo lands on a multiple of the divisor. -/
theorem qmod_sub_self {x y : ℚ} (hy : y ≠ 0) :
    ∃ k : ℤ, x - qmod x y = (k : ℚ) * y := by
  rw [qmod, if_neg hy]
  exact ⟨⌊x / y⌋, by ring⟩

/-! ## C9: phrase target total beats -/

/-- C9 (amended). For every phrase the rhythm planner processes with a
positive grain-aligned beat capacity, a grain-aligned start offset and the
length scale 1 that the engine always passes, the computed target
total-beat length is at least 0.5 beats per syllable, and the phrase END
POSITION `start_offset + target` is rounded up to a barline (an integer
multiple of the beat capacity).  The target itself is a multiple of the
capacity only when the phrase starts on a barline: the code rounds the end
position, not the duration. -/
theorem c9_phrase_target_rounds_end_to_barline (phrase : List ScoreSyllable)
    (beats_per_bar start_offset : ℚ) (hbar : 0 < beats_per_bar)
    (hgb : microGrain beats_per_bar) (hgo : microGrain start_offset) :
    (1 / 2 : ℚ) * phrase.length ≤
      phrase_target_total_beats phrase beats_per_bar start_offset 1 ∧
    qmod (start_offset + phrase_target_total_beats phrase beats_per_bar start_offset 1)
      beats_per_bar = 0 := by
  have hne : beats_per_bar ≠ 0 := ne_of_gt hbar
  rw [phrase_target_total_beats]
  simp only [if_neg (not_le.mpr hbar)]
  have hms : max (0.6 : ℚ) (min 1.8 1) = 1 := by norm_num
  rw [hms, mul_one, max_self]
  set m : ℚ := 0.5 * phrase.length with hm
  have hg05 : microGrain m := by
    exact ⟨500000 * phrase.length, by push_cast [eps6, hm]; ring⟩
  have hm0 : 0 ≤ m := by
    rw [hm]
    positivity
  set r : ℚ := qmod (start_offset + m) beats_per_bar with hr
  have hr0 : 0 ≤ r := qmod_nonneg _ hbar
  have hrlt : r < beats_per_bar := qmod_lt _ hbar
  have hrg : microGrain r := microGrain_qmod (microGrain_add hgo hg05) hgb
  by_cases habs : |r| > eps9
  · -- rounding branch: the target grows by the distance to the next barline
    rw [if_pos habs]
    obtain ⟨k, hk⟩ := qmod_sub_self (x := start_offset + m) hne
    have hmul : start_offset + (m + (beats_per_bar - r)) = ((k + 1 : ℤ) : ℚ) * beats_per_bar := by
      rw [← hr] at hk
      push_cast
      linarith
    constructor
    · have hmax : m ≤ m + (beats_per_bar - r) := by linarith
      rcases le_or_lt m beats_per_bar with hcase | hcase
      · have : ¬ m > beats_per_bar := not_lt.mpr hcase
        rw [if_neg this, max_self]
        calc (1 / 2 : ℚ) * phrase.length = m := by rw [hm]; norm_num
          _ ≤ m + (beats_per_bar - r) := hmax
      · rw [if_pos hcase]
        calc (1 / 2 : ℚ) * phrase.length = m := by rw [hm]; norm_num
          _ ≤ m + (beats_per_bar - r) := hmax
          _ ≤ max (m + (beats_per_bar - r)) beats_per_bar := le_max_left _ _
    · rcases le_or_lt m beats_per_bar with hcase | hcase
      · rw [if_neg (not_lt.mpr hcase), max_self, (qmod_eq_zero_iff hne)]
        exact ⟨k + 1, hmul⟩
      · rw [if_pos hcase]
        have hbig : beats_per_bar ≤ m + (beats_per_bar - r) := by linarith
        rw [max_eq_left hbig, (qmod_eq_zero_iff hne)]
        exact ⟨k + 1, hmul⟩
  · -- no rounding: the tolerance test is exact on grain-aligned values
    rw [if_neg habs]
    push_neg at habs
    rw [abs_of_nonneg hr0] at habs
    have hrz : r = 0 := microGrain_small_eq_zero hrg hr0 habs
    have hqz : qmod (start_offset + m) beats_per_bar = 0 := by rw [← hr, hrz]
    constructor
    · rcases le_or_lt m beats_per_bar with hcase | hcase
      · rw [if_neg (not_lt.mpr hcase), max_self, hm]
        norm_num
      · rw [if_pos hcase]
        calc (1 / 2 : ℚ) * phrase.length = m := by rw [hm]; norm_num
          _ ≤ max m beats_per_bar := le_max_left _ _
    · rcases le_or_lt m beats_per_bar with hcase | hcase
      · rw [if_neg (not_lt.mpr hcase), max_self]
        exact hqz
      · rw [if_pos hcase]
        have : beats_per_bar ≤ m := le_of_lt hcase
        rw [max_eq_left this]
        exact hqz

/-- C9 witness: a four-syllable phrase at capacity 4 starting one beat
after the barline is stretched so that it ends on a barline. -/
theorem c9_phrase_target_witness :
    (1 / 2 : ℚ) * (List.replicate 4 (default : ScoreSyllable)).length ≤
      phrase_target_total_beats (List.replicate 4 default) 4 1 1 ∧
    qmod (1 + phrase_target_total_beats (List.replicate 4 default) 4 1 1) 4 = 0 :=
  c9_phrase_target_rounds_end_to_barline (List.replicate 4 default) 4 1 (by norm_num)
    ⟨4000000, by norm_num [eps6]⟩ ⟨1000000, by norm_num [eps6]⟩

/-- C9 counterexample to the claim as stated: with one syllable, beat
capacity 4 and start offset 1 (a phrase that starts one beat into the
measure, e.g. after a pickup), the computed target is 3 beats, which is
NOT a multiple of the 4-beat capacity — the code rounds the end position
`start_offset + target` up to a barline, not the target itself. -/
theorem c9_phrase_target_counterexample :
    phrase_target_total_beats [(default : ScoreSyllable)] 4 1 1 = 3 ∧
    ¬ qmod (phrase_target_total_beats [(default : ScoreSyllable)] 4 1 1) 4 = 0 := by
  have h : phrase_target_total_beats [(default : ScoreSyllable)] 4 1 1 = 3 := by
    rw [phrase_target_total_beats]
    norm_num [qmod, eps9]
    norm_num [abs_of_pos]
  refine ⟨h, ?_⟩
  rw [h]
  norm_num [qmod]

/-! ## C10: syllable splitting loses no characters -/

theorem chunkLens_sum_le (cs : List Char) : (chunkLens cs).sum ≤ cs.length := by
  rw [chunkLens]
  split
  · simp
  · rename_i hv
    have hc := consRunLen_le cs
    have hvle := vowelRunLen_le cs
    have hv1 : 1 ≤ vowelRunLen cs := Nat.one_le_iff_ne_zero.mpr hv
    set t := if consRunLen cs + vowelRunLen cs < cs.length then 1 else 0 with ht
    have hdec : (cs.drop (consRunLen cs + vowelRunLen cs + t)).length < cs.length := by
      simp only [List.length_drop]
      omega
    have ih := chunkLens_sum_le (cs.drop (consRunLen cs + vowelRunLen cs + t))
    simp only [List.length_drop] at ih
    simp only [List.sum_cons]
    have htle : consRunLen cs + vowelRunLen cs + t ≤ cs.length := by
      rw [ht]
      split <;> omega
    omega
termination_by cs.length
decreasing_by
  exact hdec

theorem flatten_slicesOfLens (w : List Char) (lens : List ℕ) (cursor : ℕ) :
    (slicesOfLens w lens cursor).flatten = (w.drop cursor).take lens.sum := by
  induction lens generalizing cursor with
  | nil => simp [slicesOfLens]
  | cons n rest ih =>
    simp only [slicesOfLens, List.flatten_cons, ih, List.sum_cons]
    rw [List.take_add, List.drop_drop]

theorem flatten_filter_ne_nil (l : List (List Char)) :
    (l.filter (fun s => ¬ s = [])).flatten = l.flatten := by
  induction l with
  | nil => rfl
  | cons a t ih =>
    simp only [decide_not] at ih ⊢
    by_cases ha : a = [] <;> simp [ha, ih, List.filter_cons]

theorem flatten_adjust_last (l : List (List Char)) (last extra : List Char)
    (h : l.getLast? = some last) :
    (l.dropLast ++ [last ++ extra]).flatten = l.flatten ++ extra := by
  have hne : l ≠ [] := by
    intro he
    rw [he] at h
    simp at h
  have hlast : l.getLast hne = last := by
    rw [List.getLast?_eq_getLast l hne] at h
    exact Option.some.inj h
  conv_rhs => rw [← List.dropLast_append_getLast hne, hlast]
  simp

theorem foldl_append_map_mk (l : List (List Char)) (s : List Char) :
    ((l.map (fun cs => String.mk cs)).foldl (fun a b => a ++ b) (String.mk s))
      = String.mk (s ++ l.flatten) := by
  induction l generalizing s with
  | nil => simp
  | cons a t ih =>
    simp only [List.map_cons, List.foldl_cons, List.flatten_cons]
    have h2 : (String.mk s ++ String.mk a) = String.mk (s ++ a) := rfl
    rw [h2, ih, List.append_assoc]

theorem split_into_syllables_flatten (word : String) :
    ((split_into_syllables word).foldl (fun a b => a ++ b) (String.mk [])) = word := by
  rw [split_into_syllables]
  by_cases h3 : word.data.length ≤ 3
  · simp only [if_pos h3]
    rfl
  · simp only [if_neg h3]
    by_cases hlens : chunkLens (word.data.map Char.toLower) = []
    · simp only [if_pos hlens]
      rfl
    · simp only [if_neg hlens]
      rw [foldl_append_map_mk, flatten_filter_ne_nil]
      have htot_le : (chunkLens (word.data.map Char.toLower)).sum ≤ word.data.length := by
        have := chunkLens_sum_le (word.data.map Char.toLower)
        simpa using this
      have hflat : (slicesOfLens word.data (chunkLens (word.data.map Char.toLower)) 0).flatten
          = word.data.take (chunkLens (word.data.map Char.toLower)).sum := by
        rw [flatten_slicesOfLens]
        simp
      split
      · rename_i hcase
        split
        · rename_i last heq
          rw [flatten_adjust_last _ _ _ heq, hflat, List.take_append_drop]
          rfl
        · rename_i heq
          rw [List.getLast?_eq_none_iff] at heq
          cases hl : chunkLens (word.data.map Char.toLower) with
          | nil => exact absurd hl hlens
          | cons n rest =>
            rw [hl] at heq
            simp [slicesOfLens] at heq
      · rename_i hcase
        rw [hflat]
        have he : (chunkLens (word.data.map Char.toLower)).sum = word.data.length := by omega
        rw [he, List.take_length word.data]
        rfl

theorem split_into_syllables_ne_nil (word : String) : ¬ split_into_syllables word = [] := by
  intro he
  have hflat := split_into_syllables_flatten word
  rw [he] at hflat
  have hdata : word.data = [] := by
    rw [← hflat]
    rfl
  have h3 : word.data.length ≤ 3 := by
    rw [hdata]
    simp
  have hw : split_into_syllables word = [word] := by
    rw [split_into_syllables, if_pos h3]
  rw [he] at hw
  exact absurd hw (by simp)

/-- C10. For every input word, syllable splitting returns a non-empty list
of syllables whose in-order concatenation is exactly the original word (no
characters lost, duplicated or reordered, including vowel-less words and
words of three letters or fewer, which are returned whole), and the
lyric-mapping copy of the splitter agrees with the music-theory one. -/
theorem c10_syllable_split_lossless (word : String) :
    ((split_into_syllables word).foldl (fun a b => a ++ b) (String.mk [])) = word ∧
    ¬ split_into_syllables word = [] ∧
    split_word_into_syllables word = split_into_syllables word :=
  ⟨split_into_syllables_flatten word, split_into_syllables_ne_nil word, rfl⟩

/-! ## C1: generation is deterministic in the request -/

theorem compose_melody_once_state_independent (g g2 : RngState) (req : CompositionRequest)
    (attempt_number : ℕ) :
    compose_melody_once g req attempt_number = compose_melody_once g2 req attempt_number := rfl

theorem generateLoop_state_independent (attempts : List ℕ) (g g2 : RngState)
    (req : CompositionRequest) (pm : Option String) (history : List String) :
    generateLoop g req pm attempts history = generateLoop g2 req pm attempts history := by
  induction attempts generalizing history with
  | nil => rfl
  | cons a rest ih =>
    simp only [generateLoop, compose_melody_once_state_independent g g2 req a]
    cases compose_melody_once g2 req a with
    | error e => cases e <;> rfl
    | ok score =>
      cases h : generateAttempt req pm score with
      | ok final => simp only [h]
      | crashed e => simp only [h]
      | invalid errs =>
        simp only [h]
        exact ih _

/-- C1. Melody generation is a deterministic function of the request: the
result does not depend on the ambient PRNG state (each attempt reseeds the
generator from the request's seed and the attempt index), so two runs on
an identical request produce identical `CanonicalScore` values; the same
holds per attempt for the intermediate plan of `_compose_melody_once`. -/
theorem c1_generation_deterministic (g g2 : RngState) (req : CompositionRequest) :
    generate_melody_score g req = generate_melody_score g2 req ∧
    (∀ attempt_number : ℕ, compose_melody_once g req attempt_number
        = compose_melody_once g2 req attempt_number) :=
  ⟨generateLoop_state_independent _ g g2 req _ _, fun _ => rfl⟩

/-! ## C5: bounded retry loop with reseeding and opaque exhaustion -/

theorem generateLoop_spec (attempts : List ℕ) (g : RngState) (req : CompositionRequest)
    (pm : Option String) (history : List String) :
    match generateLoop g req pm attempts history with
    | GenResult.ok _ attempt => ∃ a, a ∈ attempts ∧ attempt = a + 1
    | GenResult.verse_form_failed m => m = verseFormFailureMsg
    | GenResult.value_error _ => True
    | GenResult.exhausted h m =>
        h.length = history.length + attempts.length ∧ m = genericFailureMsg := by
  induction attempts generalizing history with
  | nil => exact ⟨by simp [generateLoop], rfl⟩
  | cons a rest ih =>
    cases hc : compose_melody_once g req a with
    | error e =>
      cases e with
      | verse_form m => simp [generateLoop, hc]
      | value_error m => simp [generateLoop, hc]
    | ok score =>
      cases hg : generateAttempt req pm score with
      | ok final =>
        simp only [generateLoop, hc, hg]
        exact ⟨a, List.mem_cons_self a rest, rfl⟩
      | crashed e =>
        simp only [generateLoop, hc, hg]
      | invalid errs =>
        simp only [generateLoop, hc, hg]
        have hh := ih (history ++ [("attempt ") ++ fmtN (a + 1) ++ (": ") ++
          String.intercalate ("; ") errs])
        revert hh
        cases generateLoop g req pm rest (history ++ [("attempt ") ++ fmtN (a + 1) ++ (": ") ++
            String.intercalate ("; ") errs]) with
        | ok s n =>
          intro hh
          obtain ⟨b, hb, rfl⟩ := hh
          exact ⟨b, List.mem_cons_of_mem _ hb, rfl⟩
        | verse_form_failed m => exact id
        | value_error m => exact fun _ => trivial
        | exhausted hist m =>
          intro hh
          refine ⟨?_, hh.2⟩
          have h1 := hh.1
          simp only [List.length_append, List.length_singleton, List.length_cons, List.length_nil] at h1 ⊢
          omega

/-- C5. Melody generation tries at most `MAX_GENERATION_ATTEMPTS = 5`
attempts (a successful result always reports an attempt number between 1
and 5); each attempt reseeds the PRNG deterministically from the base seed
and the attempt index (the base seed verbatim for attempt 0, then
`base-attempt-N`); when every attempt fails validation even after repair,
the result carries one diagnostic-history entry per attempt and the
opaque, generic user-facing message; a verse-form abort surfaces its own
fixed user-facing message. -/
theorem c5_retry_loop_bounds (g : RngState) (req : CompositionRequest) :
    (match generate_melody_score g req with
      | GenResult.ok _ attempt => 1 ≤ attempt ∧ attempt ≤ MAX_GENERATION_ATTEMPTS
      | GenResult.verse_form_failed m => m = verseFormFailureMsg
      | GenResult.value_error _ => True
      | GenResult.exhausted h m =>
          h.length = MAX_GENERATION_ATTEMPTS ∧ m = genericFailureMsg) ∧
    (∀ base : String, attemptSeed base 0 = base) ∧
    (∀ base : String, ∀ k : ℕ,
      attemptSeed base (k + 1) = base ++ ("-attempt-") ++ fmtN (k + 1)) := by
  refine ⟨?_, fun base => rfl, fun base k => rfl⟩
  have hs := generateLoop_spec (List.range MAX_GENERATION_ATTEMPTS) g req
    req.preferences.primary_mode []
  rw [generate_melody_score]
  revert hs
  cases generateLoop g req req.preferences.primary_mode (List.range MAX_GENERATION_ATTEMPTS) [] with
  | ok s n =>
    intro hs
    obtain ⟨b, hb, rfl⟩ := hs
    have hblt := List.mem_range.mp hb
    exact ⟨by omega, by simp only [MAX_GENERATION_ATTEMPTS] at hblt ⊢; omega⟩
  | verse_form_failed m => exact id
  | value_error m => exact fun _ => trivial
  | exhausted h m =>
    intro hs
    refine ⟨?_, hs.2⟩
    have h1 := hs.1
    simpa using h1

/-! ## C8: exactly one chord per measure after normalization -/

theorem chordFirstOccurrences_fst (chords : List ScoreChord) (n : ℕ) :
    ∀ p ∈ chordFirstOccurrences chords n, p.2.measure_number = p.1 := by
  rw [chordFirstOccurrences]
  have main : ∀ (l : List ScoreChord) (acc : List (ℤ × ScoreChord)),
      (∀ p ∈ acc, p.2.measure_number = p.1) →
      ∀ p ∈ l.foldl (chordFirstStep n) acc, p.2.measure_number = p.1 := by
    intro l
    induction l with
    | nil => intro acc hacc; simpa using hacc
    | cons c t ih =>
      intro acc hacc
      simp only [List.foldl_cons]
      apply ih
      rw [chordFirstStep]
      split
      · intro p hp
        rcases List.mem_append.mp hp with h | h
        · exact hacc p h
        · simp only [List.mem_singleton] at h
          subst h
          rfl
      · exact hacc
  exact main _ [] (by simp)

theorem ensureFold_map_measure_number (existing : List (ℤ × ScoreChord)) (scale : Scale)
    (measures : List ScoreMeasure)
    (hex : ∀ p ∈ existing, p.2.measure_number = p.1) :
    ∀ (l : List ℕ) (acc : List ScoreChord × Option ScoreChord),
      ((l.foldl (ensureChordStep existing scale measures) acc).1.map
          (fun c => c.measure_number))
        = acc.1.map (fun c => c.measure_number) ++ l.map (fun (i : ℕ) => (i : ℤ) + 1) := by
  intro l
  induction l with
  | nil => intro acc; simp
  | cons i t ih =>
    intro acc
    simp only [List.foldl_cons, List.map_cons]
    rw [ih]
    have hstep : (ensureChordStep existing scale measures acc i).1.map
        (fun c => c.measure_number)
        = acc.1.map (fun c => c.measure_number) ++ [(i : ℤ) + 1] := by
      rw [ensureChordStep]
      cases hf : existing.find? (fun p => p.1 = (i : ℤ) + 1) with
      | some p =>
        have hp1 : p.1 = (i : ℤ) + 1 := by
          have := List.find?_some hf
          simpa using this
        have hp2 : p.2.measure_number = p.1 := hex p (List.mem_of_find?_eq_some hf)
        simp [hp2, hp1]
      | none =>
        simp
    rw [hstep, List.append_assoc]
    rfl

theorem ensure_chord_symbols_complete_spec (score : CanonicalScore) :
    ((ensure_chord_symbols_complete score).chord_progression.map (fun c => c.measure_number))
      = (List.range score.measures.length).map (fun (i : ℕ) => (i : ℤ) + 1) ∧
    (ensure_chord_symbols_complete score).measures = score.measures := by
  rw [ensure_chord_symbols_complete]
  refine ⟨?_, rfl⟩
  have h := ensureFold_map_measure_number
    (chordFirstOccurrences score.chord_progression score.measures.length)
    (parse_key score.meta.key score.meta.primary_mode) score.measures
    (chordFirstOccurrences_fst score.chord_progression score.measures.length)
    (List.range score.measures.length) ([], none)
  simpa using h

theorem normalize_eq_ensure (score : CanonicalScore) :
    ∃ s1 : CanonicalScore, normalize_score_for_rendering score = ensure_chord_symbols_complete s1 ∧
      s1.measures.map (fun m => m.number)
        = (List.range s1.measures.length).map (fun (i : ℕ) => (i : ℤ) + 1) := by
  rw [normalize_score_for_rendering]
  refine ⟨_, rfl, ?_⟩
  simp only [List.map_map, List.length_map, List.length_range]
  refine congrFun (congrArg List.map ?_) _
  exact funext fun i => rfl

theorem range_addone_int_nodup (n : ℕ) :
    ((List.range n).map (fun (i : ℕ) => (i : ℤ) + 1)).Nodup := by
  refine List.Nodup.map ?_ (List.nodup_range n)
  intro i j hij
  have h1 : (i : ℤ) + 1 = (j : ℤ) + 1 := hij
  have h2 : (i : ℤ) = (j : ℤ) := by linarith
  exact_mod_cast h2

/-- C8. After normalization (which ends with the chord-completion repair),
the chord progression lists exactly one chord per measure, in measure
order: the chord measure numbers are exactly the score's measure numbers,
with no duplicates. -/
theorem c8_one_chord_per_measure (score : CanonicalScore) :
    ((normalize_score_for_rendering score).chord_progression.map (fun c => c.measure_number))
      = ((normalize_score_for_rendering score).measures.map (fun m => m.number)) ∧
    ((normalize_score_for_rendering score).chord_progression.map
      (fun c => c.measure_number)).Nodup := by
  obtain ⟨s1, heq, hnum⟩ := normalize_eq_ensure score
  have h := ensure_chord_symbols_complete_spec s1
  rw [heq, h.1, h.2, hnum]
  exact ⟨rfl, range_addone_int_nodup _⟩

/-! ## C2: measure completeness under the duration grain -/

theorem copy_note_chunk_beats (note : ScoreNote) (b : ℚ) (fc : Bool) :
    (copy_note_chunk note b fc).beats = b := by
  rw [copy_note_chunk]
  split
  · rfl
  · split <;> rfl

/-- Invariant of the chunking loop: flushed measures sum to the capacity,
the open measure sums to `used`, and `used` is nonnegative, below the
capacity and grain-aligned. -/
def NormInv (cap : ℚ) (acc : NormAcc) : Prop :=
  (∀ m ∈ acc.1, (m.map (fun n => n.beats)).sum = cap) ∧
  (acc.2.1.map (fun n => n.beats)).sum = acc.2.2 ∧
  0 ≤ acc.2.2 ∧ acc.2.2 < cap ∧ microGrain acc.2.2

theorem normProcessNote_inv (cap : ℚ) (note : ScoreNote) (hcap : 0 < cap)
    (hgcap : microGrain cap) :
    ∀ (fuel : ℕ) (remaining : ℚ) (first_chunk : Bool) (acc : NormAcc),
      microGrain remaining → NormInv cap acc →
      NormInv cap (normProcessNote cap note fuel remaining first_chunk acc) := by
  intro fuel
  induction fuel with
  | zero => intro r fc acc hr hinv; exact hinv
  | succ n ih =>
    intro r fc acc hr hinv
    obtain ⟨measures, current, used⟩ := acc
    rw [normProcessNote]
    by_cases hrem : r > eps9
    · rw [if_pos hrem]
      obtain ⟨hms, hcur, hu0, hult, hugr⟩ := hinv
      dsimp only at hms hcur hu0 hult hugr
      have hsep : used + eps6 ≤ cap := microGrain_sep hugr hgcap hult
      have hfe : ¬ (cap - used ≤ eps9) := by
        have := eps9_lt_eps6
        have := eps6_pos
        linarith
      simp only [if_neg hfe]
      have hchunk_gr : microGrain (min r (cap - used)) :=
        microGrain_min hr (microGrain_sub hgcap hugr)
      have heps9_pos : (0 : ℚ) < eps9 := by norm_num [eps9]
      have hchunk_pos : 0 < min r (cap - used) := by
        apply lt_min
        · linarith
        · have := eps9_lt_eps6
          linarith
      have hchunk_le : min r (cap - used) ≤ cap - used := min_le_right _ _
      have hrem_gr : microGrain (r - min r (cap - used)) := microGrain_sub hr hchunk_gr
      have hu1_gr : microGrain (used + min r (cap - used)) := microGrain_add hugr hchunk_gr
      by_cases hff : used + min r (cap - used) ≥ cap - eps9
      · have heq : used + min r (cap - used) = cap := by
          rcases lt_or_eq_of_le (by linarith : used + min r (cap - used) ≤ cap) with hlt | he
          · exfalso
            have h1 := microGrain_sep hu1_gr hgcap hlt
            have h2 := eps9_lt_eps6
            linarith
          · exact he
        rw [if_pos hff, if_pos hff, if_pos hff]
        apply ih _ false _ hrem_gr
        dsimp only [NormInv]
        refine ⟨?_, by simp, le_refl 0, hcap, microGrain_zero⟩
        intro m hm
        rcases List.mem_append.mp hm with h | h
        · exact hms m h
        · simp only [List.mem_singleton] at h
          subst h
          simp only [List.map_append, List.sum_append, List.map_cons, List.map_nil,
            List.sum_cons, List.sum_nil, copy_note_chunk_beats, hcur]
          linarith
      · rw [if_neg hff, if_neg hff, if_neg hff]
        apply ih _ false _ hrem_gr
        dsimp only [NormInv]
        refine ⟨hms, ?_, by linarith, by push_neg at hff; have := eps9_lt_eps6; linarith, hu1_gr⟩
        simp only [List.map_append, List.sum_append, List.map_cons, List.map_nil,
          List.sum_cons, List.sum_nil, copy_note_chunk_beats, hcur]
        linarith
    · rw [if_neg hrem]
      exact hinv

theorem normFold_inv (cap : ℚ) (hcap : 0 < cap) (hgcap : microGrain cap)
    (notes : List ScoreNote) (hnotes : ∀ n ∈ notes, microGrain n.beats) (acc : NormAcc)
    (hinv : NormInv cap acc) :
    NormInv cap (notes.foldl
      (fun (acc : NormAcc) note =>
        normProcessNote cap note (normFuel cap note.beats) note.beats true acc) acc) := by
  induction notes generalizing acc with
  | nil => exact hinv
  | cons nt t ih =>
    simp only [List.foldl_cons]
    exact ih (fun m hm => hnotes m (List.mem_cons_of_mem _ hm)) _
      (normProcessNote_inv cap nt hcap hgcap _ _ _ _
        (hnotes nt (List.mem_cons_self _ _)) hinv)

theorem normalize_voice_stream_sums (notes : List ScoreNote) (beat_cap : ℚ)
    (hcap : 0 < beat_cap) (hgcap : microGrain beat_cap)
    (hnotes : ∀ n ∈ notes, microGrain n.beats) :
    ∀ m ∈ normalize_voice_stream notes beat_cap,
      (m.map (fun n => n.beats)).sum = beat_cap := by
  rw [normalize_voice_stream]
  split
  · simp
  · have hinv := normFold_inv beat_cap hcap hgcap notes hnotes ([], [], 0)
      ⟨by simp, by simp, le_refl 0, hcap, microGrain_zero⟩
    rcases hfold : notes.foldl
        (fun (acc : NormAcc) note =>
          normProcessNote beat_cap note (normFuel beat_cap note.beats) note.beats true acc)
        ([], [], 0) with ⟨ms, cur, u⟩
    rw [hfold] at hinv
    obtain ⟨hms, hcur, hu0, hult, hugr⟩ := hinv
    dsimp only at hms hcur hu0 hult hugr ⊢
    by_cases hcur_ne : ¬ cur = []
    · rw [if_pos hcur_ne]
      have hsep : u + eps6 ≤ beat_cap := microGrain_sep hugr hgcap hult
      have hlt : u < beat_cap - eps9 := by
        have := eps9_lt_eps6
        linarith
      rw [if_pos hlt]
      intro m hm
      rcases List.mem_append.mp hm with h | h
      · exact hms m h
      · simp only [List.mem_singleton] at h
        subst h
        simp only [List.map_append, List.sum_append, List.map_cons, List.map_nil,
          List.sum_cons, List.sum_nil, hcur]
        have : (normRest (beat_cap - u)).beats = beat_cap - u := rfl
        rw [this]
        ring
    · rw [if_neg hcur_ne]
      exact hms

theorem normalize_meta_eq (score : CanonicalScore) :
    (normalize_score_for_rendering score).meta = score.meta := rfl

theorem getD_pad_sums (l : List (List ScoreNote)) (cap : ℚ) (mc i : ℕ)
    (hl : ∀ m ∈ l, (m.map (fun n => n.beats)).sum = cap) (hi : i < mc) :
    (((l ++ List.replicate (mc - l.length) [normRest cap]).getD i []).map
      (fun n => n.beats)).sum = cap := by
  have hlen : i < (l ++ List.replicate (mc - l.length) [normRest cap]).length := by
    simp only [List.length_append, List.length_replicate]
    omega
  rw [List.getD_eq_getElem _ _ hlen]
  have hmem := List.getElem_mem hlen
  rcases List.mem_append.mp hmem with h | h
  · exact hl _ h
  · rw [List.eq_of_mem_replicate h]
    simp [normRest, restNote]

/-- C2 (with the granularity premise that makes the float tolerances
exact). For every score whose time signature yields a positive
grain-aligned beat capacity and whose note durations are grain-aligned
(multiples of 1e-6, as all planner-produced durations are), every measure
of the normalized score sums, in every one of the four voices, exactly to
beats-per-measure; consequently the validator's measure-sum check reports
no diagnostic. -/
theorem c2_measure_completeness (score : CanonicalScore)
    (hcap : 0 < beats_per_measure score.meta.time_signature)
    (hgcap : microGrain (beats_per_measure score.meta.time_signature))
    (hnotes : ∀ voice : Voice, ∀ n ∈ flatten_voice score voice, microGrain n.beats) :
    (∀ m ∈ (normalize_score_for_rendering score).measures, ∀ voice : Voice,
      ((m.voice voice).map (fun n => n.beats)).sum
        = beats_per_measure score.meta.time_signature) ∧
    measureSumErrors (normalize_score_for_rendering score) = [] := by
  have hmain : ∀ m ∈ (normalize_score_for_rendering score).measures, ∀ voice : Voice,
      ((m.voice voice).map (fun n => n.beats)).sum
        = beats_per_measure score.meta.time_signature := by
    rw [normalize_score_for_rendering]
    rw [(ensure_chord_symbols_complete_spec _).2]
    intro m hm voice
    simp only [List.mem_map] at hm
    obtain ⟨i, hi, rfl⟩ := hm
    have hi2 := List.mem_range.mp hi
    cases voice with
    | soprano =>
      dsimp only [ScoreMeasure.voice]
      exact getD_pad_sums _ _ _ _ (normalize_voice_stream_sums _ _ hcap hgcap
        (hnotes .soprano)) hi2
    | alto =>
      dsimp only [ScoreMeasure.voice]
      exact getD_pad_sums _ _ _ _ (normalize_voice_stream_sums _ _ hcap hgcap
        (hnotes .alto)) hi2
    | tenor =>
      dsimp only [ScoreMeasure.voice]
      exact getD_pad_sums _ _ _ _ (normalize_voice_stream_sums _ _ hcap hgcap
        (hnotes .tenor)) hi2
    | bass =>
      dsimp only [ScoreMeasure.voice]
      exact getD_pad_sums _ _ _ _ (normalize_voice_stream_sums _ _ hcap hgcap
        (hnotes .bass)) hi2
  refine ⟨hmain, ?_⟩
  rw [measureSumErrors, normalize_meta_eq]
  rw [List.flatten_eq_nil_iff]
  intro l hl
  simp only [List.mem_map] at hl
  obtain ⟨m, hm, rfl⟩ := hl
  rw [List.filterMap_eq_nil_iff]
  intro voice hv
  have h := hmain m hm voice
  rw [h, sub_self, abs_zero, if_neg (not_lt.mpr (le_of_lt eps6_pos))]

/-- A concrete one-measure melody-stage score used to witness the
theorems: one sung whole note with one mapped syllable, three padded
voices and a complete one-chord progression. -/
def wNote : ScoreNote :=
  { pitch := ("E4"), beats := 4, is_rest := false, lyric := some ("la"),
    lyric_syllable_id := some ("sec-1-syl-0"), lyric_mode := ("single"),
    section_id := ("sec-1"), lyric_index := some 0 }

def wSyl : ScoreSyllable :=
  { id := ("sec-1-syl-0"), text := ("la"), section_id := ("sec-1"), word_index := 0,
    syllable_index_in_word := 0, word_text := ("la"), hyphenated := false, stressed := true,
    phrase_end_after := true, must_end_at_barline := true, breath_after_phrase := false }

def wScore : CanonicalScore :=
  { meta := { key := ("C"), primary_mode := none, time_signature := ("4/4"), tempo_bpm := 100,
              style := ("Hymn"), stage := ("melody"), rationale := ("test"),
              arrangement_music_units := [], verse_music_unit_form := none }
    sections := [{ id := ("sec-1"), label := ("verse"), is_verse := true, verse_number := some 1,
                   anacrusis_beats := 0, lyrics := ("la"), syllables := [wSyl] }]
    measures := [{ number := 1, soprano := [wNote],
                   alto := [restNote 4 ("padding")], tenor := [restNote 4 ("padding")],
                   bass := [restNote 4 ("padding")] }]
    chord_progression := [{ measure_number := 1, section_id := ("sec-1"), symbol := ("C"),
                            degree := 1, pitch_classes := [0, 4, 7] }] }

/-- C2 witness: the concrete score has a 4-beat capacity, grain-aligned
durations, and after normalization each voice of each measure sums to 4. -/
theorem c2_measure_completeness_witness :
    (∀ m ∈ (normalize_score_for_rendering wScore).measures, ∀ voice : Voice,
      ((m.voice voice).map (fun n => n.beats)).sum
        = beats_per_measure wScore.meta.time_signature) ∧
    measureSumErrors (normalize_score_for_rendering wScore) = [] := by
  apply c2_measure_completeness wScore
  · show (0 : ℚ) < beats_per_measure wScore.meta.time_signature
    rw [show beats_per_measure wScore.meta.time_signature = 4 from by
      with_unfolding_all rfl]
    norm_num
  · refine ⟨4000000, ?_⟩
    rw [show beats_per_measure wScore.meta.time_signature = 4 from by
      with_unfolding_all rfl]
    norm_num [eps6]
  · intro voice n hn
    have hb : n.beats = 4 := by
      cases voice with
      | soprano =>
        rw [show flatten_voice wScore Voice.soprano = [wNote] from by
          with_unfolding_all rfl] at hn
        rw [List.mem_singleton.mp hn]
        rfl
      | alto =>
        rw [show flatten_voice wScore Voice.alto = [restNote 4 ("padding")] from by
          with_unfolding_all rfl] at hn
        rw [List.mem_singleton.mp hn]
        rfl
      | tenor =>
        rw [show flatten_voice wScore Voice.tenor = [restNote 4 ("padding")] from by
          with_unfolding_all rfl] at hn
        rw [List.mem_singleton.mp hn]
        rfl
      | bass =>
        rw [show flatten_voice wScore Voice.bass = [restNote 4 ("padding")] from by
          with_unfolding_all rfl] at hn
        rw [List.mem_singleton.mp hn]
        rfl
    refine ⟨4000000, ?_⟩
    rw [hb]
    norm_num [eps6]

/-! ## C3: SATB ordering and spacing of harmonized scores -/

theorem harmonize_ok_validate (score t : CanonicalScore)
    (h : harmonize_score score = Except.ok t) :
    validate_score t none = Except.ok [] ∧ t.meta.stage = ("satb") := by
  rw [harmonize_score] at h
  split at h
  · exact absurd h (by simp)
  · dsimp only at h
    split at h
    · exact absurd h (by simp)
    · rename_i errs heq
      split at h
      · exact absurd h (by simp)
      · rename_i hc
        push_neg at hc
        have ht : t = normalize_score_for_rendering _ := (Except.ok.inj h).symm
        constructor
        · rw [ht, heq, hc]
        · rw [ht, normalize_meta_eq]

theorem validate_score_nil (score : CanonicalScore) (pm : Option String)
    (h : validate_score score pm = Except.ok []) :
    collectDiagnostics score pm = Except.ok [] := by
  rw [validate_score, validate_score_diagnostics] at h
  cases hcd : collectDiagnostics score pm with
  | error e =>
    rw [hcd] at h
    simp at h
  | ok errors =>
    rw [hcd] at h
    simp only [Except.ok.injEq] at h
    rcases List.append_eq_nil.mp h with ⟨h1, h2⟩
    have herr : errors = [] := by
      by_contra hne
      obtain ⟨e, he⟩ := List.exists_mem_of_ne_nil _ hne
      by_cases hw : is_warning_diagnostic e
      · have hmem : e ∈ errors.filter (fun e => is_warning_diagnostic e) :=
          List.mem_filter.mpr ⟨he, by simp [hw]⟩
        rw [h2] at hmem
        exact absurd hmem (by simp)
      · have hmem : e ∈ errors.filter (fun e => ¬ is_warning_diagnostic e) :=
          List.mem_filter.mpr ⟨he, by simp [hw]⟩
        rw [h1] at hmem
        exact absurd hmem (by simp)
    rw [herr]

theorem collect_nil_separation (score : CanonicalScore) (pm : Option String)
    (hstage : score.meta.stage = ("satb"))
    (h : collectDiagnostics score pm = Except.ok []) :
    validate_voice_separation score = [] := by
  rw [collectDiagnostics.eq_def] at h
  dsimp only at h
  split at h
  · exact absurd h (by simp)
  · rw [if_pos hstage] at h
    simp only [Except.ok.injEq] at h
    rcases List.append_eq_nil.mp h with ⟨h1, hsep⟩
    exact hsep

theorem ite_singleton_nil {c : Prop} [Decidable c] {x : String}
    (h : (if c then [x] else ([] : List String)) = []) : ¬ c := by
  intro hc
  rw [if_pos hc] at h
  exact absurd h (by simp)

theorem voice_separation_spec (score : CanonicalScore)
    (h : validate_voice_separation score = []) :
    ((sungNotes score .soprano).length = (sungNotes score .alto).length ∧
     (sungNotes score .alto).length = (sungNotes score .tenor).length ∧
     (sungNotes score .tenor).length = (sungNotes score .bass).length) ∧
    ∀ idx < (sungNotes score .soprano).length,
      (midiOf (((sungNotes score .soprano).getD idx default).pitch) ≥
         midiOf (((sungNotes score .alto).getD idx default).pitch) ∧
       midiOf (((sungNotes score .alto).getD idx default).pitch) ≥
         midiOf (((sungNotes score .tenor).getD idx default).pitch) ∧
       midiOf (((sungNotes score .tenor).getD idx default).pitch) ≥
         midiOf (((sungNotes score .bass).getD idx default).pitch)) ∧
      midiOf (((sungNotes score .soprano).getD idx default).pitch) -
        midiOf (((sungNotes score .alto).getD idx default).pitch) ≤ 12 ∧
      midiOf (((sungNotes score .alto).getD idx default).pitch) -
        midiOf (((sungNotes score .tenor).getD idx default).pitch) ≤ 12 ∧
      midiOf (((sungNotes score .tenor).getD idx default).pitch) -
        midiOf (((sungNotes score .bass).getD idx default).pitch) ≤ 16 := by
  rw [validate_voice_separation] at h
  dsimp only at h
  split at h
  · exact absurd h (by simp)
  · rename_i hcnt
    push_neg at hcnt
    refine ⟨hcnt, ?_⟩
    intro idx hidx
    have hf := List.flatten_eq_nil_iff.mp h _
      (List.mem_map_of_mem _ (List.mem_range.mpr hidx))
    rcases List.append_eq_nil.mp hf with ⟨hf123, hf4⟩
    rcases List.append_eq_nil.mp hf123 with ⟨hf12, hf3⟩
    rcases List.append_eq_nil.mp hf12 with ⟨hf1, hf2⟩
    have hc1 := ite_singleton_nil hf1
    have hc2 := ite_singleton_nil hf2
    have hc3 := ite_singleton_nil hf3
    have hc4 := ite_singleton_nil hf4
    rw [not_not] at hc1
    push_neg at hc2 hc3 hc4
    exact ⟨hc1, hc2, hc3, hc4⟩

/-- C3. Every score the harmonizer returns (it validates before
returning; any diagnostic aborts with an error) has rhythmically aligned
SATB voices, and at every aligned quadruple of sung notes the MIDI pitches
satisfy soprano ≥ alto ≥ tenor ≥ bass with the soprano-alto and alto-tenor
gaps at most an octave (12 semitones) and the tenor-bass gap at most 16
semitones. -/
theorem c3_satb_ordering (score satb : CanonicalScore)
    (h : harmonize_score score = Except.ok satb) :
    ((sungNotes satb .soprano).length = (sungNotes satb .alto).length ∧
     (sungNotes satb .alto).length = (sungNotes satb .tenor).length ∧
     (sungNotes satb .tenor).length = (sungNotes satb .bass).length) ∧
    ∀ idx < (sungNotes satb .soprano).length,
      (midiOf (((sungNotes satb .soprano).getD idx default).pitch) ≥
         midiOf (((sungNotes satb .alto).getD idx default).pitch) ∧
       midiOf (((sungNotes satb .alto).getD idx default).pitch) ≥
         midiOf (((sungNotes satb .tenor).getD idx default).pitch) ∧
       midiOf (((sungNotes satb .tenor).getD idx default).pitch) ≥
         midiOf (((sungNotes satb .bass).getD idx default).pitch)) ∧
      midiOf (((sungNotes satb .soprano).getD idx default).pitch) -
        midiOf (((sungNotes satb .alto).getD idx default).pitch) ≤ 12 ∧
      midiOf (((sungNotes satb .alto).getD idx default).pitch) -
        midiOf (((sungNotes satb .tenor).getD idx default).pitch) ≤ 12 ∧
      midiOf (((sungNotes satb .tenor).getD idx default).pitch) -
        midiOf (((sungNotes satb .bass).getD idx default).pitch) ≤ 16 := by
  obtain ⟨hval, hstage⟩ := harmonize_ok_validate score satb h
  exact voice_separation_spec satb
    (collect_nil_separation satb none hstage (validate_score_nil satb none hval))

/-- The harmonization of the witness score (alto C4, tenor G3, bass C3
under the sung E4). -/
def wSatb : CanonicalScore :=
  match harmonize_score wScore with
  | Except.ok s => s
  | Except.error _ => wScore

/-- C3 witness: the harmonizer succeeds on the concrete score and the
resulting SATB satisfies the ordering and spacing bounds. -/
theorem c3_satb_ordering_witness :
    ((sungNotes wSatb .soprano).length = (sungNotes wSatb .alto).length ∧
     (sungNotes wSatb .alto).length = (sungNotes wSatb .tenor).length ∧
     (sungNotes wSatb .tenor).length = (sungNotes wSatb .bass).length) ∧
    ∀ idx < (sungNotes wSatb .soprano).length,
      (midiOf (((sungNotes wSatb .soprano).getD idx default).pitch) ≥
         midiOf (((sungNotes wSatb .alto).getD idx default).pitch) ∧
       midiOf (((sungNotes wSatb .alto).getD idx default).pitch) ≥
         midiOf (((sungNotes wSatb .tenor).getD idx default).pitch) ∧
       midiOf (((sungNotes wSatb .tenor).getD idx default).pitch) ≥
         midiOf (((sungNotes wSatb .bass).getD idx default).pitch)) ∧
      midiOf (((sungNotes wSatb .soprano).getD idx default).pitch) -
        midiOf (((sungNotes wSatb .alto).getD idx default).pitch) ≤ 12 ∧
      midiOf (((sungNotes wSatb .alto).getD idx default).pitch) -
        midiOf (((sungNotes wSatb .tenor).getD idx default).pitch) ≤ 12 ∧
      midiOf (((sungNotes wSatb .tenor).getD idx default).pitch) -
        midiOf (((sungNotes wSatb .bass).getD idx default).pitch) ≤ 16 :=
  c3_satb_ordering wScore wSatb (by with_unfolding_all rfl)

/-! ## C7: structural errors fail fast with specific messages -/

/-- Whether an arrangement item references no section of the request. -/
def unknownArrangementItem (req : CompositionRequest) (item : ArrangementItem) : Bool :=
  (((req.sections.enum.map (fun p => (sectionKey p.2 (p.1 + 1), p.2))).reverse.find?
    (fun p => p.1 = item.section_id))).isNone

theorem expandFold_error_absorbs (section_defs : List (String × LyricSection))
    (l : List ArrangementItem) (e : String) :
    l.foldl (expandArrangementStep section_defs) (Except.error e) = Except.error e := by
  induction l with
  | nil => rfl
  | cons a t ih => simpa [expandArrangementStep] using ih

theorem expandFold_first_unknown (req : CompositionRequest) :
    ∀ (l : List ArrangementItem) (instances : List ArrangedInstance)
      (item : ArrangementItem), l.find? (unknownArrangementItem req) = some item →
      l.foldl (expandArrangementStep
          (req.sections.enum.map (fun p => (sectionKey p.2 (p.1 + 1), p.2))))
        (Except.ok instances)
        = Except.error (("Arrangement references unknown section_id: ") ++ item.section_id) := by
  intro l
  induction l with
  | nil => intro instances item h; exact absurd h (by simp)
  | cons a t ih =>
    intro instances item h
    by_cases ha : unknownArrangementItem req a
    · rw [List.find?_cons_of_pos _ ha] at h
      have hitem : a = item := Option.some.inj h
      subst hitem
      rw [unknownArrangementItem, Option.isNone_iff_eq_none] at ha
      have hstep : expandArrangementStep
          (req.sections.enum.map (fun p => (sectionKey p.2 (p.1 + 1), p.2)))
          (Except.ok instances) a
          = Except.error (("Arrangement references unknown section_id: ") ++ a.section_id) := by
        simp only [expandArrangementStep, ha]
        rfl
      simp only [List.foldl_cons, hstep]
      exact expandFold_error_absorbs _ t _
    · rw [List.find?_cons_of_neg _ ha] at h
      have hstep : ∃ instances2, expandArrangementStep
          (req.sections.enum.map (fun p => (sectionKey p.2 (p.1 + 1), p.2)))
          (Except.ok instances) a = Except.ok instances2 := by
        rw [expandArrangementStep]
        rw [unknownArrangementItem, Option.isNone_iff_eq_none] at ha
        cases hf : ((req.sections.enum.map (fun p => (sectionKey p.2 (p.1 + 1), p.2))).reverse.find?
            (fun p => p.1 = a.section_id)) with
        | none => exact absurd hf ha
        | some p => exact ⟨_, rfl⟩
      obtain ⟨instances2, hstep⟩ := hstep
      simp only [List.foldl_cons, hstep]
      exact ih instances2 item h

theorem expand_arrangement_unknown (req : CompositionRequest) (item : ArrangementItem)
    (h : req.arrangement.find? (unknownArrangementItem req) = some item) :
    expand_arrangement req = Except.error
      (("Arrangement references unknown section_id: ") ++ item.section_id) := by
  rw [expand_arrangement]
  have hne : ¬ req.arrangement = [] := by
    intro he
    rw [he] at h
    exact absurd h (by simp)
  rw [if_neg hne]
  exact expandFold_first_unknown req req.arrangement [] item h

theorem compose_melody_once_expand_error (g : RngState) (req : CompositionRequest)
    (k : ℕ) (e : String) (h : expand_arrangement req = Except.error e) :
    compose_melody_once g req k = Except.error (ComposeError.value_error e) := by
  rw [compose_melody_once]
  dsimp only
  rw [h]

theorem generate_melody_score_expand_error (g : RngState) (req : CompositionRequest)
    (e : String) (h : expand_arrangement req = Except.error e) :
    generate_melody_score g req = GenResult.value_error e := by
  rw [generate_melody_score]
  have hr : List.range MAX_GENERATION_ATTEMPTS = 0 :: [1, 2, 3, 4] := by decide
  rw [hr]
  simp only [generateLoop, compose_melody_once_expand_error g req 0 e h]

theorem chord_symbol_pitch_classes_error_shape (symbol e : String)
    (h : chord_symbol_pitch_classes symbol = Except.error e) :
    ∃ k, e = ("KeyError: ") ++ k := by
  rw [chord_symbol_pitch_classes] at h
  dsimp only at h
  repeat' split at h
  all_goals first
    | exact ⟨_, (Except.error.inj h).symm⟩
    | exact absurd h (by simp)

theorem chordCheckStep_fold_error (valid_triads : List (List ℤ)) (key : String)
    (pm : Option String) (chords : List ScoreChord) :
    ∀ (acc : Except String (List String)) (e : String),
      chords.foldl (chordCheckStep valid_triads key pm) acc = Except.error e →
      acc = Except.error e ∨ ∃ k, e = ("KeyError: ") ++ k := by
  induction chords with
  | nil => intro acc e h; exact Or.inl h
  | cons c cs ih =>
    intro acc e h
    simp only [List.foldl_cons] at h
    rcases ih _ e h with hstep | hk
    · rw [chordCheckStep.eq_def] at hstep
      cases acc with
      | error e2 => exact Or.inl hstep
      | ok errs =>
        right
        dsimp only at hstep
        split at hstep
        · rename_i e2 heq
          have he : e2 = e := Except.error.inj hstep
          rw [← he]
          exact chord_symbol_pitch_classes_error_shape _ _ heq
        · repeat' split at hstep
          all_goals exact absurd hstep (by simp)
    · exact Or.inr hk

theorem validate_chord_progression_error_shape (score : CanonicalScore) (pm : Option String)
    (e : String) (h : validate_chord_progression score pm = Except.error e) :
    ∃ k, e = ("KeyError: ") ++ k := by
  rw [validate_chord_progression] at h
  split at h
  · exact absurd h (by simp)
  · dsimp only at h
    split at h
    · rename_i e2 heq
      have he : e2 = e := Except.error.inj h
      rcases chordCheckStep_fold_error _ _ _ _ _ _ heq with hacc | hk
      · exact absurd hacc (by simp)
      · rw [← he]
        exact hk
    · exact absurd h (by simp)

theorem collectDiagnostics_error_shape (score : CanonicalScore) (pm : Option String)
    (e : String) (h : collectDiagnostics score pm = Except.error e) :
    ∃ k, e = ("KeyError: ") ++ k := by
  rw [collectDiagnostics.eq_def] at h
  dsimp only at h
  split at h
  · rename_i e2 heq
    have he : e2 = e := Except.error.inj h
    rw [← he]
    exact validate_chord_progression_error_shape _ _ _ heq
  · exact absurd h (by simp)

theorem validate_score_error_shape (score : CanonicalScore) (pm : Option String)
    (e : String) (h : validate_score score pm = Except.error e) :
    ∃ k, e = ("KeyError: ") ++ k := by
  rw [validate_score] at h
  split at h
  · rename_i e2 heq
    have he : e2 = e := Except.error.inj h
    rw [← he]
    rw [validate_score_diagnostics] at heq
    split at heq
    · rename_i e3 heq2
      have he2 : e3 = e2 := Except.error.inj heq
      rw [← he2]
      exact collectDiagnostics_error_shape _ _ _ heq2
    · exact absurd heq (by simp)
  · exact absurd h (by simp)

theorem append_head_ne (a b t : String) (ca ct : Char) (la lt : List Char)
    (ha : a.data = ca :: la) (ht : t.data = ct :: lt) (hne : ¬ ca = ct) :
    ¬ a ++ b = t := by
  intro h
  have hd : a.data ++ b.data = t.data := by
    rw [← h]
    rfl
  rw [ha, ht, List.cons_append] at hd
  simp only [List.cons.injEq] at hd
  exact hne hd.1

theorem harmonize_empty_iff (score : CanonicalScore) :
    harmonize_score score = Except.error ("Cannot harmonize without chord progression.")
      ↔ (normalize_score_for_rendering score).measures = [] := by
  obtain ⟨s1, heq, hnum⟩ := normalize_eq_ensure score
  have hspec := ensure_chord_symbols_complete_spec s1
  have hchords_iff : (normalize_score_for_rendering score).chord_progression = []
      ↔ (normalize_score_for_rendering score).measures = [] := by
    rw [heq, hspec.2]
    constructor
    · intro hc
      have := hspec.1
      rw [hc] at this
      have hlen : (List.range s1.measures.length).map (fun (i : ℕ) => (i : ℤ) + 1) = [] :=
        this.symm
      have : s1.measures.length = 0 := by
        by_contra hn
        have h0 : 0 ∈ List.range s1.measures.length := List.mem_range.mpr (Nat.pos_of_ne_zero hn)
        have : ((0 : ℕ) : ℤ) + 1 ∈ (List.range s1.measures.length).map
            (fun (i : ℕ) => (i : ℤ) + 1) := List.mem_map_of_mem _ h0
        rw [hlen] at this
        exact absurd this (by simp)
      exact List.eq_nil_of_length_eq_zero this
    · intro hm
      have := hspec.1
      rw [hm] at this
      simp only [List.length_nil, List.range_zero, List.map_nil] at this
      exact List.map_eq_nil_iff.mp this
  rw [harmonize_score]
  constructor
  · intro h
    split at h
    · rename_i hc
      exact hchords_iff.mp hc
    · dsimp only at h
      split at h
      · rename_i e2 heq
        obtain ⟨k, hk⟩ := validate_score_error_shape _ _ _ heq
        have he : e2 = ("Cannot harmonize without chord progression.") :=
          Except.error.inj h
        rw [hk] at he
        exact absurd he (append_head_ne _ _ _ 'K' 'C' _ _ rfl rfl (by decide))
      · split at h
        · exact absurd (Except.error.inj h) (by decide)
        · exact absurd h (by simp)
  · intro hm
    rw [if_pos (hchords_iff.mpr hm)]

/-- C7. Structural and input errors fail immediately with specific
messages and are never retried: (1) an arrangement referencing an unknown
section id makes `_expand_arrangement` raise
"Arrangement references unknown section_id: ...", and the generation entry
point surfaces that exact error on its first attempt instead of retrying;
(2) the API stage guard rejects a satb-stage score handed to a
melody-stage operation with a specific message; (3) the harmonizer raises
"Cannot harmonize without chord progression." exactly when the normalized
score has no measures — because normalization auto-fills one chord per
measure first, a non-empty score with an empty progression is repaired
rather than rejected. -/
theorem c7_structural_errors :
    (∀ (g : RngState) (req : CompositionRequest) (item : ArrangementItem),
      req.arrangement.find? (unknownArrangementItem req) = some item →
      expand_arrangement req = Except.error
        (("Arrangement references unknown section_id: ") ++ item.section_id) ∧
      generate_melody_score g req = GenResult.value_error
        (("Arrangement references unknown section_id: ") ++ item.section_id)) ∧
    (∀ (score : CanonicalScore) (action : String), score.meta.stage = ("satb") →
      require_score_stage score ("melody") action = Except.error
        (action ++ (" requires a ") ++ ("melody") ++ (" score, but received stage ") ++
          sQuote ++ ("satb") ++ sQuote ++ ("."))) ∧
    (∀ score : CanonicalScore,
      harmonize_score score = Except.error ("Cannot harmonize without chord progression.")
        ↔ (normalize_score_for_rendering score).measures = []) := by
  refine ⟨?_, ?_, harmonize_empty_iff⟩
  · intro g req item h
    have he := expand_arrangement_unknown req item h
    exact ⟨he, generate_melody_score_expand_error g req _ he⟩
  · intro score action hstage
    rw [require_score_stage]
    rw [if_pos (by rw [hstage]; decide)]
    rw [hstage]

/-- The witness score with its chord progression emptied. -/
def wNoChords : CanonicalScore := { wScore with chord_progression := [] }

/-- Harmonization of `wNoChords` (normalization first auto-fills the
missing chords, so it succeeds). -/
def wNoChordsSatb : CanonicalScore :=
  match harmonize_score wNoChords with
  | Except.ok s => s
  | Except.error _ => wNoChords

/-- C7 counterexample to the claim as stated: a non-empty melody score
with an EMPTY chord progression is not rejected by the harmonizer — it
normalizes first, which fills in one chord per measure, and harmonization
succeeds. The "Cannot harmonize without chord progression." error fires
only when the normalized score has no measures at all. -/
theorem c7_structural_errors_counterexample :
    wNoChords.chord_progression = [] ∧
    ¬ wNoChords.measures = [] ∧
    harmonize_score wNoChords = Except.ok wNoChordsSatb := by
  refine ⟨rfl, ?_, by with_unfolding_all rfl⟩
  intro h
  exact absurd (congrArg List.length h) (by with_unfolding_all decide)

/-! ## C6: cadential bias targets and overwrites -/

theorem setChordDegree_mem (scale : Scale) (l : List ScoreChord) (m d : ℤ)
    (c : ScoreChord) (hc : c ∈ setChordDegree scale l m d) :
    c ∈ l ∨ c.measure_number = m := by
  rw [setChordDegree] at hc
  obtain ⟨x, hx, hcx⟩ := List.mem_map.mp hc
  by_cases hxm : x.measure_number = m
  · right
    rw [← hcx, if_pos hxm]
    exact hxm
  · left
    rw [← hcx, if_neg hxm]
    exact hx

theorem targetsFold_mem (scale : Scale) (targets : List (ℤ × ℤ)) :
    ∀ (acc : List ScoreChord) (c : ScoreChord),
      c ∈ targets.foldl (fun acc2 target => setChordDegree scale acc2 target.1 target.2) acc →
      c ∈ acc ∨ ∃ t ∈ targets, c.measure_number = t.1 := by
  induction targets with
  | nil => intro acc c hc; exact Or.inl hc
  | cons t ts ih =>
    intro acc c hc
    simp only [List.foldl_cons] at hc
    rcases ih _ c hc with h | ⟨t2, ht2, hm⟩
    · rcases setChordDegree_mem _ _ _ _ _ h with h2 | h2
      · exact Or.inl h2
      · exact Or.inr ⟨t, List.mem_cons_self _ _, h2⟩
    · exact Or.inr ⟨t2, List.mem_cons_of_mem _ ht2, hm⟩

theorem cadenceTargetStep_fst_mem (avail : List ℤ) (acc : List (ℤ × ℤ) × ℤ)
    (f : ℤ) (t : ℤ × ℤ) (ht : t ∈ (cadenceTargetStep avail acc f).1) :
    t ∈ acc.1 ∨ t.1 = f ∨ t.1 = f - 1 ∨ t.1 = f - 2 := by
  rw [cadenceTargetStep] at ht
  split at ht
  · exact Or.inl ht
  · dsimp only at ht
    rcases List.mem_append.mp ht with h | h
    · exact Or.inl h
    · right
      split at h
      · rcases List.mem_append.mp h with h2 | h2
        · split at h2
          · rcases List.mem_append.mp h2 with h3 | h3
            · simp only [List.mem_singleton] at h3
              rw [h3]
              exact Or.inl rfl
            · simp only [List.mem_singleton] at h3
              rw [h3]
              exact Or.inr (Or.inl rfl)
          · simp only [List.mem_singleton] at h2
            rw [h2]
            exact Or.inl rfl
        · simp only [List.mem_singleton] at h2
          rw [h2]
          exact Or.inr (Or.inr rfl)
      · split at h
        · rcases List.mem_append.mp h with h3 | h3
          · simp only [List.mem_singleton] at h3
            rw [h3]
            exact Or.inl rfl
          · simp only [List.mem_singleton] at h3
            rw [h3]
            exact Or.inr (Or.inl rfl)
        · simp only [List.mem_singleton] at h
          rw [h]
          exact Or.inl rfl

theorem sectionCadenceTargets_shape (avail ends : List ℤ) :
    ∀ t ∈ sectionCadenceTargets avail ends,
      ∃ e ∈ ends, t.1 = e ∨ t.1 = e - 1 ∨ t.1 = e - 2 := by
  rw [sectionCadenceTargets]
  have main : ∀ (l : List ℤ) (acc0 : List (ℤ × ℤ)) (prev : ℤ),
      (∀ t ∈ acc0, ∃ e ∈ ends, t.1 = e ∨ t.1 = e - 1 ∨ t.1 = e - 2) →
      (∀ e ∈ l, e ∈ ends) →
      ∀ t ∈ (l.foldl (cadenceTargetStep avail) (acc0, prev)).1,
        ∃ e ∈ ends, t.1 = e ∨ t.1 = e - 1 ∨ t.1 = e - 2 := by
    intro l
    induction l with
    | nil => intro acc0 prev hacc hl; exact hacc
    | cons f fs ih =>
      intro acc0 prev hacc hl
      simp only [List.foldl_cons]
      rcases hstep : cadenceTargetStep avail (acc0, prev) f with ⟨acc1, prev1⟩
      refine ih acc1 prev1 ?_ (fun e he => hl e (List.mem_cons_of_mem _ he))
      intro t ht
      have := cadenceTargetStep_fst_mem avail (acc0, prev) f t (by rw [hstep]; exact ht)
      rcases this with h | h
      · exact hacc t h
      · exact ⟨f, hl f (List.mem_cons_self _ _), h⟩
  exact main ends [] _ (by simp) (fun e he => he)

theorem mem_dedupKeepFirst {l : List ℤ} {x : ℤ} (h : x ∈ dedupKeepFirst l) : x ∈ l := by
  rw [dedupKeepFirst] at h
  have main : ∀ (t : List ℤ) (acc : List ℤ),
      (∀ y ∈ acc, y ∈ l) → (∀ y ∈ t, y ∈ l) →
      ∀ y ∈ t.foldl (fun acc x => if x ∈ acc then acc else acc ++ [x]) acc, y ∈ l := by
    intro t
    induction t with
    | nil => intro acc hacc ht y hy; exact hacc y hy
    | cons a t2 ih =>
      intro acc hacc ht y hy
      simp only [List.foldl_cons] at hy
      refine ih _ ?_ (fun z hz => ht z (List.mem_cons_of_mem _ hz)) y hy
      intro z hz
      split at hz
      · exact hacc z hz
      · rcases List.mem_append.mp hz with h2 | h2
        · exact hacc z h2
        · simp only [List.mem_singleton] at h2
          rw [h2]
          exact ht a (List.mem_cons_self _ _)
  exact main l [] (by simp) (fun y hy => hy) x h

theorem mem_sortInts {l : List ℤ} {x : ℤ} (h : x ∈ sortInts l) : x ∈ l := by
  rw [sortInts] at h
  exact (List.mergeSort_perm l _).mem_iff.mp h

theorem cadenceSectionStep_mem (chords : List ScoreChord) (scale : Scale)
    (acc : List ScoreChord) (entry : String × List ℤ) (c : ScoreChord)
    (hc : c ∈ cadenceSectionStep chords scale acc entry) :
    c ∈ acc ∨ ∃ e ∈ entry.2,
      c.measure_number = e ∨ c.measure_number = e - 1 ∨ c.measure_number = e - 2 := by
  rw [cadenceSectionStep] at hc
  split at hc
  · exact Or.inl hc
  · rcases targetsFold_mem _ _ _ _ hc with h | ⟨t, ht, hm⟩
    · exact Or.inl h
    · obtain ⟨e, he, hshape⟩ := sectionCadenceTargets_shape _ _ t ht
      refine Or.inr ⟨e, mem_dedupKeepFirst (mem_sortInts he), ?_⟩
      rw [hm]
      exact hshape

theorem cadenceFold_mem (chords : List ScoreChord) (scale : Scale) :
    ∀ (entries : List (String × List ℤ)) (acc : List ScoreChord) (c : ScoreChord),
      c ∈ entries.foldl (cadenceSectionStep chords scale) acc →
      c ∈ acc ∨ ∃ entry ∈ entries, ∃ e ∈ entry.2,
        c.measure_number = e ∨ c.measure_number = e - 1 ∨ c.measure_number = e - 2 := by
  intro entries
  induction entries with
  | nil => intro acc c hc; exact Or.inl hc
  | cons en t ih =>
    intro acc c hc
    simp only [List.foldl_cons] at hc
    rcases ih _ c hc with h | ⟨entry, hent, he⟩
    · rcases cadenceSectionStep_mem _ _ _ _ _ h with h2 | ⟨e, he, hs⟩
      · exact Or.inl h2
      · exact Or.inr ⟨en, List.mem_cons_self _ _, e, he, hs⟩
    · exact Or.inr ⟨entry, List.mem_cons_of_mem _ hent, he⟩

theorem cadenceFold_mono (avail : List ℤ) :
    ∀ (l : List ℤ) (acc : List (ℤ × ℤ) × ℤ) (x : ℤ × ℤ), x ∈ acc.1 →
      x ∈ (l.foldl (cadenceTargetStep avail) acc).1 := by
  intro l
  induction l with
  | nil => intro acc x hx; exact hx
  | cons f fs ih =>
    intro acc x hx
    simp only [List.foldl_cons]
    apply ih
    rw [cadenceTargetStep]
    split
    · exact hx
    · dsimp only
      exact List.mem_append.mpr (Or.inl hx)

theorem cadenceTargets_hit (avail : List ℤ) (e : ℤ) (he_avail : e ∈ avail) :
    ∀ (l : List ℤ), e ∈ l → ∀ (acc : List (ℤ × ℤ) × ℤ),
      (e, 1) ∈ (l.foldl (cadenceTargetStep avail) acc).1 ∧
      (e - 1 ∈ avail → (e - 1, 5) ∈ (l.foldl (cadenceTargetStep avail) acc).1) := by
  intro l
  induction l with
  | nil => intro h; exact absurd h (by simp)
  | cons f fs ih =>
    intro hel acc
    by_cases hef : e = f
    · subst hef
      simp only [List.foldl_cons]
      have hstep : (e, 1) ∈ (cadenceTargetStep avail acc e).1 ∧
          (e - 1 ∈ avail → (e - 1, 5) ∈ (cadenceTargetStep avail acc e).1) := by
        rw [cadenceTargetStep, if_neg (not_not.mpr he_avail)]
        dsimp only
        constructor
        · split <;> split <;> simp
        · intro hm1
          simp only [if_pos hm1]
          split <;> simp
      exact ⟨cadenceFold_mono avail fs _ _ hstep.1,
        fun hm1 => cadenceFold_mono avail fs _ _ (hstep.2 hm1)⟩
    · have hefs : e ∈ fs := by
        rcases List.mem_cons.mp hel with h | h
        · exact absurd h hef
        · exact h
      simp only [List.foldl_cons]
      exact ih hefs _

theorem sectionCadenceTargets_hit (avail ends : List ℤ) (e : ℤ)
    (he : e ∈ ends) (ha : e ∈ avail) :
    (e, 1) ∈ sectionCadenceTargets avail ends ∧
    (e - 1 ∈ avail → (e - 1, 5) ∈ sectionCadenceTargets avail ends) := by
  rw [sectionCadenceTargets]
  exact cadenceTargets_hit avail e ha ends he _

/-- C6 (amended). The cadential-bias pass never modifies a chord outside
the immediate vicinity of a planned phrase end: every chord of its output
is either one of the (last-wins deduplicated) input chords, unchanged, or
sits at measure e, e-1 or e-2 for some phrase-end measure e of its
section's plan. Per phrase end e lying in its section's measures, the pass
queues the update (e, degree 1) and, when measure e-1 also belongs to the
section, (e-1, degree 5) (and (e-2, degree 2) for spans of three or more
measures); the queued updates of later phrase ends are applied after
earlier ones, so adjacent phrase ends can overwrite an earlier forced
degree-1 ending. -/
theorem c6_cadential_bias (chords : List ScoreChord) (sections : List ScoreSection)
    (section_plans : List SectionPlan) (beat_cap : ℚ) (key : String)
    (primary_mode : Option String) :
    (∀ c ∈ apply_phrase_cadential_bias chords sections section_plans beat_cap key primary_mode,
      c ∈ dedupChordsKeepLast chords ∨
      ∃ entry ∈ phraseEndMeasures sections section_plans beat_cap, ∃ e ∈ entry.2,
        c.measure_number = e ∨ c.measure_number = e - 1 ∨ c.measure_number = e - 2) ∧
    (∀ (avail ends : List ℤ) (e : ℤ), e ∈ ends → e ∈ avail →
      (e, 1) ∈ sectionCadenceTargets avail ends ∧
      (e - 1 ∈ avail → (e - 1, 5) ∈ sectionCadenceTargets avail ends)) := by
  refine ⟨?_, fun avail ends e he ha => sectionCadenceTargets_hit avail ends e he ha⟩
  intro c hc
  rw [apply_phrase_cadential_bias] at hc
  split at hc
  · rename_i hnil
    rw [hnil] at hc
    exact absurd hc (by simp)
  · dsimp only at hc
    rw [(List.mergeSort_perm _ _).mem_iff] at hc
    exact cadenceFold_mem chords _ _ _ c hc

/-- Two one-phrase syllables ending adjacent phrases of one section. -/
def cexSylA : ScoreSyllable :=
  { id := ("a"), text := ("la"), section_id := ("s"), word_index := 0,
    syllable_index_in_word := 0, word_text := ("la"), hyphenated := false, stressed := false,
    phrase_end_after := true, must_end_at_barline := false, breath_after_phrase := false }

def cexSylB : ScoreSyllable := { cexSylA with id := ("b") }

def cexSection : ScoreSection :=
  { id := ("s"), label := ("verse"), is_verse := true, verse_number := some 1,
    anacrusis_beats := 0, lyrics := ("la la"), syllables := [cexSylA, cexSylB] }

def cexItem (sid : String) (durs : List ℚ) : RhythmItem :=
  { syllable_id := sid, syllable_text := some ("la"), section_id := ("s"), lyric_index := 0,
    durations := durs, modes := [("single")], stressed := false }

def cexPlan : SectionPlan :=
  { section_id := ("s"), label := ("verse"), is_verse := true, music_unit_id := ("verse"),
    anacrusis_beats := 0, rhythm_plan := [cexItem ("a") [8], cexItem ("b") [4]] }

def cexChord (m : ℤ) : ScoreChord :=
  { measure_number := m, section_id := ("s"), symbol := ("C"), degree := 1,
    pitch_classes := [0, 4, 7] }

/-- C6 counterexample to the claim as stated: the section's phrases end in
measures 2 and 3; processing phrase end 2 forces measure 2 to degree 1,
but the subsequently processed phrase end 3 overwrites measure 2 (its
penultimate measure) to degree 5, so the ending measure of the first
phrase does NOT carry degree 1 in the result. -/
theorem c6_cadential_bias_counterexample :
    phraseEndMeasures [cexSection] [cexPlan] 4 = [((("s") : String), [2, 3])] ∧
    ((apply_phrase_cadential_bias [cexChord 1, cexChord 2, cexChord 3] [cexSection] [cexPlan]
        4 ("C") none).find? (fun c => c.measure_number = 2)).map (fun c => c.degree)
      = some 5 := by
  constructor
  · with_unfolding_all decide
  · with_unfolding_all decide

/-! ## C4: diagnostic partition and the uncalled parallel checker -/

/-- The message never reported by the collected diagnostics: the prefix
of every parallel-interval warning. -/
def noPotential (m : String) : Prop := strStartsWith m ("Potential parallel") = false

theorem data_append_eq (a b : String) : (a ++ b).data = a.data ++ b.data := rfl

theorem noPotential_of_head (s : String) (c : Char) (cs : List Char)
    (h : s.data = c :: cs) (hc : ¬ c = 'P') : noPotential s := by
  rw [noPotential, strStartsWith, h]
  rw [show ("Potential parallel").data = 'P' :: ("otential parallel").data from rfl]
  simp only [List.isPrefixOf]
  rw [Bool.and_eq_false_iff]
  left
  simpa using fun he => hc he.symm

example : noPotential (("Measure ") ++ fmtI 3 ++ (" voice ")) := by
  have hl : ("Measure ").data = 'M' :: ("easure ").data := rfl
  have hd : (("Measure ") ++ fmtI 3 ++ (" voice ")).data
      = 'M' :: ((("easure ").data ++ (fmtI 3).data) ++ (" voice ").data) := by
    simp only [data_append_eq, hl, List.cons_append]
  exact noPotential_of_head _ _ _ hd (by decide)

theorem noPotential_append (lit b : String) (c : Char) (cs : List Char)
    (hl : lit.data = c :: cs) (hc : ¬ c = 'P') : noPotential (lit ++ b) :=
  noPotential_of_head _ c (cs ++ b.data)
    (by rw [data_append_eq, hl]; rfl) hc

example (x y : String) : noPotential (("Measure ") ++ x ++ (" voice ") ++ y) := by
  simp only [String.append_assoc]
  exact noPotential_append _ _ 'M' _ rfl (by decide)

example : noPotential ("Score must include an explicit chord progression.") :=
  noPotential_of_head _ 'S' _ rfl (by decide)

def noPotentialList (l : List String) : Prop := ∀ m ∈ l, noPotential m

theorem npl_nil : noPotentialList [] := by
  intro m hm
  exact absurd hm (by simp)

theorem npl_singleton {x : String} (h : noPotential x) : noPotentialList [x] := by
  intro m hm
  rw [List.mem_singleton.mp hm]
  exact h

theorem npl_append {a b : List String} (ha : noPotentialList a) (hb : noPotentialList b) :
    noPotentialList (a ++ b) := by
  intro m hm
  rcases List.mem_append.mp hm with h | h
  · exact ha m h
  · exact hb m h

theorem npl_ite {c : Prop} [Decidable c] {a b : List String}
    (ha : noPotentialList a) (hb : noPotentialList b) :
    noPotentialList (if c then a else b) := by
  split
  · exact ha
  · exact hb

theorem npl_flatten {L : List (List String)} (h : ∀ l ∈ L, noPotentialList l) :
    noPotentialList L.flatten := by
  intro m hm
  obtain ⟨l, hl, hml⟩ := List.mem_flatten.mp hm
  exact h l hl m hml

theorem npl_map {α : Type} {f : α → String} {l : List α} (h : ∀ a, noPotential (f a)) :
    noPotentialList (l.map f) := by
  intro m hm
  obtain ⟨a, _, rfl⟩ := List.mem_map.mp hm
  exact h a

theorem npl_filterMap {α : Type} {f : α → Option String} {l : List α}
    (h : ∀ a m, f a = some m → noPotential m) : noPotentialList (l.filterMap f) := by
  intro m hm
  obtain ⟨a, _, hfa⟩ := List.mem_filterMap.mp hm
  exact h a m hfa

theorem np_measureSumErrors (score : CanonicalScore) :
    noPotentialList (measureSumErrors score) := by
  rw [measureSumErrors]
  apply npl_flatten
  intro l hl
  obtain ⟨measure, _, rfl⟩ := List.mem_map.mp hl
  apply npl_filterMap
  intro voice m hm
  dsimp only at hm
  split at hm
  · rw [← Option.some.inj hm]
    simp only [String.append_assoc]
    exact noPotential_append _ _ 'M' _ rfl (by decide)
  · exact absurd hm (by simp)

theorem chordCheckStep_fold_error_stable (valid_triads : List (List ℤ)) (key : String)
    (pm : Option String) (chords : List ScoreChord) (e : String) :
    chords.foldl (chordCheckStep valid_triads key pm) (Except.error e) = Except.error e := by
  induction chords with
  | nil => rfl
  | cons c cs ih => simpa [chordCheckStep] using ih

theorem np_chordCheckStep (valid_triads : List (List ℤ)) (key : String) (pm : Option String)
    (errs : List String) (c : ScoreChord) (l : List String)
    (hnp : noPotentialList errs)
    (h : chordCheckStep valid_triads key pm (Except.ok errs) c = Except.ok l) :
    noPotentialList l := by
  rw [chordCheckStep.eq_def] at h
  dsimp only at h
  split at h
  · exact absurd h (by simp)
  · split at h
    · rw [← Except.ok.inj h]
      exact hnp
    · split at h
      · rw [← Except.ok.inj h]
        exact hnp
      · rw [← Except.ok.inj h]
        apply npl_append hnp
        apply npl_singleton
        simp only [String.append_assoc]
        exact noPotential_append _ _ 'C' _ rfl (by decide)

theorem np_chordCheckStep_fold (valid_triads : List (List ℤ)) (key : String)
    (pm : Option String) (chords : List ScoreChord) :
    ∀ (errs0 l : List String), noPotentialList errs0 →
      chords.foldl (chordCheckStep valid_triads key pm) (Except.ok errs0) = Except.ok l →
      noPotentialList l := by
  induction chords with
  | nil =>
    intro errs0 l h0 h
    rw [← Except.ok.inj h]
    exact h0
  | cons c cs ih =>
    intro errs0 l h0 h
    simp only [List.foldl_cons] at h
    cases hstep : chordCheckStep valid_triads key pm (Except.ok errs0) c with
    | error e =>
      rw [hstep, chordCheckStep_fold_error_stable] at h
      exact absurd h (by simp)
    | ok errs1 =>
      rw [hstep] at h
      exact ih errs1 l (np_chordCheckStep _ _ _ _ _ _ h0 hstep) h

theorem np_validate_chord_progression (score : CanonicalScore) (pm : Option String)
    (l : List String) (h : validate_chord_progression score pm = Except.ok l) :
    noPotentialList l := by
  rw [validate_chord_progression] at h
  split at h
  · rw [← Except.ok.inj h]
    exact npl_singleton (noPotential_of_head _ 'S' _ rfl (by decide))
  · dsimp only at h
    split at h
    · exact absurd h (by simp)
    · rename_i chordErrs heq
      rw [← Except.ok.inj h]
      apply npl_append
      · apply npl_ite
        · apply npl_singleton
          simp only [String.append_assoc]
          exact noPotential_append _ _ 'M' _ rfl (by decide)
        · exact npl_nil
      · exact np_chordCheckStep_fold _ _ _ _ _ _ npl_nil heq

theorem np_validate_phrase_barline_alignment (score : CanonicalScore) :
    noPotentialList (validate_phrase_barline_alignment score) := by
  rw [validate_phrase_barline_alignment]
  dsimp only
  split
  · exact npl_nil
  · apply npl_filterMap
    intro p m hm
    split at hm
    · rw [← Option.some.inj hm]
      simp only [String.append_assoc]
      exact noPotential_append _ _ 'L' _ rfl (by decide)
    · exact absurd hm (by simp)

theorem np_pickupVoiceErrors (score : CanonicalScore) (beat_cap : ℚ) (section_id : String)
    (pickup_beats : ℚ) (voice : Voice) :
    noPotentialList (pickupVoiceErrors score beat_cap section_id pickup_beats voice) := by
  rw [pickupVoiceErrors]
  dsimp only
  split
  · exact npl_nil
  · apply npl_append
    · apply npl_ite
      · apply npl_singleton
        simp only [String.append_assoc]
        exact noPotential_append _ _ 'S' _ rfl (by decide)
      · exact npl_nil
    · apply npl_filterMap
      intro p m hm
      split at hm
      · rw [← Option.some.inj hm]
        simp only [String.append_assoc]
        exact noPotential_append _ _ 'S' _ rfl (by decide)
      · exact absurd hm (by simp)

theorem np_validate_pickup_measure_capacities (score : CanonicalScore) :
    noPotentialList (validate_pickup_measure_capacities score) := by
  rw [validate_pickup_measure_capacities]
  apply npl_flatten
  intro l hl
  obtain ⟨p, _, rfl⟩ := List.mem_map.mp hl
  apply npl_flatten
  intro l2 hl2
  obtain ⟨voice, _, rfl⟩ := List.mem_map.mp hl2
  exact np_pickupVoiceErrors _ _ _ _ _

theorem np_validate_voice_separation (score : CanonicalScore) :
    noPotentialList (validate_voice_separation score) := by
  rw [validate_voice_separation]
  dsimp only
  split
  · exact npl_singleton (noPotential_of_head _ 'S' _ rfl (by decide))
  · apply npl_flatten
    intro l hl
    obtain ⟨idx, _, rfl⟩ := List.mem_map.mp hl
    apply npl_append
    apply npl_append
    apply npl_append
    · apply npl_ite
      · apply npl_singleton
        simp only [String.append_assoc]
        exact noPotential_append _ _ 'V' _ rfl (by decide)
      · exact npl_nil
    · apply npl_ite
      · apply npl_singleton
        simp only [String.append_assoc]
        exact noPotential_append _ _ 'W' _ rfl (by decide)
      · exact npl_nil
    · apply npl_ite
      · apply npl_singleton
        simp only [String.append_assoc]
        exact noPotential_append _ _ 'W' _ rfl (by decide)
      · exact npl_nil
    · apply npl_ite
      · apply npl_singleton
        simp only [String.append_assoc]
        exact noPotential_append _ _ 'W' _ rfl (by decide)
      · exact npl_nil

theorem np_voiceName_append (voice : Voice) (rest : String) :
    noPotential (voiceName voice ++ rest) := by
  cases voice with
  | soprano => exact noPotential_append _ _ 's' _ rfl (by decide)
  | alto => exact noPotential_append _ _ 'a' _ rfl (by decide)
  | tenor => exact noPotential_append _ _ 't' _ rfl (by decide)
  | bass => exact noPotential_append _ _ 'b' _ rfl (by decide)


theorem lyricMapStep_errors (lookupExpected : String → Option (List String))
    (acc : LyricMapAcc) (note_ix : ℕ × ScoreNote) :
    ∃ extra, (lyricMapStep lookupExpected acc note_ix).errors = acc.errors ++ extra ∧
      noPotentialList extra := by
  have hu : noPotentialList (match lookupExpected note_ix.2.section_id with
      | some ids => if ¬ (note_ix.2.lyric_syllable_id).getD ("") ∈ ids then
          [("Unknown syllable id ") ++ (note_ix.2.lyric_syllable_id).getD ("") ++
            (" for section ") ++ note_ix.2.section_id ++ (".")]
        else []
      | none => []) := by
    split
    · split
      · apply npl_singleton
        simp only [String.append_assoc]
        exact noPotential_append _ _ 'U' _ rfl (by decide)
      · exact npl_nil
    · exact npl_nil
  have hn1 : noPotential (("Note ") ++ fmtN note_ix.1 ++ (" has continuation mode without syllable id.")) := by
    simp only [String.append_assoc]
    exact noPotential_append _ _ 'N' _ rfl (by decide)
  have hn2 : noPotential (("Note ") ++ fmtN note_ix.1 ++ (" repeats lyric text on a continuation mode.")) := by
    simp only [String.append_assoc]
    exact noPotential_append _ _ 'N' _ rfl (by decide)
  rw [lyricMapStep]
  split
  · exact ⟨[], by simp, npl_nil⟩
  · split
    · refine ⟨_, rfl, npl_singleton ?_⟩
      simp only [String.append_assoc]
      exact noPotential_append _ _ 'L' _ rfl (by decide)
    · dsimp only
      split
      · exact ⟨[], by simp, npl_nil⟩
      · split
        · split
          · split
            · exact ⟨_, by simp, npl_append (npl_append hu (npl_singleton hn1)) (npl_singleton hn2)⟩
            · exact ⟨_, by simp, npl_append (npl_singleton hn1) (npl_singleton hn2)⟩
          · split
            · exact ⟨_, by simp, npl_append hu (npl_singleton hn2)⟩
            · exact ⟨_, by simp, npl_singleton hn2⟩
        · split
          · split
            · exact ⟨_, by simp, npl_append hu (npl_singleton hn1)⟩
            · exact ⟨_, by simp, npl_singleton hn1⟩
          · split
            · exact ⟨_, by simp, hu⟩
            · exact ⟨[], by simp, npl_nil⟩

theorem np_lyricMapFold (lookupExpected : String → Option (List String))
    (l : List (ℕ × ScoreNote)) :
    ∀ (acc : LyricMapAcc), noPotentialList acc.errors →
      noPotentialList (l.foldl (lyricMapStep lookupExpected) acc).errors := by
  induction l with
  | nil => intro acc hacc; exact hacc
  | cons a t ih =>
    intro acc hacc
    simp only [List.foldl_cons]
    apply ih
    obtain ⟨extra, heq, hnp⟩ := lyricMapStep_errors lookupExpected acc a
    rw [heq]
    exact npl_append hacc hnp

theorem np_validate_lyric_mapping (score : CanonicalScore) :
    noPotentialList (validate_lyric_mapping score) := by
  rw [validate_lyric_mapping]
  apply npl_append
  apply npl_append
  · exact np_lyricMapFold _ _ ⟨[], [], []⟩ npl_nil
  · apply npl_ite
    · apply npl_singleton
      simp only [String.append_assoc]
      exact noPotential_append _ _ 'V' _ rfl (by decide)
    · exact npl_nil
  · apply npl_filterMap
    intro sec m hm
    dsimp only at hm
    split at hm
    · rw [← Option.some.inj hm]
      simp only [String.append_assoc]
      exact noPotential_append _ _ 'S' _ rfl (by decide)
    · exact absurd hm (by simp)

theorem rangesStep_errors (voice : Voice) (lo hi t_lo t_hi : ℤ)
    (acc : List String × Option ℤ) (note_ix : ℕ × ScoreNote) :
    ∃ extra, (rangesStep voice lo hi t_lo t_hi acc note_ix).1 = acc.1 ++ extra ∧
      noPotentialList extra := by
  rw [rangesStep]
  split
  · exact ⟨[], by simp, npl_nil⟩
  · dsimp only
    simp only [List.append_assoc]
    refine ⟨_, rfl, ?_⟩
    apply npl_append
    · apply npl_ite
      · exact npl_singleton (by
          simp only [String.append_assoc]
          exact np_voiceName_append voice _)
      · exact npl_nil
    apply npl_append
    · split
      · apply npl_ite
        · exact npl_singleton (by
            simp only [String.append_assoc]
            exact np_voiceName_append voice _)
        · exact npl_nil
      · exact npl_nil
    · apply npl_ite
      · exact npl_singleton (by
          simp only [String.append_assoc]
          exact np_voiceName_append voice _)
      · exact npl_nil

theorem np_validate_ranges_and_motion (score : CanonicalScore) :
    noPotentialList (validate_ranges_and_motion score) := by
  rw [validate_ranges_and_motion]
  apply npl_flatten
  intro l hl
  obtain ⟨voice, _, rfl⟩ := List.mem_map.mp hl
  dsimp only
  have main : ∀ (notes : List (ℕ × ScoreNote)) (acc : List String × Option ℤ),
      noPotentialList acc.1 →
      noPotentialList (notes.foldl (rangesStep voice (VOICE_RANGES voice).1
        (VOICE_RANGES voice).2 (VOICE_TESSITURA voice).1 (VOICE_TESSITURA voice).2) acc).1 := by
    intro notes
    induction notes with
    | nil => intro acc hacc; exact hacc
    | cons a t ih =>
      intro acc hacc
      simp only [List.foldl_cons]
      apply ih
      obtain ⟨extra, heq, hnp⟩ := rangesStep_errors voice _ _ _ _ acc a
      rw [heq]
      exact npl_append hacc hnp
  exact main _ _ npl_nil

theorem harmonicStep_errors (score : CanonicalScore) (bpb : ℚ) (voice : Voice)
    (acc : List String × ℚ) (note_ix : ℕ × ScoreNote) :
    ∃ extra, (harmonicStep score bpb voice acc note_ix).1 = acc.1 ++ extra ∧
      noPotentialList extra := by
  rw [harmonicStep]
  split
  · exact ⟨[], by simp, npl_nil⟩
  · dsimp only
    split
    · exact ⟨[], by simp, npl_nil⟩
    · split
      · exact ⟨[], by simp, npl_nil⟩
      · refine ⟨_, rfl, ?_⟩
        split
        · split
          · exact npl_nil
          · apply npl_ite
            · apply npl_singleton
              simp only [String.append_assoc]
              exact noPotential_append _ _ 'S' _ rfl (by decide)
            · exact npl_nil
        · apply npl_ite
          · apply npl_singleton
            simp only [String.append_assoc]
            exact np_voiceName_append voice _
          · exact npl_nil

theorem np_validate_harmonic_integrity (score : CanonicalScore) :
    noPotentialList (validate_harmonic_integrity score) := by
  rw [validate_harmonic_integrity]
  apply npl_flatten
  intro l hl
  obtain ⟨voice, _, rfl⟩ := List.mem_map.mp hl
  dsimp only
  have main : ∀ (notes : List (ℕ × ScoreNote)) (acc : List String × ℚ),
      noPotentialList acc.1 →
      noPotentialList (notes.foldl (harmonicStep score
        (beats_per_measure score.meta.time_signature) voice) acc).1 := by
    intro notes
    induction notes with
    | nil => intro acc hacc; exact hacc
    | cons a t ih =>
      intro acc hacc
      simp only [List.foldl_cons]
      apply ih
      obtain ⟨extra, heq, hnp⟩ := harmonicStep_errors score _ voice acc a
      rw [heq]
      exact npl_append hacc hnp
  exact main _ _ npl_nil

theorem np_collectDiagnostics (score : CanonicalScore) (pm : Option String)
    (all : List String) (h : collectDiagnostics score pm = Except.ok all) :
    noPotentialList all := by
  rw [collectDiagnostics.eq_def] at h
  dsimp only at h
  split at h
  · exact absurd h (by simp)
  · rename_i chordErrs heq
    rw [← Except.ok.inj h]
    apply npl_append
    apply npl_append
    apply npl_append
    apply npl_append
    apply npl_append
    apply npl_append
    apply npl_append
    · exact np_measureSumErrors score
    · exact np_validate_chord_progression score _ _ heq
    · exact np_validate_lyric_mapping score
    · exact np_validate_phrase_barline_alignment score
    · exact np_validate_pickup_measure_capacities score
    · exact np_validate_ranges_and_motion score
    · exact np_validate_harmonic_integrity score
    · exact npl_ite (np_validate_voice_separation score) npl_nil

theorem startsWith_potential_parallel (rest : String) :
    strStartsWith (("Potential parallel ") ++ rest) ("Potential parallel") = true := by
  rw [strStartsWith, data_append_eq, List.isPrefixOf_iff_prefix]
  refine List.IsPrefix.trans ?_ (List.prefix_append _ _)
  rw [← List.isPrefixOf_iff_prefix]
  rfl

theorem np_parallel_messages (score : CanonicalScore) :
    ∀ m ∈ validate_parallel_intervals score,
      strStartsWith m ("Potential parallel") = true ∧ is_warning_diagnostic m = true := by
  intro m hm
  rw [validate_parallel_intervals] at hm
  obtain ⟨l, hl, hml⟩ := List.mem_flatten.mp hm
  obtain ⟨i, _, rfl⟩ := List.mem_map.mp hl
  obtain ⟨l2, hl2, hml2⟩ := List.mem_flatten.mp hml
  obtain ⟨a, _, rfl⟩ := List.mem_map.mp hl2
  obtain ⟨b, _, hfb⟩ := List.mem_filterMap.mp hml2
  rw [parallelPairError] at hfb
  split at hfb
  · have hmsg := Option.some.inj hfb
    rw [← hmsg]
    constructor
    · simp only [String.append_assoc]
      exact startsWith_potential_parallel _
    · rw [is_warning_diagnostic]
      simp only [String.append_assoc]
      rw [startsWith_potential_parallel _]
      simp
  · exact absurd hfb (by simp)

/-- C4 (amended). Validation partitions the collected diagnostics into
fatal entries and warnings using the message classifier: whenever the
collection succeeds the report succeeds too, its fatal and warning lists
jointly contain exactly the collected diagnostics, fatal ones failing the
warning test and warnings passing it (and when the eager chord-symbol
parse raises, report and collection fail with the same exception).
However, the parallel-interval checker is NEVER invoked by
`validate_score_diagnostics`: no collected diagnostic ever carries its
"Potential parallel" prefix, even though its messages, had they been
collected, would classify as warnings. Parallel fifths/octaves therefore
go unreported. -/
theorem c4_validation_partition (score : CanonicalScore) (pm : Option String) :
    (match collectDiagnostics score pm, validate_score_diagnostics score pm with
     | Except.ok collected, Except.ok report =>
        (∀ m, (m ∈ report.fatal ∨ m ∈ report.warnings) ↔ m ∈ collected) ∧
        (∀ m ∈ report.fatal, is_warning_diagnostic m = false) ∧
        (∀ m ∈ report.warnings, is_warning_diagnostic m = true) ∧
        (∀ m ∈ collected, strStartsWith m ("Potential parallel") = false)
     | Except.error e, Except.error e2 => e = e2
     | Except.ok _, Except.error _ => False
     | Except.error _, Except.ok _ => False) ∧
    (∀ m ∈ validate_parallel_intervals score,
      strStartsWith m ("Potential parallel") = true ∧ is_warning_diagnostic m = true) := by
  refine ⟨?_, np_parallel_messages score⟩
  cases hcd : collectDiagnostics score pm with
  | error e =>
    rw [validate_score_diagnostics, hcd]
  | ok collected =>
    rw [validate_score_diagnostics, hcd]
    dsimp only
    refine ⟨?_, ?_, ?_, np_collectDiagnostics score pm collected hcd⟩
    · intro m
      constructor
      · intro h
        rcases h with h | h
        · exact (List.mem_filter.mp h).1
        · exact (List.mem_filter.mp h).1
      · intro h
        by_cases hw : is_warning_diagnostic m
        · right
          exact List.mem_filter.mpr ⟨h, by simp [hw]⟩
        · left
          exact List.mem_filter.mpr ⟨h, by simp [hw]⟩
    · intro m hm
      have := (List.mem_filter.mp hm).2
      simpa using this
    · intro m hm
      have := (List.mem_filter.mp hm).2
      simpa using this

/-- A sung two-note line for the parallel-motion counterexample. -/
def cexParNote (p : String) : ScoreNote :=
  { pitch := p, beats := 2, is_rest := false, lyric := none, lyric_syllable_id := none,
    lyric_mode := ("single"), section_id := ("padding"), lyric_index := none }

/-- A satb-stage score whose soprano and alto move in parallel octaves and
whose only chord has a parseable (C-sharp major) but non-diatonic symbol,
so validation runs to completion on it. -/
def cexPar : CanonicalScore :=
  { meta := { key := ("C"), primary_mode := none, time_signature := ("4/4"), tempo_bpm := 100,
              style := ("Hymn"), stage := ("satb"), rationale := ("t"),
              arrangement_music_units := [], verse_music_unit_form := none }
    sections := []
    measures := [{ number := 1,
                   soprano := [cexParNote ("C5"), cexParNote ("D5")],
                   alto := [cexParNote ("C4"), cexParNote ("D4")],
                   tenor := [cexParNote ("G3"), cexParNote ("G3")],
                   bass := [cexParNote ("C3"), cexParNote ("C3")] }]
    chord_progression := [{ measure_number := 1, section_id := ("padding"), symbol := ("C#"),
                            degree := 1, pitch_classes := [1, 5, 8] }] }

/-- The diagnostics report of the counterexample score (its chord symbol
parses, so validation completes normally). -/
def cexParReport : ValidationDiagnostics :=
  match validate_score_diagnostics cexPar none with
  | Except.ok r => r
  | Except.error _ => ⟨[], []⟩

/-- C4 counterexample to the claim as stated: the score moves soprano and
alto in parallel octaves — the (uncalled) parallel checker detects it —
and validation completes normally on it (its "C#" chord symbol parses),
yet no diagnostic `validate_score_diagnostics` reports carries the
"Potential parallel" prefix, so parallel motion is NOT reported as a
warning; meanwhile the non-diatonic-chord message (a "Chord " message) is
classified as a warning, not fatal as the claim lists it. -/
theorem c4_validation_partition_counterexample :
    ¬ validate_parallel_intervals cexPar = [] ∧
    validate_score_diagnostics cexPar none = Except.ok cexParReport ∧
    (∀ m ∈ cexParReport.fatal ++ cexParReport.warnings,
      strStartsWith m ("Potential parallel") = false) ∧
    (∃ m ∈ cexParReport.warnings, strStartsWith m ("Chord ") = true) ∧
    (∀ m ∈ cexParReport.fatal, strStartsWith m ("Chord ") = false) :=
  ⟨by with_unfolding_all decide, by with_unfolding_all rfl,
   by with_unfolding_all decide, by with_unfolding_all decide,
   by with_unfolding_all decide⟩
